import Mathlib

/-! Verification of `varint.h`, the variable-length integer encoding library.

Shallow embedding of `src/varint.h`.  The header generates two function
families from one macro, `VARINT_DEFINE_ALL(name, vtype, header_bits)`:

* `varint2` : `vtype = uint32_t`, `header_bits = 2`, 1–4 bytes;
* `varint1` : `vtype = uint16_t`, `header_bits = 1`, 1–2 bytes.

Modelling conventions.

* C unsigned integers are `Nat`; a conversion to a narrower type is an explicit
  `% 2 ^ w`.  `size_t` and `unsigned long` quantities never exceed a few
  hundred (lengths, shift results below `2 ^ 30`), so they carry no reduction.
* `vtype` only fixes the range of the argument `value`; statements that range
  over every container value carry `value < 2 ^ 32` (resp. `value < 2 ^ 16`).
* `uint8_t` is `Fin 256`; a buffer `uint8_t *buf` is a `List` of bytes, its
  length being the extent of the object the pointer points into.
* An access `buf[i]` outside the buffer is undefined behaviour in C; here the
  access returns `none` and the whole call returns `none`.
* The body of `VARINT_DEFINE_ALL` is embedded once, with `header_bits` as a
  parameter, under the names `name__encode_len`, `name_encode_len`, ... (the
  macro's `name##...`); `varint2_*` and `varint1_*` are its two expansions.
-/

namespace Varint

/-- The type `uint8_t`. -/
abbrev Byte := Fin 256

/-- The conversion `(uint8_t)(x)`. -/
def to_uint8 (x : Nat) : Byte := ⟨x % 256, Nat.mod_lt x (by decide)⟩

/-- A byte buffer, the object behind `uint8_t *buf`. -/
abbrev Buf := List Byte

/-- The read `buf[i]`; `none` when `i` is outside the buffer. -/
def load (buf : Buf) (i : Nat) : Option Byte := buf[i]?

/-- The write `buf[i] = b`; `none` when `i` is outside the buffer. -/
def store (buf : Buf) (i : Nat) (b : Byte) : Option Buf :=
  if i < buf.length then some (buf.set i b) else none

/-- The struct `varint_decode_result_t`: `uint32_t value; uint8_t bytes_read`. -/
structure varint_decode_result_t where
  value : Nat
  bytes_read : Nat
  deriving DecidableEq

/-- Macro `#define VARINT_MAX_BYTES(header_bits) (1 << (header_bits))` -/
def VARINT_MAX_BYTES (header_bits : Nat) : Nat := 1 <<< header_bits

/-- Macro `#define VARINT_NBYTE_MAX(header_bits, bytes)
  ((1UL << ((bytes) * 8 - (header_bits))) - 1)` -/
def VARINT_NBYTE_MAX (header_bits bytes : Nat) : Nat :=
  (1 <<< (bytes * 8 - header_bits)) - 1

/-- Macro `#define VARINT_MAX(header_bits)
  VARINT_NBYTE_MAX(header_bits, VARINT_MAX_BYTES(header_bits))` -/
def VARINT_MAX (header_bits : Nat) : Nat :=
  VARINT_NBYTE_MAX header_bits (VARINT_MAX_BYTES header_bits)

/-- The loop of `name##__encode_len`, entered with loop variable `i`:
`for (...; i > 1; i--) if ((uint32_t)(value) > VARINT_NBYTE_MAX(header_bits, i - 1)) return i;`
followed by `return 1;`. -/
def name__encode_len_loop (header_bits value : Nat) : Nat → Nat
  | 0 => 1
  | i + 1 =>
    if i + 1 > 1 then
      if value % 2 ^ 32 > VARINT_NBYTE_MAX header_bits (i + 1 - 1) then i + 1
      else name__encode_len_loop header_bits value i
    else 1

/-- Function `name##__encode_len`: encoded byte length (1-MAX_BYTES), no range check. -/
def name__encode_len (header_bits value : Nat) : Nat :=
  name__encode_len_loop header_bits value (VARINT_MAX_BYTES header_bits)

/-- Function `name##_encode_len`: encoded byte length, or 0 if `value > MAX`. -/
def name_encode_len (header_bits value : Nat) : Nat :=
  if value % 2 ^ 32 > VARINT_MAX header_bits then 0
  else name__encode_len header_bits value

/-- The loop of `name##__encode`,
`for (size_t i = 1; i < len; i++) buf[offset + i] = (uint8_t)((value >> ((len - 1 - i) * 8)) & 0xFF);`
entered with loop variable `i` and `n = len - i` iterations left. -/
def name__encode_loop (value len offset : Nat) : Nat → Nat → Buf → Option Buf
  | 0, _, buf => some buf
  | n + 1, i, buf =>
    (store buf (offset + i) (to_uint8 ((value >>> ((len - 1 - i) * 8)) &&& 0xFF))).bind
      (name__encode_loop value len offset n (i + 1))

/-- Function `name##__encode`: encodes `value` to `buf`, returns the byte length, no
range check.  The result is the buffer after the call and the returned
length. -/
def name__encode (header_bits value : Nat) (buf : Buf) (offset : Nat) :
    Option (Buf × Nat) :=
  let len := name__encode_len header_bits value
  let mask := ((1 <<< (8 - header_bits)) - 1) % 256
  (store buf offset
      (to_uint8 (((len - 1) <<< (8 - header_bits)) |||
        ((value >>> ((len - 1) * 8)) &&& mask)))).bind fun buf1 =>
    (name__encode_loop value len offset (len - 1) 1 buf1).bind fun buf2 =>
      some (buf2, len)

/-- Function `name##_encode`: encodes `value` to `buf`, returns the byte length, or 0 if
`value > MAX`. -/
def name_encode (header_bits value : Nat) (buf : Buf) (offset : Nat) :
    Option (Buf × Nat) :=
  if value % 2 ^ 32 > VARINT_MAX header_bits then some (buf, 0)
  else name__encode header_bits value buf offset

/-- Function `name##_decode_len`: byte length from the encoded header,
`((buf[offset] >> (8 - header_bits)) & ((1 << header_bits) - 1)) + 1`. -/
def name_decode_len (header_bits : Nat) (buf : Buf) (offset : Nat) : Option Nat :=
  (load buf offset).bind fun b =>
    some (((b.val >>> (8 - header_bits)) &&& ((1 <<< header_bits) - 1)) + 1)

/-- The loop of `name##_decode`,
`for (size_t i = 1; i < len; i++) value = (value << 8) | buf[offset + i];`
entered with loop variable `i`, `n = len - i` iterations left and the
`uint32_t` accumulator `value`. -/
def name_decode_loop (buf : Buf) (offset : Nat) : Nat → Nat → Nat → Option Nat
  | 0, _, value => some value
  | n + 1, i, value =>
    (load buf (offset + i)).bind fun b =>
      name_decode_loop buf offset n (i + 1) (((value <<< 8) % 2 ^ 32) ||| b.val)

/-- Function `name##_decode`: decodes `buf` to `{value, bytes_read}`; `bytes_read` is
the `uint8_t` conversion of `len`. -/
def name_decode (header_bits : Nat) (buf : Buf) (offset : Nat) :
    Option varint_decode_result_t :=
  (name_decode_len header_bits buf offset).bind fun len =>
    let mask := ((1 <<< (8 - header_bits)) - 1) % 256
    (load buf offset).bind fun b0 =>
      (name_decode_loop buf offset (len - 1) 1 (b0.val &&& mask)).bind fun value =>
        some ⟨value, len % 256⟩

/-! ### `VARINT_DEFINE_ALL(varint2, uint32_t, 2)` -/

/-- The expansion `varint2__encode_len`. -/
def varint2__encode_len (value : Nat) : Nat := name__encode_len 2 value
/-- The expansion `varint2_encode_len`. -/
def varint2_encode_len (value : Nat) : Nat := name_encode_len 2 value
/-- The expansion `varint2__encode`. -/
def varint2__encode (value : Nat) (buf : Buf) (offset : Nat) : Option (Buf × Nat) :=
  name__encode 2 value buf offset
/-- The expansion `varint2_encode`. -/
def varint2_encode (value : Nat) (buf : Buf) (offset : Nat) : Option (Buf × Nat) :=
  name_encode 2 value buf offset
/-- The expansion `varint2_decode_len`. -/
def varint2_decode_len (buf : Buf) (offset : Nat) : Option Nat :=
  name_decode_len 2 buf offset
/-- The expansion `varint2_decode`. -/
def varint2_decode (buf : Buf) (offset : Nat) : Option varint_decode_result_t :=
  name_decode 2 buf offset

/-! ### `VARINT_DEFINE_ALL(varint1, uint16_t, 1)` -/

/-- The expansion `varint1__encode_len`. -/
def varint1__encode_len (value : Nat) : Nat := name__encode_len 1 value
/-- The expansion `varint1_encode_len`. -/
def varint1_encode_len (value : Nat) : Nat := name_encode_len 1 value
/-- The expansion `varint1__encode`. -/
def varint1__encode (value : Nat) (buf : Buf) (offset : Nat) : Option (Buf × Nat) :=
  name__encode 1 value buf offset
/-- The expansion `varint1_encode`. -/
def varint1_encode (value : Nat) (buf : Buf) (offset : Nat) : Option (Buf × Nat) :=
  name_encode 1 value buf offset
/-- The expansion `varint1_decode_len`. -/
def varint1_decode_len (buf : Buf) (offset : Nat) : Option Nat :=
  name_decode_len 1 buf offset
/-- The expansion `varint1_decode`. -/
def varint1_decode (buf : Buf) (offset : Nat) : Option varint_decode_result_t :=
  name_decode 1 buf offset


/-! ### Sequential use, as in `test_sequential_decode` -/

/-- The encoding half of `test_sequential_decode`, for any list of values:
`offset += varint2_encode(v, buf, offset);` for each value in turn.  The result
is the final buffer and the final `offset`. -/
def varint2_encode_seq : List Nat → Buf → Nat → Option (Buf × Nat)
  | [], buf, offset => some (buf, offset)
  | v :: vs, buf, offset =>
    (varint2_encode v buf offset).bind fun r => varint2_encode_seq vs r.1 (offset + r.2)

/-- The decoding half of `test_sequential_decode`, for `n` values:
`r = varint2_decode(buf, pos); pos += r.bytes_read;` `n` times.  The result is
the list of decoded values, in order, and the final `pos`. -/
def varint2_decode_seq (buf : Buf) : Nat → Nat → Option (List Nat × Nat)
  | 0, pos => some ([], pos)
  | n + 1, pos =>
    (varint2_decode buf pos).bind fun r =>
      (varint2_decode_seq buf n (pos + r.bytes_read)).bind fun rest =>
        some (r.value :: rest.1, rest.2)

/-! ### The same functions, recording the buffer indices they access

Each function below is the function of the same name without `_log`, with
`load` and `store` replaced by versions that append the accessed index to a
log.  Erasing the log gives back the original function (`name_encode_log_erase`
and its siblings). -/

/-- The read `buf[i]`, appending `i` to the log of accessed indices. -/
def load_log (buf : Buf) (log : List Nat) (i : Nat) : Option (Byte × List Nat) :=
  (load buf i).bind fun b => some (b, log ++ [i])

/-- The write `buf[i] = b`, appending `i` to the log of accessed indices. -/
def store_log (buf : Buf) (log : List Nat) (i : Nat) (b : Byte) :
    Option (Buf × List Nat) :=
  (store buf i b).bind fun buf1 => some (buf1, log ++ [i])

/-- The loop of `name##__encode` with the access log. -/
def name__encode_loop_log (value len offset : Nat) :
    Nat → Nat → Buf → List Nat → Option (Buf × List Nat)
  | 0, _, buf, log => some (buf, log)
  | n + 1, i, buf, log =>
    (store_log buf log (offset + i)
        (to_uint8 ((value >>> ((len - 1 - i) * 8)) &&& 0xFF))).bind fun s =>
      name__encode_loop_log value len offset n (i + 1) s.1 s.2

/-- Function `name##__encode` with the access log: the result is the buffer
after the call, the returned length and the indices written, in order. -/
def name__encode_log (header_bits value : Nat) (buf : Buf) (offset : Nat) :
    Option (Buf × Nat × List Nat) :=
  let len := name__encode_len header_bits value
  let mask := ((1 <<< (8 - header_bits)) - 1) % 256
  (store_log buf [] offset
      (to_uint8 (((len - 1) <<< (8 - header_bits)) |||
        ((value >>> ((len - 1) * 8)) &&& mask)))).bind fun s1 =>
    (name__encode_loop_log value len offset (len - 1) 1 s1.1 s1.2).bind fun s2 =>
      some (s2.1, len, s2.2)

/-- Function `name##_encode` with the access log. -/
def name_encode_log (header_bits value : Nat) (buf : Buf) (offset : Nat) :
    Option (Buf × Nat × List Nat) :=
  if value % 2 ^ 32 > VARINT_MAX header_bits then some (buf, 0, [])
  else name__encode_log header_bits value buf offset

/-- Function `name##_decode_len` with the access log, started from `log`. -/
def name_decode_len_log (header_bits : Nat) (buf : Buf) (log : List Nat) (offset : Nat) :
    Option (Nat × List Nat) :=
  (load_log buf log offset).bind fun s =>
    some (((s.1.val >>> (8 - header_bits)) &&& ((1 <<< header_bits) - 1)) + 1, s.2)

/-- The loop of `name##_decode` with the access log. -/
def name_decode_loop_log (buf : Buf) (offset : Nat) :
    Nat → Nat → Nat → List Nat → Option (Nat × List Nat)
  | 0, _, value, log => some (value, log)
  | n + 1, i, value, log =>
    (load_log buf log (offset + i)).bind fun s =>
      name_decode_loop_log buf offset n (i + 1) (((value <<< 8) % 2 ^ 32) ||| s.1.val) s.2

/-- Function `name##_decode` with the access log: the call of
`name##_decode_len`, the second read of `buf[offset]`, then the loop. -/
def name_decode_log (header_bits : Nat) (buf : Buf) (offset : Nat) :
    Option (varint_decode_result_t × List Nat) :=
  (name_decode_len_log header_bits buf [] offset).bind fun l =>
    let mask := ((1 <<< (8 - header_bits)) - 1) % 256
    (load_log buf l.2 offset).bind fun s0 =>
      (name_decode_loop_log buf offset (l.1 - 1) 1 (s0.1.val &&& mask) s0.2).bind fun s =>
        some (⟨s.1, l.1 % 256⟩, s.2)

/-! ### Auxiliary definitions used to state the results -/

/-- The byte that `name##__encode` stores at `buf[offset + k]` when the length
is `len`: the header byte for `k = 0`, the loop body's byte for `k ≥ 1`. -/
def enc_byte (header_bits value len k : Nat) : Byte :=
  if k = 0 then
    to_uint8 (((len - 1) <<< (8 - header_bits)) |||
      ((value >>> ((len - 1) * 8)) &&& (((1 <<< (8 - header_bits)) - 1) % 256)))
  else to_uint8 ((value >>> ((len - 1 - k) * 8)) &&& 0xFF)

/-- The bytes `bs`, most significant first, read as one unsigned integer. -/
def be_value (bs : List Byte) : Nat := bs.foldl (fun acc b => acc * 256 + b.val) 0

/-! ## Arithmetic of the bit operations -/

theorem and_mask_eq_mod (x i : Nat) : x &&& ((1 <<< i) - 1) = x % 2 ^ i := by
  rw [Nat.one_shiftLeft, Nat.and_pow_two_sub_one_eq_mod]

theorem and_0xFF_eq_mod (x : Nat) : x &&& 0xFF = x % 256 := by
  have h := Nat.and_pow_two_sub_one_eq_mod x 8
  simpa using h

theorem shiftLeft_or_eq_add (a b i : Nat) (hb : b < 2 ^ i) :
    (a <<< i) ||| b = a * 2 ^ i + b := by
  rw [Nat.shiftLeft_eq, Nat.mul_comm a, Nat.mul_add_lt_is_or hb]

theorem shl8_or_eq_add (value b : Nat) (hb : b < 256) :
    ((value <<< 8) % 2 ^ 32) ||| b = (value * 256) % 2 ^ 32 + b := by
  have h24 : (value <<< 8) % 2 ^ 32 = ((value % 2 ^ 24) <<< 8) := by
    simp only [Nat.shiftLeft_eq]
    omega
  rw [h24, shiftLeft_or_eq_add _ _ 8 (by simpa using hb)]
  omega

/-! ## Closed forms of the length functions -/

theorem varint2__encode_len_eq (v : Nat) (hv : v < 2 ^ 32) :
    varint2__encode_len v =
      if v > 4194303 then 4 else if v > 16383 then 3 else if v > 63 then 2 else 1 := by
  have hm : v % 4294967296 = v := Nat.mod_eq_of_lt hv
  simp [varint2__encode_len, name__encode_len, VARINT_MAX_BYTES, name__encode_len_loop,
    VARINT_NBYTE_MAX, hm, Nat.shiftLeft_eq]

theorem varint1__encode_len_eq (v : Nat) (hv : v < 2 ^ 32) :
    varint1__encode_len v = if v > 127 then 2 else 1 := by
  have hm : v % 4294967296 = v := Nat.mod_eq_of_lt hv
  simp [varint1__encode_len, name__encode_len, VARINT_MAX_BYTES, name__encode_len_loop,
    VARINT_NBYTE_MAX, hm, Nat.shiftLeft_eq]

theorem varint2_encode_len_eq (v : Nat) (hv : v < 2 ^ 32) :
    varint2_encode_len v =
      if v > 1073741823 then 0 else if v > 4194303 then 4 else if v > 16383 then 3
      else if v > 63 then 2 else 1 := by
  have h := varint2__encode_len_eq v hv
  have hm : v % 4294967296 = v := Nat.mod_eq_of_lt hv
  simp only [varint2__encode_len] at h
  simp [varint2_encode_len, name_encode_len, h, VARINT_MAX, VARINT_MAX_BYTES,
    VARINT_NBYTE_MAX, hm, Nat.shiftLeft_eq]

theorem varint1_encode_len_eq (v : Nat) (hv : v < 2 ^ 32) :
    varint1_encode_len v = if v > 32767 then 0 else if v > 127 then 2 else 1 := by
  have h := varint1__encode_len_eq v hv
  have hm : v % 4294967296 = v := Nat.mod_eq_of_lt hv
  simp only [varint1__encode_len] at h
  simp [varint1_encode_len, name_encode_len, h, VARINT_MAX, VARINT_MAX_BYTES,
    VARINT_NBYTE_MAX, hm, Nat.shiftLeft_eq]

/-! ## What `name##__encode` writes -/

theorem store_of_lt (buf : Buf) (i : Nat) (b : Byte) (h : i < buf.length) :
    store buf i b = some (buf.set i b) := by
  simp [store, h]

theorem name__encode_loop_spec (value len offset : Nat) :
    ∀ (n i : Nat) (buf : Buf), 1 ≤ i → offset + i + n ≤ buf.length →
      ∃ buf1, name__encode_loop value len offset n i buf = some buf1 ∧
        buf1.length = buf.length ∧
        ∀ j, buf1[j]? =
          if offset + i ≤ j ∧ j < offset + i + n then
            some (enc_byte 0 value len (j - offset))
          else buf[j]? := by
  intro n
  induction n with
  | zero =>
    intro i buf _ _
    refine ⟨buf, rfl, rfl, fun j => ?_⟩
    rw [if_neg (by omega)]
  | succ n ih =>
    intro i buf hi hlen
    have hs := store_of_lt buf (offset + i)
      (to_uint8 ((value >>> ((len - 1 - i) * 8)) &&& 0xFF)) (by omega)
    obtain ⟨buf1, h1, h2, h3⟩ := ih (i + 1)
      (buf.set (offset + i) (to_uint8 ((value >>> ((len - 1 - i) * 8)) &&& 0xFF)))
      (by omega) (by simp only [List.length_set]; omega)
    refine ⟨buf1, ?_, ?_, fun j => ?_⟩
    · simp only [name__encode_loop, hs, Option.some_bind, Option.bind_eq_bind]
      exact h1
    · simpa using h2
    · rw [h3 j]
      by_cases hj : offset + i = j
      · subst hj
        rw [if_neg (by omega), if_pos (by omega), List.getElem?_set_self (by omega)]
        have : offset + i - offset = i := by omega
        rw [this, enc_byte, if_neg (by omega)]
      · rw [List.getElem?_set_ne hj]
        by_cases hc : offset + (i + 1) ≤ j ∧ j < offset + (i + 1) + n
        · rw [if_pos hc, if_pos (by omega)]
        · rw [if_neg hc, if_neg (by omega)]

theorem name__encode_spec (header_bits value : Nat) (buf : Buf) (offset : Nat)
    (hlen : 1 ≤ name__encode_len header_bits value)
    (hroom : offset + name__encode_len header_bits value ≤ buf.length) :
    ∃ buf1, name__encode header_bits value buf offset =
        some (buf1, name__encode_len header_bits value) ∧
      buf1.length = buf.length ∧
      ∀ j, buf1[j]? =
        if offset ≤ j ∧ j < offset + name__encode_len header_bits value then
          some (enc_byte header_bits value (name__encode_len header_bits value) (j - offset))
        else buf[j]? := by
  generalize hL : name__encode_len header_bits value = len at hlen hroom
  have hs := store_of_lt buf offset (enc_byte header_bits value len 0) (by omega)
  obtain ⟨buf1, h1, h2, h3⟩ := name__encode_loop_spec value len offset (len - 1) 1
    (buf.set offset (enc_byte header_bits value len 0)) (by omega)
    (by simp only [List.length_set]; omega)
  refine ⟨buf1, ?_, by simpa using h2, fun j => ?_⟩
  · have hs0 : store buf offset (to_uint8 (((len - 1) <<< (8 - header_bits)) |||
        ((value >>> ((len - 1) * 8)) &&& (((1 <<< (8 - header_bits)) - 1) % 256)))) =
        some (buf.set offset (enc_byte header_bits value len 0)) := by
      simpa [enc_byte] using hs
    simp only [name__encode, hL, hs0, h1, Option.some_bind, Option.bind_eq_bind]
  · rw [h3 j]
    by_cases hj : offset = j
    · subst hj
      rw [if_neg (by omega), if_pos (by omega), List.getElem?_set_self (by omega)]
      simp
    · rw [List.getElem?_set_ne hj]
      by_cases hc : offset + 1 ≤ j ∧ j < offset + 1 + (len - 1)
      · rw [if_pos hc, if_pos (by omega)]
        have hk : j - offset ≠ 0 := by omega
        simp only [enc_byte, if_neg hk]
      · rw [if_neg hc, if_neg (by omega)]

/-! ## Numeric value of the written bytes -/

theorem enc_byte_zero_val (header_bits value len : Nat) (hH : header_bits ≤ 8) :
    (enc_byte header_bits value len 0).val =
      ((len - 1) * 2 ^ (8 - header_bits) +
        (value / 2 ^ ((len - 1) * 8)) % 2 ^ (8 - header_bits)) % 256 := by
  have hle : 2 ^ (8 - header_bits) ≤ 2 ^ 8 := Nat.pow_le_pow_right (by decide) (by omega)
  have hpos : 0 < 2 ^ (8 - header_bits) := Nat.pow_pos (by decide)
  have hmask : ((1 <<< (8 - header_bits)) - 1) % 256 = (1 <<< (8 - header_bits)) - 1 := by
    rw [Nat.one_shiftLeft]
    apply Nat.mod_eq_of_lt
    have : (2 : Nat) ^ 8 = 256 := by norm_num
    omega
  simp only [enc_byte, if_pos, to_uint8, hmask, and_mask_eq_mod, Nat.shiftRight_eq_div_pow]
  rw [shiftLeft_or_eq_add _ _ _ (Nat.mod_lt _ hpos)]

theorem enc_byte_succ_val (header_bits value len k : Nat) (hk : k ≠ 0) :
    (enc_byte header_bits value len k).val = (value / 2 ^ ((len - 1 - k) * 8)) % 256 := by
  simp only [enc_byte, if_neg hk, to_uint8, and_0xFF_eq_mod, Nat.shiftRight_eq_div_pow]
  omega

/-! ## Decoding freshly written bytes -/

theorem name_decode_of_load (header_bits : Nat) (buf : Buf) (offset : Nat) (b0 : Byte)
    (hH : header_bits ≤ 8) (h0 : buf[offset]? = some b0) :
    name_decode header_bits buf offset =
      (name_decode_loop buf offset ((b0.val / 2 ^ (8 - header_bits)) % 2 ^ header_bits) 1
        (b0.val % 2 ^ (8 - header_bits))).bind fun value =>
        some ⟨value, ((b0.val / 2 ^ (8 - header_bits)) % 2 ^ header_bits + 1) % 256⟩ := by
  have hle : 2 ^ (8 - header_bits) ≤ 2 ^ 8 := Nat.pow_le_pow_right (by decide) (by omega)
  have hpos : 0 < 2 ^ (8 - header_bits) := Nat.pow_pos (by decide)
  have hmask : ((1 <<< (8 - header_bits)) - 1) % 256 = (1 <<< (8 - header_bits)) - 1 := by
    rw [Nat.one_shiftLeft]
    apply Nat.mod_eq_of_lt
    have : (2 : Nat) ^ 8 = 256 := by norm_num
    omega
  simp only [name_decode, name_decode_len, load, h0, Option.some_bind, Option.bind_eq_bind,
    hmask, and_mask_eq_mod, Nat.shiftRight_eq_div_pow, Nat.add_sub_cancel]

theorem varint2_decode_enc (v : Nat) (hv : v ≤ 1073741823) (buf : Buf) (offset : Nat)
    (hb : ∀ k, k < varint2__encode_len v →
      buf[offset + k]? = some (enc_byte 2 v (varint2__encode_len v) k)) :
    varint2_decode buf offset = some ⟨v, varint2__encode_len v⟩ := by
  rw [varint2__encode_len_eq v (by omega)] at hb ⊢
  split_ifs at hb ⊢ with h4 h3 h2
  · have b0 := hb 0 (by omega)
    have b1 := hb 1 (by omega)
    have b2 := hb 2 (by omega)
    have b3 := hb 3 (by omega)
    simp only [Nat.add_zero] at b0
    have e0 := enc_byte_zero_val 2 v 4 (by decide)
    have e1 := enc_byte_succ_val 2 v 4 1 (by decide)
    have e2 := enc_byte_succ_val 2 v 4 2 (by decide)
    have e3 := enc_byte_succ_val 2 v 4 3 (by decide)
    norm_num at e0 e1 e2 e3
    have hh : (enc_byte 2 v 4 0).val / 2 ^ (8 - 2) % 2 ^ 2 = 3 := by
      norm_num
      omega
    rw [varint2_decode, name_decode_of_load 2 buf offset _ (by decide) b0, hh]
    simp only [name_decode_loop, load, b1, b2, b3, Option.some_bind, Option.bind_eq_bind,
      shl8_or_eq_add _ _ (Fin.isLt _)]
    norm_num
    omega
  · have b0 := hb 0 (by omega)
    have b1 := hb 1 (by omega)
    have b2 := hb 2 (by omega)
    simp only [Nat.add_zero] at b0
    have e0 := enc_byte_zero_val 2 v 3 (by decide)
    have e1 := enc_byte_succ_val 2 v 3 1 (by decide)
    have e2 := enc_byte_succ_val 2 v 3 2 (by decide)
    norm_num at e0 e1 e2
    have hh : (enc_byte 2 v 3 0).val / 2 ^ (8 - 2) % 2 ^ 2 = 2 := by
      norm_num
      omega
    rw [varint2_decode, name_decode_of_load 2 buf offset _ (by decide) b0, hh]
    simp only [name_decode_loop, load, b1, b2, Option.some_bind, Option.bind_eq_bind,
      shl8_or_eq_add _ _ (Fin.isLt _)]
    norm_num
    omega
  · have b0 := hb 0 (by omega)
    have b1 := hb 1 (by omega)
    simp only [Nat.add_zero] at b0
    have e0 := enc_byte_zero_val 2 v 2 (by decide)
    have e1 := enc_byte_succ_val 2 v 2 1 (by decide)
    norm_num at e0 e1
    have hh : (enc_byte 2 v 2 0).val / 2 ^ (8 - 2) % 2 ^ 2 = 1 := by
      norm_num
      omega
    rw [varint2_decode, name_decode_of_load 2 buf offset _ (by decide) b0, hh]
    simp only [name_decode_loop, load, b1, Option.some_bind, Option.bind_eq_bind,
      shl8_or_eq_add _ _ (Fin.isLt _)]
    norm_num
    omega
  · have b0 := hb 0 (by omega)
    simp only [Nat.add_zero] at b0
    have e0 := enc_byte_zero_val 2 v 1 (by decide)
    norm_num at e0
    have hh : (enc_byte 2 v 1 0).val / 2 ^ (8 - 2) % 2 ^ 2 = 0 := by
      norm_num
      omega
    rw [varint2_decode, name_decode_of_load 2 buf offset _ (by decide) b0, hh]
    simp only [name_decode_loop, load, Option.some_bind, Option.bind_eq_bind,
      shl8_or_eq_add _ _ (Fin.isLt _)]
    norm_num
    omega

theorem varint1_decode_enc (v : Nat) (hv : v ≤ 32767) (buf : Buf) (offset : Nat)
    (hb : ∀ k, k < varint1__encode_len v →
      buf[offset + k]? = some (enc_byte 1 v (varint1__encode_len v) k)) :
    varint1_decode buf offset = some ⟨v, varint1__encode_len v⟩ := by
  rw [varint1__encode_len_eq v (by omega)] at hb ⊢
  split_ifs at hb ⊢ with h2
  · have b0 := hb 0 (by omega)
    have b1 := hb 1 (by omega)
    simp only [Nat.add_zero] at b0
    have e0 := enc_byte_zero_val 1 v 2 (by decide)
    have e1 := enc_byte_succ_val 1 v 2 1 (by decide)
    norm_num at e0 e1
    have hh : (enc_byte 1 v 2 0).val / 2 ^ (8 - 1) % 2 ^ 1 = 1 := by
      norm_num
      omega
    rw [varint1_decode, name_decode_of_load 1 buf offset _ (by decide) b0, hh]
    simp only [name_decode_loop, load, b1, Option.some_bind, Option.bind_eq_bind,
      shl8_or_eq_add _ _ (Fin.isLt _)]
    norm_num
    omega
  · have b0 := hb 0 (by omega)
    simp only [Nat.add_zero] at b0
    have e0 := enc_byte_zero_val 1 v 1 (by decide)
    norm_num at e0
    have hh : (enc_byte 1 v 1 0).val / 2 ^ (8 - 1) % 2 ^ 1 = 0 := by
      norm_num
      omega
    rw [varint1_decode, name_decode_of_load 1 buf offset _ (by decide) b0, hh]
    simp only [name_decode_loop, load, Option.some_bind, Option.bind_eq_bind,
      shl8_or_eq_add _ _ (Fin.isLt _)]
    norm_num
    omega

/-! ## The checked entry points on values in range -/

theorem VARINT_MAX_two : VARINT_MAX 2 = 1073741823 := by
  simp [VARINT_MAX, VARINT_MAX_BYTES, VARINT_NBYTE_MAX, Nat.shiftLeft_eq]

theorem VARINT_MAX_one : VARINT_MAX 1 = 32767 := by
  simp [VARINT_MAX, VARINT_MAX_BYTES, VARINT_NBYTE_MAX, Nat.shiftLeft_eq]

theorem varint2_encode_len_of_le (v : Nat) (hv : v ≤ 1073741823) :
    varint2_encode_len v = varint2__encode_len v := by
  have hm : v % 2 ^ 32 = v := Nat.mod_eq_of_lt (by omega)
  simp only [varint2_encode_len, name_encode_len, VARINT_MAX_two, hm, varint2__encode_len]
  rw [if_neg (by omega)]

theorem varint1_encode_len_of_le (v : Nat) (hv : v ≤ 32767) :
    varint1_encode_len v = varint1__encode_len v := by
  have hm : v % 2 ^ 32 = v := Nat.mod_eq_of_lt (by omega)
  simp only [varint1_encode_len, name_encode_len, VARINT_MAX_one, hm, varint1__encode_len]
  rw [if_neg (by omega)]

theorem varint2_encode_of_le (v : Nat) (buf : Buf) (offset : Nat) (hv : v ≤ 1073741823) :
    varint2_encode v buf offset = varint2__encode v buf offset := by
  have hm : v % 2 ^ 32 = v := Nat.mod_eq_of_lt (by omega)
  simp only [varint2_encode, name_encode, VARINT_MAX_two, hm, varint2__encode]
  rw [if_neg (by omega)]

theorem varint1_encode_of_le (v : Nat) (buf : Buf) (offset : Nat) (hv : v ≤ 32767) :
    varint1_encode v buf offset = varint1__encode v buf offset := by
  have hm : v % 2 ^ 32 = v := Nat.mod_eq_of_lt (by omega)
  simp only [varint1_encode, name_encode, VARINT_MAX_one, hm, varint1__encode]
  rw [if_neg (by omega)]

theorem varint2_encode_len_pos (v : Nat) (hv : v ≤ 1073741823) :
    1 ≤ varint2_encode_len v ∧ varint2_encode_len v ≤ 4 := by
  rw [varint2_encode_len_eq v (by omega)]
  split_ifs <;> omega

theorem varint1_encode_len_pos (v : Nat) (hv : v ≤ 32767) :
    1 ≤ varint1_encode_len v ∧ varint1_encode_len v ≤ 2 := by
  rw [varint1_encode_len_eq v (by omega)]
  split_ifs <;> omega

/-- On a value in range and a buffer with room, `varint2_encode` returns
`varint2_encode_len v`, keeps the length of the buffer, stores `enc_byte` at the
`varint2_encode_len v` indices from `offset` on and leaves every other index
alone. -/
theorem varint2_encode_ok (v : Nat) (buf : Buf) (offset : Nat) (hv : v ≤ 1073741823)
    (hroom : offset + varint2_encode_len v ≤ buf.length) :
    ∃ buf1, varint2_encode v buf offset = some (buf1, varint2_encode_len v) ∧
      buf1.length = buf.length ∧
      ∀ j, buf1[j]? =
        if offset ≤ j ∧ j < offset + varint2_encode_len v then
          some (enc_byte 2 v (varint2_encode_len v) (j - offset))
        else buf[j]? := by
  have hp := (varint2_encode_len_pos v hv).1
  rw [varint2_encode_of_le v buf offset hv]
  rw [varint2_encode_len_of_le v hv] at hroom hp ⊢
  exact name__encode_spec 2 v buf offset hp hroom

/-- The same for `varint1_encode`. -/
theorem varint1_encode_ok (v : Nat) (buf : Buf) (offset : Nat) (hv : v ≤ 32767)
    (hroom : offset + varint1_encode_len v ≤ buf.length) :
    ∃ buf1, varint1_encode v buf offset = some (buf1, varint1_encode_len v) ∧
      buf1.length = buf.length ∧
      ∀ j, buf1[j]? =
        if offset ≤ j ∧ j < offset + varint1_encode_len v then
          some (enc_byte 1 v (varint1_encode_len v) (j - offset))
        else buf[j]? := by
  have hp := (varint1_encode_len_pos v hv).1
  rw [varint1_encode_of_le v buf offset hv]
  rw [varint1_encode_len_of_le v hv] at hroom hp ⊢
  exact name__encode_spec 1 v buf offset hp hroom

/-- A buffer holding the bytes of the encoding of `v` at `offset` decodes to
`v` there (`varint2`). -/
theorem varint2_decode_of_bytes (v : Nat) (hv : v ≤ 1073741823) (buf : Buf) (offset : Nat)
    (hb : ∀ k, k < varint2_encode_len v →
      buf[offset + k]? = some (enc_byte 2 v (varint2_encode_len v) k)) :
    varint2_decode buf offset = some ⟨v, varint2_encode_len v⟩ := by
  rw [varint2_encode_len_of_le v hv] at hb ⊢
  exact varint2_decode_enc v hv buf offset hb

/-- A buffer holding the bytes of the encoding of `v` at `offset` decodes to
`v` there (`varint1`). -/
theorem varint1_decode_of_bytes (v : Nat) (hv : v ≤ 32767) (buf : Buf) (offset : Nat)
    (hb : ∀ k, k < varint1_encode_len v →
      buf[offset + k]? = some (enc_byte 1 v (varint1_encode_len v) k)) :
    varint1_decode buf offset = some ⟨v, varint1_encode_len v⟩ := by
  rw [varint1_encode_len_of_le v hv] at hb ⊢
  exact varint1_decode_enc v hv buf offset hb

/-! ## C1 — round trip -/

/-- C1 (round trip).  For `varint2` with `v ≤ 1073741823` and for `varint1` with
`v ≤ 32767`, for every buffer and every offset with
`offset + encode_len v ≤ length buf`: `encode v buf offset` returns
`encode_len v` together with a buffer `buf1`, and `decode buf1 offset` returns
`value = v` and `bytes_read = encode_len v`. -/
theorem C1_round_trip :
    (∀ (v : Nat) (buf : Buf) (offset : Nat), v ≤ 1073741823 →
      offset + varint2_encode_len v ≤ buf.length →
      ∃ buf1, varint2_encode v buf offset = some (buf1, varint2_encode_len v) ∧
        varint2_decode buf1 offset = some ⟨v, varint2_encode_len v⟩) ∧
    (∀ (v : Nat) (buf : Buf) (offset : Nat), v ≤ 32767 →
      offset + varint1_encode_len v ≤ buf.length →
      ∃ buf1, varint1_encode v buf offset = some (buf1, varint1_encode_len v) ∧
        varint1_decode buf1 offset = some ⟨v, varint1_encode_len v⟩) := by
  constructor
  · intro v buf offset hv hroom
    obtain ⟨buf1, h1, _, h3⟩ := varint2_encode_ok v buf offset hv hroom
    refine ⟨buf1, h1, varint2_decode_of_bytes v hv buf1 offset fun k hk => ?_⟩
    rw [h3 (offset + k), if_pos (by omega), Nat.add_sub_cancel_left]
  · intro v buf offset hv hroom
    obtain ⟨buf1, h1, _, h3⟩ := varint1_encode_ok v buf offset hv hroom
    refine ⟨buf1, h1, varint1_decode_of_bytes v hv buf1 offset fun k hk => ?_⟩
    rw [h3 (offset + k), if_pos (by omega), Nat.add_sub_cancel_left]

/-- Witness of C1: `1000` at offset 2 of a ten-byte buffer with padding
`0xAA 0xBB` (`varint2`), and `300` at offset 1 of a four-byte buffer
(`varint1`). -/
theorem C1_round_trip_witness :
    (1000 ≤ 1073741823 ∧
      2 + varint2_encode_len 1000 ≤ ([0xAA, 0xBB, 0, 0, 0, 0, 0, 0, 0, 0] : Buf).length ∧
      ∃ buf1, varint2_encode 1000 [0xAA, 0xBB, 0, 0, 0, 0, 0, 0, 0, 0] 2 =
          some (buf1, varint2_encode_len 1000) ∧
        varint2_decode buf1 2 = some ⟨1000, varint2_encode_len 1000⟩) ∧
    (300 ≤ 32767 ∧ 1 + varint1_encode_len 300 ≤ ([0xCC, 0, 0, 0] : Buf).length ∧
      ∃ buf1, varint1_encode 300 [0xCC, 0, 0, 0] 1 = some (buf1, varint1_encode_len 300) ∧
        varint1_decode buf1 1 = some ⟨300, varint1_encode_len 300⟩) :=
  ⟨⟨by decide, by decide, C1_round_trip.1 1000 _ 2 (by decide) (by decide)⟩,
    ⟨by decide, by decide, C1_round_trip.2 300 _ 1 (by decide) (by decide)⟩⟩

/-! ## C2 — minimality -/

/-- C2 (minimality).  For `varint2` (`H = 2`, at most 4 bytes) and `varint1`
(`H = 1`, at most 2 bytes) and every `v` up to the format maximum,
`encode_len v` lies in `1..maxBytes`, satisfies `v ≤ 2 ^ (8 * encode_len v - H) - 1`,
is below every other `L` in `1..maxBytes` with `v ≤ 2 ^ (8 * L - H) - 1`, and when
it exceeds 1 then `v > 2 ^ (8 * (encode_len v - 1) - H) - 1`. -/
theorem C2_minimality :
    (∀ v : Nat, v ≤ 1073741823 →
      (1 ≤ varint2_encode_len v ∧ varint2_encode_len v ≤ 4) ∧
      v ≤ 2 ^ (8 * varint2_encode_len v - 2) - 1 ∧
      (∀ L : Nat, 1 ≤ L → L ≤ 4 → v ≤ 2 ^ (8 * L - 2) - 1 → varint2_encode_len v ≤ L) ∧
      (varint2_encode_len v > 1 → v > 2 ^ (8 * (varint2_encode_len v - 1) - 2) - 1)) ∧
    (∀ v : Nat, v ≤ 32767 →
      (1 ≤ varint1_encode_len v ∧ varint1_encode_len v ≤ 2) ∧
      v ≤ 2 ^ (8 * varint1_encode_len v - 1) - 1 ∧
      (∀ L : Nat, 1 ≤ L → L ≤ 2 → v ≤ 2 ^ (8 * L - 1) - 1 → varint1_encode_len v ≤ L) ∧
      (varint1_encode_len v > 1 → v > 2 ^ (8 * (varint1_encode_len v - 1) - 1) - 1)) := by
  constructor
  · intro v hv
    rw [varint2_encode_len_eq v (by omega), if_neg (by omega)]
    split_ifs with h4 h3 h2
    · refine ⟨by omega, by norm_num; omega, fun L h1 hL hle => ?_, fun _ => by norm_num; omega⟩
      interval_cases L <;> norm_num at hle <;> omega
    · refine ⟨by omega, by norm_num; omega, fun L h1 hL hle => ?_, fun _ => by norm_num; omega⟩
      interval_cases L <;> norm_num at hle <;> omega
    · refine ⟨by omega, by norm_num; omega, fun L h1 hL hle => ?_, fun _ => by norm_num; omega⟩
      interval_cases L <;> norm_num at hle <;> omega
    · refine ⟨by omega, by norm_num; omega, fun L h1 hL hle => h1, fun h => by omega⟩
  · intro v hv
    rw [varint1_encode_len_eq v (by omega), if_neg (by omega)]
    split_ifs with h2
    · refine ⟨by omega, by norm_num; omega, fun L h1 hL hle => ?_, fun _ => by norm_num; omega⟩
      interval_cases L <;> norm_num at hle <;> omega
    · refine ⟨by omega, by norm_num; omega, fun L h1 hL hle => h1, fun h => by omega⟩

/-- Witness of C2 at the thresholds `64` (`varint2`, two bytes) and `128`
(`varint1`, two bytes). -/
theorem C2_minimality_witness :
    (64 ≤ 1073741823 ∧
      (1 ≤ varint2_encode_len 64 ∧ varint2_encode_len 64 ≤ 4) ∧
      64 ≤ 2 ^ (8 * varint2_encode_len 64 - 2) - 1 ∧
      (∀ L : Nat, 1 ≤ L → L ≤ 4 → 64 ≤ 2 ^ (8 * L - 2) - 1 → varint2_encode_len 64 ≤ L) ∧
      (varint2_encode_len 64 > 1 → 64 > 2 ^ (8 * (varint2_encode_len 64 - 1) - 2) - 1)) ∧
    (128 ≤ 32767 ∧
      (1 ≤ varint1_encode_len 128 ∧ varint1_encode_len 128 ≤ 2) ∧
      128 ≤ 2 ^ (8 * varint1_encode_len 128 - 1) - 1 ∧
      (∀ L : Nat, 1 ≤ L → L ≤ 2 → 128 ≤ 2 ^ (8 * L - 1) - 1 → varint1_encode_len 128 ≤ L) ∧
      (varint1_encode_len 128 > 1 → 128 > 2 ^ (8 * (varint1_encode_len 128 - 1) - 1) - 1)) :=
  ⟨⟨by decide, C2_minimality.1 64 (by decide)⟩, ⟨by decide, C2_minimality.2 128 (by decide)⟩⟩

/-! ## C3 — overflow sentinel of `encode_len` -/

/-- C3 (overflow sentinel).  For every `uint32_t` value `v`,
`varint2_encode_len v = 0` exactly when `v > 1073741823`, and otherwise
`1 ≤ varint2_encode_len v ≤ 4`; for every `uint16_t` value `v`,
`varint1_encode_len v = 0` exactly when `v > 32767`, and otherwise
`1 ≤ varint1_encode_len v ≤ 2`.  In particular the lengths of `1073741824`,
`0xFFFFFFFF` (`varint2`) and of `32768`, `0xFFFF` (`varint1`) are 0. -/
theorem C3_encode_len_overflow :
    (∀ v : Nat, v < 2 ^ 32 →
      (varint2_encode_len v = 0 ↔ v > 1073741823) ∧
      (¬ v > 1073741823 → 1 ≤ varint2_encode_len v ∧ varint2_encode_len v ≤ 4)) ∧
    (∀ v : Nat, v < 2 ^ 16 →
      (varint1_encode_len v = 0 ↔ v > 32767) ∧
      (¬ v > 32767 → 1 ≤ varint1_encode_len v ∧ varint1_encode_len v ≤ 2)) ∧
    varint2_encode_len 1073741824 = 0 ∧ varint2_encode_len 0xFFFFFFFF = 0 ∧
    varint1_encode_len 32768 = 0 ∧ varint1_encode_len 0xFFFF = 0 := by
  refine ⟨fun v hv => ?_, fun v hv => ?_, by decide, by decide, by decide, by decide⟩
  · rw [varint2_encode_len_eq v hv]
    split_ifs <;> simp <;> omega
  · rw [varint1_encode_len_eq v (by omega)]
    split_ifs <;> simp <;> omega

/-- Witness of C3 at the first value out of range of each format. -/
theorem C3_encode_len_overflow_witness :
    (1073741824 < 2 ^ 32 ∧ (varint2_encode_len 1073741824 = 0 ↔ 1073741824 > 1073741823)) ∧
    (32768 < 2 ^ 16 ∧ (varint1_encode_len 32768 = 0 ↔ 32768 > 32767)) ∧
    (¬ 63 > 1073741823 ∧ 1 ≤ varint2_encode_len 63 ∧ varint2_encode_len 63 ≤ 4) ∧
    (¬ 127 > 32767 ∧ 1 ≤ varint1_encode_len 127 ∧ varint1_encode_len 127 ≤ 2) :=
  ⟨⟨by decide, (C3_encode_len_overflow.1 1073741824 (by decide)).1⟩,
    ⟨by decide, (C3_encode_len_overflow.2.1 32768 (by decide)).1⟩,
    ⟨by decide, (C3_encode_len_overflow.1 63 (by decide)).2 (by decide)⟩,
    ⟨by decide, (C3_encode_len_overflow.2.1 127 (by decide)).2 (by decide)⟩⟩

/-! ## C4 — `encode` writes nothing on overflow -/

/-- C4 (encode is atomic on overflow).  For every `uint32_t` value
`v > 1073741823`, and every `uint16_t` value `v > 32767` for `varint1`, every
buffer and every offset (in bounds or not), `encode v buf offset` returns 0 and
the buffer afterwards is `buf` itself. -/
theorem C4_encode_overflow_atomic :
    (∀ (v : Nat) (buf : Buf) (offset : Nat), v < 2 ^ 32 → v > 1073741823 →
      varint2_encode v buf offset = some (buf, 0)) ∧
    (∀ (v : Nat) (buf : Buf) (offset : Nat), v < 2 ^ 16 → v > 32767 →
      varint1_encode v buf offset = some (buf, 0)) := by
  constructor
  · intro v buf offset hv hgt
    have hm : v % 2 ^ 32 = v := Nat.mod_eq_of_lt hv
    simp only [varint2_encode, name_encode, VARINT_MAX_two, hm]
    rw [if_pos hgt]
  · intro v buf offset hv hgt
    have hm : v % 2 ^ 32 = v := Nat.mod_eq_of_lt (by omega)
    simp only [varint1_encode, name_encode, VARINT_MAX_one, hm]
    rw [if_pos hgt]

/-- Witness of C4: the overflow calls of `test_varint2_overflow` and
`test_varint1_overflow`, on buffers with visible content. -/
theorem C4_encode_overflow_atomic_witness :
    (0xFFFFFFFF < 2 ^ 32 ∧ 0xFFFFFFFF > 1073741823 ∧
      varint2_encode 0xFFFFFFFF [1, 2, 3, 4] 0 = some ([1, 2, 3, 4], 0)) ∧
    (32768 < 2 ^ 16 ∧ 32768 > 32767 ∧
      varint1_encode 32768 [5, 6] 0 = some ([5, 6], 0)) :=
  ⟨⟨by decide, by decide, C4_encode_overflow_atomic.1 0xFFFFFFFF [1, 2, 3, 4] 0
      (by decide) (by decide)⟩,
    ⟨by decide, by decide, C4_encode_overflow_atomic.2 32768 [5, 6] 0 (by decide) (by decide)⟩⟩

/-! ## C5 — wire layout -/

theorem window_eq (buf : Buf) (offset L : Nat) (f : Nat → Byte)
    (h : ∀ k, k < L → buf[offset + k]? = some (f k)) :
    (buf.drop offset).take L = (List.range L).map f := by
  apply List.ext_getElem?
  intro k
  by_cases hk : k < L
  · simp [List.getElem?_take, List.getElem?_drop, List.getElem?_range, hk, h k hk]
  · have hnone : (List.range L)[k]? = none := List.getElem?_eq_none (by simp; omega)
    simp [List.getElem?_take, hk, hnone]

theorem varint2_layout (v : Nat) (hv : v ≤ 1073741823) :
    be_value ((List.range (varint2_encode_len v)).map (enc_byte 2 v (varint2_encode_len v))) =
      (varint2_encode_len v - 1) * 2 ^ (8 * varint2_encode_len v - 2) + v ∧
    (enc_byte 2 v (varint2_encode_len v) 0).val >>> (8 - 2) = varint2_encode_len v - 1 ∧
    (enc_byte 2 v (varint2_encode_len v) 0).val &&& (2 ^ (8 - 2) - 1) =
      v >>> (8 * (varint2_encode_len v - 1)) := by
  rw [varint2_encode_len_eq v (by omega), if_neg (by omega)]
  split_ifs with h4 h3 h2
  · have e0 := enc_byte_zero_val 2 v 4 (by decide)
    have e1 := enc_byte_succ_val 2 v 4 1 (by decide)
    have e2 := enc_byte_succ_val 2 v 4 2 (by decide)
    have e3 := enc_byte_succ_val 2 v 4 3 (by decide)
    norm_num at e0 e1 e2 e3
    refine ⟨?_, ?_, ?_⟩
    · simp only [show List.range 4 = [0, 1, 2, 3] from rfl, List.map, be_value, List.foldl,
        e0, e1, e2, e3]
      norm_num
      omega
    · rw [Nat.shiftRight_eq_div_pow, e0]
      norm_num
      omega
    · rw [Nat.and_pow_two_sub_one_eq_mod, Nat.shiftRight_eq_div_pow, e0]
      norm_num
      omega
  · have e0 := enc_byte_zero_val 2 v 3 (by decide)
    have e1 := enc_byte_succ_val 2 v 3 1 (by decide)
    have e2 := enc_byte_succ_val 2 v 3 2 (by decide)
    norm_num at e0 e1 e2
    refine ⟨?_, ?_, ?_⟩
    · simp only [show List.range 3 = [0, 1, 2] from rfl, List.map, be_value, List.foldl,
        e0, e1, e2]
      norm_num
      omega
    · rw [Nat.shiftRight_eq_div_pow, e0]
      norm_num
      omega
    · rw [Nat.and_pow_two_sub_one_eq_mod, Nat.shiftRight_eq_div_pow, e0]
      norm_num
      omega
  · have e0 := enc_byte_zero_val 2 v 2 (by decide)
    have e1 := enc_byte_succ_val 2 v 2 1 (by decide)
    norm_num at e0 e1
    refine ⟨?_, ?_, ?_⟩
    · simp only [show List.range 2 = [0, 1] from rfl, List.map, be_value, List.foldl,
        e0, e1]
      norm_num
      omega
    · rw [Nat.shiftRight_eq_div_pow, e0]
      norm_num
      omega
    · rw [Nat.and_pow_two_sub_one_eq_mod, Nat.shiftRight_eq_div_pow, e0]
      norm_num
      omega
  · have e0 := enc_byte_zero_val 2 v 1 (by decide)
    norm_num at e0
    refine ⟨?_, ?_, ?_⟩
    · simp only [show List.range 1 = [0] from rfl, List.map, be_value, List.foldl,
        e0]
      norm_num
      omega
    · rw [Nat.shiftRight_eq_div_pow, e0]
      norm_num
      omega
    · rw [Nat.and_pow_two_sub_one_eq_mod, Nat.shiftRight_eq_div_pow, e0]
      norm_num
      omega

theorem varint1_layout (v : Nat) (hv : v ≤ 32767) :
    be_value ((List.range (varint1_encode_len v)).map (enc_byte 1 v (varint1_encode_len v))) =
      (varint1_encode_len v - 1) * 2 ^ (8 * varint1_encode_len v - 1) + v ∧
    (enc_byte 1 v (varint1_encode_len v) 0).val >>> (8 - 1) = varint1_encode_len v - 1 ∧
    (enc_byte 1 v (varint1_encode_len v) 0).val &&& (2 ^ (8 - 1) - 1) =
      v >>> (8 * (varint1_encode_len v - 1)) := by
  rw [varint1_encode_len_eq v (by omega), if_neg (by omega)]
  split_ifs with h2
  · have e0 := enc_byte_zero_val 1 v 2 (by decide)
    have e1 := enc_byte_succ_val 1 v 2 1 (by decide)
    norm_num at e0 e1
    refine ⟨?_, ?_, ?_⟩
    · simp only [show List.range 2 = [0, 1] from rfl, List.map, be_value, List.foldl,
        e0, e1]
      norm_num
      omega
    · rw [Nat.shiftRight_eq_div_pow, e0]
      norm_num
      omega
    · rw [Nat.and_pow_two_sub_one_eq_mod, Nat.shiftRight_eq_div_pow, e0]
      norm_num
      omega
  · have e0 := enc_byte_zero_val 1 v 1 (by decide)
    norm_num at e0
    refine ⟨?_, ?_, ?_⟩
    · simp only [show List.range 1 = [0] from rfl, List.map, be_value, List.foldl,
        e0]
      norm_num
      omega
    · rw [Nat.shiftRight_eq_div_pow, e0]
      norm_num
      omega
    · rw [Nat.and_pow_two_sub_one_eq_mod, Nat.shiftRight_eq_div_pow, e0]
      norm_num
      omega

theorem enc_byte_succ_and (header_bits value len k : Nat) (hk : k ≠ 0) :
    (enc_byte header_bits value len k).val = (value >>> (8 * (len - 1 - k))) &&& 0xFF := by
  simp only [enc_byte, if_neg hk, to_uint8, and_0xFF_eq_mod, Nat.mul_comm 8]
  omega

/-- C5 (bit-exact big-endian wire layout).  For `varint2` (`H = 2`) and
`varint1` (`H = 1`), every `v` in range with `L = encode_len v` and every
buffer with room at `offset`: after `encode v buf offset` the `L` bytes from
`offset` on, read as one big-endian unsigned integer, equal
`(L - 1) * 2 ^ (8 * L - H) + v`; the top `H` bits of the byte at `offset` are
`L - 1`, its low `8 - H` bits are `v >> 8 * (L - 1)`, and the byte at
`offset + i` is `(v >> 8 * (L - 1 - i)) & 0xFF` for `1 ≤ i < L`. -/
theorem C5_wire_layout :
    (∀ (v : Nat) (buf : Buf) (offset : Nat), v ≤ 1073741823 →
      offset + varint2_encode_len v ≤ buf.length →
      ∃ buf1, varint2_encode v buf offset = some (buf1, varint2_encode_len v) ∧
        be_value ((buf1.drop offset).take (varint2_encode_len v)) =
          (varint2_encode_len v - 1) * 2 ^ (8 * varint2_encode_len v - 2) + v ∧
        (∃ b0, buf1[offset]? = some b0 ∧ b0.val >>> (8 - 2) = varint2_encode_len v - 1 ∧
          b0.val &&& (2 ^ (8 - 2) - 1) = v >>> (8 * (varint2_encode_len v - 1))) ∧
        ∀ i, 1 ≤ i → i < varint2_encode_len v →
          ∃ b, buf1[offset + i]? = some b ∧
            b.val = (v >>> (8 * (varint2_encode_len v - 1 - i))) &&& 0xFF) ∧
    (∀ (v : Nat) (buf : Buf) (offset : Nat), v ≤ 32767 →
      offset + varint1_encode_len v ≤ buf.length →
      ∃ buf1, varint1_encode v buf offset = some (buf1, varint1_encode_len v) ∧
        be_value ((buf1.drop offset).take (varint1_encode_len v)) =
          (varint1_encode_len v - 1) * 2 ^ (8 * varint1_encode_len v - 1) + v ∧
        (∃ b0, buf1[offset]? = some b0 ∧ b0.val >>> (8 - 1) = varint1_encode_len v - 1 ∧
          b0.val &&& (2 ^ (8 - 1) - 1) = v >>> (8 * (varint1_encode_len v - 1))) ∧
        ∀ i, 1 ≤ i → i < varint1_encode_len v →
          ∃ b, buf1[offset + i]? = some b ∧
            b.val = (v >>> (8 * (varint1_encode_len v - 1 - i))) &&& 0xFF) := by
  constructor
  · intro v buf offset hv hroom
    obtain ⟨buf1, h1, _, h3⟩ := varint2_encode_ok v buf offset hv hroom
    have hb : ∀ k, k < varint2_encode_len v →
        buf1[offset + k]? = some (enc_byte 2 v (varint2_encode_len v) k) := by
      intro k hk
      rw [h3 (offset + k), if_pos (by omega), Nat.add_sub_cancel_left]
    have hp := (varint2_encode_len_pos v hv).1
    obtain ⟨l1, l2, l3⟩ := varint2_layout v hv
    refine ⟨buf1, h1, ?_, ⟨_, hb 0 (by omega), l2, l3⟩, fun i hi1 hi => ⟨_, hb i hi, ?_⟩⟩
    · rw [window_eq buf1 offset _ _ hb]
      exact l1
    · exact enc_byte_succ_and 2 v _ i (by omega)
  · intro v buf offset hv hroom
    obtain ⟨buf1, h1, _, h3⟩ := varint1_encode_ok v buf offset hv hroom
    have hb : ∀ k, k < varint1_encode_len v →
        buf1[offset + k]? = some (enc_byte 1 v (varint1_encode_len v) k) := by
      intro k hk
      rw [h3 (offset + k), if_pos (by omega), Nat.add_sub_cancel_left]
    have hp := (varint1_encode_len_pos v hv).1
    obtain ⟨l1, l2, l3⟩ := varint1_layout v hv
    refine ⟨buf1, h1, ?_, ⟨_, hb 0 (by omega), l2, l3⟩, fun i hi1 hi => ⟨_, hb i hi, ?_⟩⟩
    · rw [window_eq buf1 offset _ _ hb]
      exact l1
    · exact enc_byte_succ_and 1 v _ i (by omega)

/-- Witness of C5: `100000` (three bytes `0x81 0x86 0xA0`) at offset 1 for
`varint2`, `1000` (two bytes `0x83 0xE8`) at offset 0 for `varint1`. -/
theorem C5_wire_layout_witness :
    (100000 ≤ 1073741823 ∧ 1 + varint2_encode_len 100000 ≤ ([7, 0, 0, 0, 9] : Buf).length ∧
      ∃ buf1, varint2_encode 100000 [7, 0, 0, 0, 9] 1 = some (buf1, varint2_encode_len 100000) ∧
        be_value ((buf1.drop 1).take (varint2_encode_len 100000)) =
          (varint2_encode_len 100000 - 1) * 2 ^ (8 * varint2_encode_len 100000 - 2) + 100000) ∧
    (1000 ≤ 32767 ∧ 0 + varint1_encode_len 1000 ≤ ([0, 0] : Buf).length ∧
      ∃ buf1, varint1_encode 1000 [0, 0] 0 = some (buf1, varint1_encode_len 1000) ∧
        be_value ((buf1.drop 0).take (varint1_encode_len 1000)) =
          (varint1_encode_len 1000 - 1) * 2 ^ (8 * varint1_encode_len 1000 - 1) + 1000) :=
  ⟨⟨by decide, by decide,
      (C5_wire_layout.1 100000 [7, 0, 0, 0, 9] 1 (by decide) (by decide)).imp
        fun _ h => ⟨h.1, h.2.1⟩⟩,
    ⟨by decide, by decide,
      (C5_wire_layout.2 1000 [0, 0] 0 (by decide) (by decide)).imp
        fun _ h => ⟨h.1, h.2.1⟩⟩⟩

/-! ## Decoding an arbitrary buffer -/

theorem name_decode_len_of_load (header_bits : Nat) (buf : Buf) (offset : Nat) (b0 : Byte)
    (h0 : buf[offset]? = some b0) :
    name_decode_len header_bits buf offset =
      some ((b0.val / 2 ^ (8 - header_bits)) % 2 ^ header_bits + 1) := by
  simp only [name_decode_len, load, h0, Option.some_bind, Option.bind_eq_bind,
    and_mask_eq_mod, Nat.shiftRight_eq_div_pow]

theorem name_decode_loop_total (buf : Buf) (offset : Nat) :
    ∀ (n i value : Nat), offset + i + n ≤ buf.length →
      ∃ value1, name_decode_loop buf offset n i value = some value1 := by
  intro n
  induction n with
  | zero => exact fun i value _ => ⟨value, rfl⟩
  | succ n ih =>
    intro i value hlen
    have hlt : offset + i < buf.length := by omega
    obtain ⟨w, hw⟩ := ih (i + 1) (((value <<< 8) % 2 ^ 32) ||| (buf[offset + i]).val) (by omega)
    refine ⟨w, ?_⟩
    simp only [name_decode_loop, load, List.getElem?_eq_getElem hlt, Option.some_bind,
      Option.bind_eq_bind]
    exact hw

theorem name_decode_loop_congr (buf buf2 : Buf) (offset offset2 : Nat) :
    ∀ (n i value : Nat), (∀ k, k < n → buf2[offset2 + (i + k)]? = buf[offset + (i + k)]?) →
      name_decode_loop buf2 offset2 n i value = name_decode_loop buf offset n i value := by
  intro n
  induction n with
  | zero => exact fun _ _ _ => rfl
  | succ n ih =>
    intro i value h
    have h0 := h 0 (by omega)
    simp only [Nat.add_zero] at h0
    simp only [name_decode_loop, load, h0]
    congr 1
    funext b
    apply ih
    intro k hk
    have := h (k + 1) (by omega)
    rw [show i + 1 + k = i + (k + 1) by omega]
    exact this

theorem header_lt (header_bits x : Nat) (hH : header_bits ≤ 7) :
    x % 2 ^ header_bits + 1 < 256 := by
  have h1 : x % 2 ^ header_bits < 2 ^ header_bits := Nat.mod_lt _ (Nat.pow_pos (by decide))
  have h2 : 2 ^ header_bits ≤ 2 ^ 7 := Nat.pow_le_pow_right (by decide) hH
  have h3 : (2 : Nat) ^ 7 = 128 := by norm_num
  omega

/-- A successful decode is determined by the `bytes_read` bytes it consumed:
any buffer holding the same bytes (at any offset) decodes to the same
result. -/
theorem name_decode_congr (header_bits : Nat) (hH : header_bits ≤ 7) (buf buf2 : Buf)
    (offset offset2 : Nat) (r : varint_decode_result_t)
    (hr : name_decode header_bits buf offset = some r)
    (hagree : ∀ k, k < r.bytes_read → buf2[offset2 + k]? = buf[offset + k]?) :
    name_decode header_bits buf2 offset2 = some r := by
  cases h0 : buf[offset]? with
  | none => simp [name_decode, name_decode_len, load, h0] at hr
  | some b0 =>
    rw [name_decode_of_load header_bits buf offset b0 (by omega) h0] at hr
    have hlt := header_lt header_bits (b0.val / 2 ^ (8 - header_bits)) hH
    cases hl : name_decode_loop buf offset
        ((b0.val / 2 ^ (8 - header_bits)) % 2 ^ header_bits) 1
        (b0.val % 2 ^ (8 - header_bits)) with
    | none => simp [hl] at hr
    | some value =>
      simp only [hl, Option.some_bind, Option.bind_eq_bind, Option.some.injEq] at hr
      subst hr
      simp only [Nat.mod_eq_of_lt hlt] at hagree ⊢
      have hb0 : buf2[offset2]? = some b0 := by
        have := hagree 0 (by omega)
        simpa [h0] using this
      rw [name_decode_of_load header_bits buf2 offset2 b0 (by omega) hb0,
        name_decode_loop_congr buf buf2 offset offset2 _ 1 _
          (fun k hk => hagree (1 + k) (by omega)), hl]
      simp only [Option.some_bind, Option.bind_eq_bind, Nat.mod_eq_of_lt hlt]

/-- Decoding only looks at the bytes from its offset on: two buffers that agree
there, index by index, decode alike. -/
theorem name_decode_eq_of_agree (header_bits : Nat) (hH : header_bits ≤ 7) (buf buf2 : Buf)
    (offset offset2 : Nat) (hagree : ∀ k, buf2[offset2 + k]? = buf[offset + k]?) :
    name_decode header_bits buf2 offset2 = name_decode header_bits buf offset := by
  cases h1 : name_decode header_bits buf offset with
  | some r =>
    exact name_decode_congr header_bits hH buf buf2 offset offset2 r h1 (fun k _ => hagree k)
  | none =>
    cases h2 : name_decode header_bits buf2 offset2 with
    | none => rfl
    | some r =>
      have := name_decode_congr header_bits hH buf2 buf offset2 offset r h2
        (fun k _ => (hagree k).symm)
      rw [h1] at this
      exact absurd this (by simp)

/-- With the header byte readable and the implied bytes available, decoding
returns a result whose `bytes_read` is the header's length. -/
theorem name_decode_total (header_bits : Nat) (hH : header_bits ≤ 7) (buf : Buf)
    (offset : Nat) (b0 : Byte) (h0 : buf[offset]? = some b0)
    (hroom : offset + ((b0.val / 2 ^ (8 - header_bits)) % 2 ^ header_bits + 1) ≤ buf.length) :
    ∃ value, name_decode header_bits buf offset =
      some ⟨value, (b0.val / 2 ^ (8 - header_bits)) % 2 ^ header_bits + 1⟩ := by
  obtain ⟨w, hw⟩ := name_decode_loop_total buf offset
    ((b0.val / 2 ^ (8 - header_bits)) % 2 ^ header_bits) 1
    (b0.val % 2 ^ (8 - header_bits)) (by omega)
  refine ⟨w, ?_⟩
  rw [name_decode_of_load header_bits buf offset b0 (by omega) h0, hw]
  simp only [Option.some_bind, Option.bind_eq_bind,
    Nat.mod_eq_of_lt (header_lt header_bits _ hH)]

theorem top2_eq (b : Byte) : (b.val / 2 ^ (8 - 2)) % 2 ^ 2 = b.val >>> (8 - 2) := by
  have := b.isLt
  rw [Nat.shiftRight_eq_div_pow]
  norm_num
  omega

theorem top1_eq (b : Byte) : (b.val / 2 ^ (8 - 1)) % 2 ^ 1 = b.val >>> (8 - 1) := by
  have := b.isLt
  rw [Nat.shiftRight_eq_div_pow]
  norm_num
  omega

theorem name_decode_bytes_read (header_bits : Nat) (hH : header_bits ≤ 7) (buf : Buf)
    (offset : Nat) (b0 : Byte) (r : varint_decode_result_t) (h0 : buf[offset]? = some b0)
    (hr : name_decode header_bits buf offset = some r) :
    r.bytes_read = (b0.val / 2 ^ (8 - header_bits)) % 2 ^ header_bits + 1 := by
  rw [name_decode_of_load header_bits buf offset b0 (by omega) h0] at hr
  cases hl : name_decode_loop buf offset
      ((b0.val / 2 ^ (8 - header_bits)) % 2 ^ header_bits) 1
      (b0.val % 2 ^ (8 - header_bits)) with
  | none => simp [hl] at hr
  | some value =>
    simp only [hl, Option.some_bind, Option.bind_eq_bind, Option.some.injEq] at hr
    subst hr
    exact Nat.mod_eq_of_lt (header_lt header_bits _ hH)

/-! ## C6 — self-describing length -/

/-- C6 (self-describing length).  For `varint2` (`H = 2`) and `varint1`
(`H = 1`), every buffer and every in-bounds offset holding the byte `b0`, with
the implied `(b0 >> (8 - H)) + 1` bytes available, whether or not the buffer
came from `encode`: `decode_len` returns `(b0 >> (8 - H)) + 1` and `decode`
returns a result with that same `bytes_read`.  Hence two buffers whose bytes at
the offset have equal top `H` bits give the same `bytes_read`. -/
theorem C6_self_describing_length :
    (∀ (buf : Buf) (offset : Nat) (b0 : Byte), buf[offset]? = some b0 →
      offset + ((b0.val >>> (8 - 2)) + 1) ≤ buf.length →
      varint2_decode_len buf offset = some ((b0.val >>> (8 - 2)) + 1) ∧
      ∃ r, varint2_decode buf offset = some r ∧
        r.bytes_read = (b0.val >>> (8 - 2)) + 1) ∧
    (∀ (buf : Buf) (offset : Nat) (b0 : Byte), buf[offset]? = some b0 →
      offset + ((b0.val >>> (8 - 1)) + 1) ≤ buf.length →
      varint1_decode_len buf offset = some ((b0.val >>> (8 - 1)) + 1) ∧
      ∃ r, varint1_decode buf offset = some r ∧
        r.bytes_read = (b0.val >>> (8 - 1)) + 1) ∧
    (∀ (buf buf2 : Buf) (offset offset2 : Nat) (b b2 : Byte)
      (r r2 : varint_decode_result_t), buf[offset]? = some b → buf2[offset2]? = some b2 →
      b.val >>> (8 - 2) = b2.val >>> (8 - 2) →
      varint2_decode buf offset = some r → varint2_decode buf2 offset2 = some r2 →
      r.bytes_read = r2.bytes_read) ∧
    (∀ (buf buf2 : Buf) (offset offset2 : Nat) (b b2 : Byte)
      (r r2 : varint_decode_result_t), buf[offset]? = some b → buf2[offset2]? = some b2 →
      b.val >>> (8 - 1) = b2.val >>> (8 - 1) →
      varint1_decode buf offset = some r → varint1_decode buf2 offset2 = some r2 →
      r.bytes_read = r2.bytes_read) := by
  refine ⟨?_, ?_, ?_, ?_⟩
  · intro buf offset b0 h0 hroom
    rw [← top2_eq] at hroom ⊢
    obtain ⟨value, hd⟩ := name_decode_total 2 (by decide) buf offset b0 h0 hroom
    exact ⟨name_decode_len_of_load 2 buf offset b0 h0, _, hd, rfl⟩
  · intro buf offset b0 h0 hroom
    rw [← top1_eq] at hroom ⊢
    obtain ⟨value, hd⟩ := name_decode_total 1 (by decide) buf offset b0 h0 hroom
    exact ⟨name_decode_len_of_load 1 buf offset b0 h0, _, hd, rfl⟩
  · intro buf buf2 offset offset2 b b2 r r2 h0 h02 htop hr hr2
    rw [name_decode_bytes_read 2 (by decide) buf offset b r h0 hr,
      name_decode_bytes_read 2 (by decide) buf2 offset2 b2 r2 h02 hr2, top2_eq, top2_eq, htop]
  · intro buf buf2 offset offset2 b b2 r r2 h0 h02 htop hr hr2
    rw [name_decode_bytes_read 1 (by decide) buf offset b r h0 hr,
      name_decode_bytes_read 1 (by decide) buf2 offset2 b2 r2 h02 hr2, top1_eq, top1_eq, htop]

/-- Witness of C6 on buffers that no `encode` produces: the non-minimal
`0x40 0x00` (`varint2`) and `0x80 0x00` (`varint1`), and for the last two parts
two buffers with the same header bits and different payloads. -/
theorem C6_self_describing_length_witness :
    (([0x40, 0x00] : Buf)[0]? = some 0x40 ∧
      0 + (((0x40 : Byte).val >>> (8 - 2)) + 1) ≤ ([0x40, 0x00] : Buf).length ∧
      varint2_decode_len [0x40, 0x00] 0 = some (((0x40 : Byte).val >>> (8 - 2)) + 1) ∧
      ∃ r, varint2_decode [0x40, 0x00] 0 = some r ∧
        r.bytes_read = ((0x40 : Byte).val >>> (8 - 2)) + 1) ∧
    (([0x80, 0x00] : Buf)[0]? = some 0x80 ∧
      0 + (((0x80 : Byte).val >>> (8 - 1)) + 1) ≤ ([0x80, 0x00] : Buf).length ∧
      varint1_decode_len [0x80, 0x00] 0 = some (((0x80 : Byte).val >>> (8 - 1)) + 1) ∧
      ∃ r, varint1_decode [0x80, 0x00] 0 = some r ∧
        r.bytes_read = ((0x80 : Byte).val >>> (8 - 1)) + 1) ∧
    (([0x43, 0xFF] : Buf)[0]? = some 0x43 ∧ ([0, 0x52, 0x34] : Buf)[1]? = some 0x52 ∧
      (0x43 : Byte).val >>> (8 - 2) = (0x52 : Byte).val >>> (8 - 2) ∧
      varint2_decode [0x43, 0xFF] 0 = some ⟨0x3FF, 2⟩ ∧
      varint2_decode [0, 0x52, 0x34] 1 = some ⟨0x1234, 2⟩ ∧
      (⟨0x3FF, 2⟩ : varint_decode_result_t).bytes_read =
        (⟨0x1234, 2⟩ : varint_decode_result_t).bytes_read) ∧
    (([0xFF, 0x01] : Buf)[0]? = some 0xFF ∧ ([0, 0x82, 0x03] : Buf)[1]? = some 0x82 ∧
      (0xFF : Byte).val >>> (8 - 1) = (0x82 : Byte).val >>> (8 - 1) ∧
      varint1_decode [0xFF, 0x01] 0 = some ⟨0x7F01, 2⟩ ∧
      varint1_decode [0, 0x82, 0x03] 1 = some ⟨0x0203, 2⟩ ∧
      (⟨0x7F01, 2⟩ : varint_decode_result_t).bytes_read =
        (⟨0x0203, 2⟩ : varint_decode_result_t).bytes_read) :=
  ⟨⟨by decide, by decide, C6_self_describing_length.1 [0x40, 0x00] 0 0x40 (by decide) (by decide)⟩,
    ⟨by decide, by decide,
      C6_self_describing_length.2.1 [0x80, 0x00] 0 0x80 (by decide) (by decide)⟩,
    ⟨by decide, by decide, by decide, by decide, by decide,
      C6_self_describing_length.2.2.1 [0x43, 0xFF] [0, 0x52, 0x34] 0 1 0x43 0x52 ⟨0x3FF, 2⟩
        ⟨0x1234, 2⟩ (by decide) (by decide) (by decide) (by decide) (by decide)⟩,
    ⟨by decide, by decide, by decide, by decide, by decide,
      C6_self_describing_length.2.2.2 [0xFF, 0x01] [0, 0x82, 0x03] 0 1 0xFF 0x82 ⟨0x7F01, 2⟩
        ⟨0x0203, 2⟩ (by decide) (by decide) (by decide) (by decide) (by decide)⟩⟩

/-! ## C7 — sequential packing -/

theorem varint2_seq_from (vs : List Nat) :
    ∀ (buf : Buf) (offset : Nat), (∀ v, v ∈ vs → v ≤ 1073741823) →
      offset + (vs.map varint2_encode_len).sum ≤ buf.length →
      ∃ buf1, varint2_encode_seq vs buf offset =
          some (buf1, offset + (vs.map varint2_encode_len).sum) ∧
        buf1.length = buf.length ∧
        (∀ j, j < offset → buf1[j]? = buf[j]?) ∧
        varint2_decode_seq buf1 vs.length offset =
          some (vs, offset + (vs.map varint2_encode_len).sum) := by
  induction vs with
  | nil =>
    intro buf offset _ _
    exact ⟨buf, rfl, rfl, fun _ _ => rfl, rfl⟩
  | cons v vs ih =>
    intro buf offset hvs hroom
    have hv : v ≤ 1073741823 := hvs v (List.mem_cons_self v vs)
    simp only [List.map_cons, List.sum_cons] at hroom ⊢
    obtain ⟨buf1, h1, h2, h3⟩ := varint2_encode_ok v buf offset hv (by omega)
    obtain ⟨buf2, g1, g2, g3, g4⟩ := ih buf1 (offset + varint2_encode_len v)
      (fun w hw => hvs w (List.mem_cons_of_mem v hw)) (by omega)
    refine ⟨buf2, ?_, by omega, fun j hj => ?_, ?_⟩
    · simp only [varint2_encode_seq, h1, Option.some_bind, Option.bind_eq_bind, g1,
        Nat.add_assoc]
    · rw [g3 j (by omega), h3 j, if_neg (by omega)]
    · have hd : varint2_decode buf2 offset = some ⟨v, varint2_encode_len v⟩ := by
        apply varint2_decode_of_bytes v hv buf2 offset
        intro k hk
        rw [g3 (offset + k) (by omega), h3 (offset + k), if_pos (by omega),
          Nat.add_sub_cancel_left]
      simp only [List.length_cons, varint2_decode_seq, hd, Option.some_bind,
        Option.bind_eq_bind, g4, Nat.add_assoc]

/-- C7 (sequential packing).  For `varint2` and every list of values each at
most `1073741823`, with a buffer at least as long as the sum of their
`encode_len`: encoding them back to back from offset 0, each where the previous
one ended, ends at the offset equal to that sum, and decoding as many values
from offset 0, advancing by `bytes_read` each time, returns exactly the list,
in order, and ends at the same offset.  The values `42, 1000, 100000, 10000000`
of `test_sequential_decode` take `1 + 2 + 3 + 4 = 10` bytes of the 16-byte
buffer and decode back to themselves. -/
theorem C7_sequential_packing :
    (∀ (vs : List Nat) (buf : Buf), (∀ v, v ∈ vs → v ≤ 1073741823) →
      (vs.map varint2_encode_len).sum ≤ buf.length →
      ∃ buf1, varint2_encode_seq vs buf 0 = some (buf1, (vs.map varint2_encode_len).sum) ∧
        varint2_decode_seq buf1 vs.length 0 =
          some (vs, (vs.map varint2_encode_len).sum)) ∧
    ([42, 1000, 100000, 10000000].map varint2_encode_len = [1, 2, 3, 4] ∧
      varint2_encode_seq [42, 1000, 100000, 10000000] (List.replicate 16 0) 0 =
        some ([0x2A, 0x43, 0xE8, 0x81, 0x86, 0xA0, 0xC0, 0x98, 0x96, 0x80,
          0, 0, 0, 0, 0, 0], 10) ∧
      varint2_decode_seq [0x2A, 0x43, 0xE8, 0x81, 0x86, 0xA0, 0xC0, 0x98, 0x96, 0x80,
          0, 0, 0, 0, 0, 0] 4 0 = some ([42, 1000, 100000, 10000000], 10)) := by
  constructor
  · intro vs buf hvs hroom
    obtain ⟨buf1, h1, _, _, h4⟩ := varint2_seq_from vs buf 0 hvs (by omega)
    simp only [Nat.zero_add] at h1 h4
    exact ⟨buf1, h1, h4⟩
  · exact ⟨by decide, by decide, by decide⟩

/-- Witness of C7: the four values of `test_sequential_decode` in its 16-byte
zeroed buffer. -/
theorem C7_sequential_packing_witness :
    (∀ v, v ∈ [42, 1000, 100000, 10000000] → v ≤ 1073741823) ∧
    ([42, 1000, 100000, 10000000].map varint2_encode_len).sum ≤
      (List.replicate 16 (0 : Byte)).length ∧
    ∃ buf1, varint2_encode_seq [42, 1000, 100000, 10000000] (List.replicate 16 0) 0 =
        some (buf1, ([42, 1000, 100000, 10000000].map varint2_encode_len).sum) ∧
      varint2_decode_seq buf1 [42, 1000, 100000, 10000000].length 0 =
        some ([42, 1000, 100000, 10000000],
          ([42, 1000, 100000, 10000000].map varint2_encode_len).sum) :=
  ⟨by decide, by decide,
    C7_sequential_packing.1 [42, 1000, 100000, 10000000] (List.replicate 16 0)
      (by decide) (by decide)⟩

/-! ## C8 — `encode` writes only its own bytes -/

/-- C8 (frame of `encode`).  For `varint2` and `varint1`, every `v` in range and
every buffer with room at `offset`: after `encode v buf offset` the buffer has
the same length and every index `j < offset` or `j ≥ offset + encode_len v`
holds what it held before. -/
theorem C8_encode_frame :
    (∀ (v : Nat) (buf : Buf) (offset : Nat), v ≤ 1073741823 →
      offset + varint2_encode_len v ≤ buf.length →
      ∃ buf1, varint2_encode v buf offset = some (buf1, varint2_encode_len v) ∧
        buf1.length = buf.length ∧
        ∀ j, (j < offset ∨ offset + varint2_encode_len v ≤ j) → buf1[j]? = buf[j]?) ∧
    (∀ (v : Nat) (buf : Buf) (offset : Nat), v ≤ 32767 →
      offset + varint1_encode_len v ≤ buf.length →
      ∃ buf1, varint1_encode v buf offset = some (buf1, varint1_encode_len v) ∧
        buf1.length = buf.length ∧
        ∀ j, (j < offset ∨ offset + varint1_encode_len v ≤ j) → buf1[j]? = buf[j]?) := by
  constructor
  · intro v buf offset hv hroom
    obtain ⟨buf1, h1, h2, h3⟩ := varint2_encode_ok v buf offset hv hroom
    refine ⟨buf1, h1, h2, fun j hj => ?_⟩
    rw [h3 j, if_neg (by omega)]
  · intro v buf offset hv hroom
    obtain ⟨buf1, h1, h2, h3⟩ := varint1_encode_ok v buf offset hv hroom
    refine ⟨buf1, h1, h2, fun j hj => ?_⟩
    rw [h3 j, if_neg (by omega)]

/-- Witness of C8: the call of `test_varint2_offset` (padding `0xAA 0xBB`
before offset 2) with data `0x11 0x22` after the encoding, and its `varint1`
counterpart. -/
theorem C8_encode_frame_witness :
    (1000 ≤ 1073741823 ∧
      2 + varint2_encode_len 1000 ≤ ([0xAA, 0xBB, 0, 0, 0x11, 0x22] : Buf).length ∧
      ∃ buf1, varint2_encode 1000 [0xAA, 0xBB, 0, 0, 0x11, 0x22] 2 =
          some (buf1, varint2_encode_len 1000) ∧
        buf1.length = ([0xAA, 0xBB, 0, 0, 0x11, 0x22] : Buf).length ∧
        ∀ j, (j < 2 ∨ 2 + varint2_encode_len 1000 ≤ j) →
          buf1[j]? = ([0xAA, 0xBB, 0, 0, 0x11, 0x22] : Buf)[j]?) ∧
    (1000 ≤ 32767 ∧
      2 + varint1_encode_len 1000 ≤ ([0xAA, 0xBB, 0, 0, 0x11, 0x22] : Buf).length ∧
      ∃ buf1, varint1_encode 1000 [0xAA, 0xBB, 0, 0, 0x11, 0x22] 2 =
          some (buf1, varint1_encode_len 1000) ∧
        buf1.length = ([0xAA, 0xBB, 0, 0, 0x11, 0x22] : Buf).length ∧
        ∀ j, (j < 2 ∨ 2 + varint1_encode_len 1000 ≤ j) →
          buf1[j]? = ([0xAA, 0xBB, 0, 0, 0x11, 0x22] : Buf)[j]?) :=
  ⟨⟨by decide, by decide,
      C8_encode_frame.1 1000 [0xAA, 0xBB, 0, 0, 0x11, 0x22] 2 (by decide) (by decide)⟩,
    ⟨by decide, by decide,
      C8_encode_frame.2 1000 [0xAA, 0xBB, 0, 0, 0x11, 0x22] 2 (by decide) (by decide)⟩⟩

/-! ## C9 — offset independence -/

/-- C9 (offset independence).  For `varint2` and `varint1`:
(1) `decode buf offset` equals `decode` of the buffer with its first `offset`
bytes dropped at offset 0, and `decode_len` likewise; and a buffer that agrees
with `buf` on the `bytes_read` indices from `offset` on decodes to the same
result, whatever it holds before and after;
(2) for every `v` in range and any two buffers with room, the byte `encode`
stores at `offset + i` of the first equals the byte it stores at `i` of the
second when called at offset 0, for every `i < encode_len v`, and both calls
return `encode_len v`. -/
theorem C9_offset_independence :
    (∀ (buf : Buf) (offset : Nat),
      varint2_decode buf offset = varint2_decode (buf.drop offset) 0 ∧
      varint2_decode_len buf offset = varint2_decode_len (buf.drop offset) 0) ∧
    (∀ (buf : Buf) (offset : Nat),
      varint1_decode buf offset = varint1_decode (buf.drop offset) 0 ∧
      varint1_decode_len buf offset = varint1_decode_len (buf.drop offset) 0) ∧
    (∀ (buf buf2 : Buf) (offset : Nat) (r : varint_decode_result_t),
      varint2_decode buf offset = some r →
      (∀ k, k < r.bytes_read → buf2[offset + k]? = buf[offset + k]?) →
      varint2_decode buf2 offset = some r) ∧
    (∀ (buf buf2 : Buf) (offset : Nat) (r : varint_decode_result_t),
      varint1_decode buf offset = some r →
      (∀ k, k < r.bytes_read → buf2[offset + k]? = buf[offset + k]?) →
      varint1_decode buf2 offset = some r) ∧
    (∀ (v : Nat) (buf buf0 : Buf) (offset : Nat), v ≤ 1073741823 →
      offset + varint2_encode_len v ≤ buf.length → varint2_encode_len v ≤ buf0.length →
      ∃ buf1 buf2, varint2_encode v buf offset = some (buf1, varint2_encode_len v) ∧
        varint2_encode v buf0 0 = some (buf2, varint2_encode_len v) ∧
        ∀ i, i < varint2_encode_len v → buf1[offset + i]? = buf2[i]?) ∧
    (∀ (v : Nat) (buf buf0 : Buf) (offset : Nat), v ≤ 32767 →
      offset + varint1_encode_len v ≤ buf.length → varint1_encode_len v ≤ buf0.length →
      ∃ buf1 buf2, varint1_encode v buf offset = some (buf1, varint1_encode_len v) ∧
        varint1_encode v buf0 0 = some (buf2, varint1_encode_len v) ∧
        ∀ i, i < varint1_encode_len v → buf1[offset + i]? = buf2[i]?) := by
  refine ⟨?_, ?_, ?_, ?_, ?_, ?_⟩
  · intro buf offset
    constructor
    · exact (name_decode_eq_of_agree 2 (by decide) buf (buf.drop offset) offset 0
        (fun k => by rw [List.getElem?_drop, Nat.zero_add])).symm
    · simp only [varint2_decode_len, name_decode_len, load, List.getElem?_drop, Nat.add_zero]
  · intro buf offset
    constructor
    · exact (name_decode_eq_of_agree 1 (by decide) buf (buf.drop offset) offset 0
        (fun k => by rw [List.getElem?_drop, Nat.zero_add])).symm
    · simp only [varint1_decode_len, name_decode_len, load, List.getElem?_drop, Nat.add_zero]
  · intro buf buf2 offset r hr hagree
    exact name_decode_congr 2 (by decide) buf buf2 offset offset r hr hagree
  · intro buf buf2 offset r hr hagree
    exact name_decode_congr 1 (by decide) buf buf2 offset offset r hr hagree
  · intro v buf buf0 offset hv hroom hroom0
    obtain ⟨buf1, h1, _, h3⟩ := varint2_encode_ok v buf offset hv hroom
    obtain ⟨buf2, g1, _, g3⟩ := varint2_encode_ok v buf0 0 hv (by omega)
    refine ⟨buf1, buf2, h1, g1, fun i hi => ?_⟩
    rw [h3 (offset + i), if_pos (by omega), g3 i, if_pos (by omega), Nat.add_sub_cancel_left,
      Nat.sub_zero]
  · intro v buf buf0 offset hv hroom hroom0
    obtain ⟨buf1, h1, _, h3⟩ := varint1_encode_ok v buf offset hv hroom
    obtain ⟨buf2, g1, _, g3⟩ := varint1_encode_ok v buf0 0 hv (by omega)
    refine ⟨buf1, buf2, h1, g1, fun i hi => ?_⟩
    rw [h3 (offset + i), if_pos (by omega), g3 i, if_pos (by omega), Nat.add_sub_cancel_left,
      Nat.sub_zero]

/-- Witness of C9: the encoding of `1000` read at offset 2 between other bytes
and at offset 0 of a different buffer, and `1000` encoded at offset 2 and at
offset 0. -/
theorem C9_offset_independence_witness :
    (varint2_decode [0xAA, 0xBB, 0x43, 0xE8, 0x55] 2 = some ⟨1000, 2⟩ ∧
      (∀ k, k < (⟨1000, 2⟩ : varint_decode_result_t).bytes_read →
        ([0x01, 0x02, 0x43, 0xE8] : Buf)[2 + k]? =
          ([0xAA, 0xBB, 0x43, 0xE8, 0x55] : Buf)[2 + k]?) ∧
      varint2_decode [0x01, 0x02, 0x43, 0xE8] 2 = some ⟨1000, 2⟩) ∧
    (varint1_decode [0xAA, 0xBB, 0x83, 0xE8, 0x55] 2 = some ⟨1000, 2⟩ ∧
      (∀ k, k < (⟨1000, 2⟩ : varint_decode_result_t).bytes_read →
        ([0x01, 0x02, 0x83, 0xE8] : Buf)[2 + k]? =
          ([0xAA, 0xBB, 0x83, 0xE8, 0x55] : Buf)[2 + k]?) ∧
      varint1_decode [0x01, 0x02, 0x83, 0xE8] 2 = some ⟨1000, 2⟩) ∧
    (1000 ≤ 1073741823 ∧ 2 + varint2_encode_len 1000 ≤ ([0xAA, 0xBB, 0, 0, 0] : Buf).length ∧
      varint2_encode_len 1000 ≤ ([9, 9] : Buf).length ∧
      ∃ buf1 buf2, varint2_encode 1000 [0xAA, 0xBB, 0, 0, 0] 2 =
          some (buf1, varint2_encode_len 1000) ∧
        varint2_encode 1000 [9, 9] 0 = some (buf2, varint2_encode_len 1000) ∧
        ∀ i, i < varint2_encode_len 1000 → buf1[2 + i]? = buf2[i]?) ∧
    (1000 ≤ 32767 ∧ 2 + varint1_encode_len 1000 ≤ ([0xAA, 0xBB, 0, 0, 0] : Buf).length ∧
      varint1_encode_len 1000 ≤ ([9, 9] : Buf).length ∧
      ∃ buf1 buf2, varint1_encode 1000 [0xAA, 0xBB, 0, 0, 0] 2 =
          some (buf1, varint1_encode_len 1000) ∧
        varint1_encode 1000 [9, 9] 0 = some (buf2, varint1_encode_len 1000) ∧
        ∀ i, i < varint1_encode_len 1000 → buf1[2 + i]? = buf2[i]?) :=
  have hk2 : ∀ k, k < (⟨1000, 2⟩ : varint_decode_result_t).bytes_read →
      ([0x01, 0x02, 0x43, 0xE8] : Buf)[2 + k]? =
        ([0xAA, 0xBB, 0x43, 0xE8, 0x55] : Buf)[2 + k]? := by
    intro k hk
    have hk' : k < 2 := hk
    interval_cases k <;> rfl
  have hk1 : ∀ k, k < (⟨1000, 2⟩ : varint_decode_result_t).bytes_read →
      ([0x01, 0x02, 0x83, 0xE8] : Buf)[2 + k]? =
        ([0xAA, 0xBB, 0x83, 0xE8, 0x55] : Buf)[2 + k]? := by
    intro k hk
    have hk' : k < 2 := hk
    interval_cases k <;> rfl
  ⟨⟨by decide, hk2, C9_offset_independence.2.2.1 [0xAA, 0xBB, 0x43, 0xE8, 0x55]
      [0x01, 0x02, 0x43, 0xE8] 2 ⟨1000, 2⟩ (by decide) hk2⟩,
    ⟨by decide, hk1, C9_offset_independence.2.2.2.1 [0xAA, 0xBB, 0x83, 0xE8, 0x55]
      [0x01, 0x02, 0x83, 0xE8] 2 ⟨1000, 2⟩ (by decide) hk1⟩,
    ⟨by decide, by decide, by decide,
      C9_offset_independence.2.2.2.2.1 1000 [0xAA, 0xBB, 0, 0, 0] [9, 9] 2
        (by decide) (by decide) (by decide)⟩,
    ⟨by decide, by decide, by decide,
      C9_offset_independence.2.2.2.2.2 1000 [0xAA, 0xBB, 0, 0, 0] [9, 9] 2
        (by decide) (by decide) (by decide)⟩⟩

/-! ## C10 — exact length thresholds -/

/-- C10 (exact length thresholds).  `varint2_encode_len v` is 1 for
`0 ≤ v ≤ 63`, 2 for `64 ≤ v ≤ 16383`, 3 for `16384 ≤ v ≤ 4194303` and 4 for
`4194304 ≤ v ≤ 1073741823`; `varint1_encode_len v` is 1 for `0 ≤ v ≤ 127` and 2
for `128 ≤ v ≤ 32767`; and for every such `v` the checked `encode`, on a buffer
with room, returns the same number. -/
theorem C10_length_thresholds :
    (∀ v : Nat, 0 ≤ v → v ≤ 63 → varint2_encode_len v = 1) ∧
    (∀ v : Nat, 64 ≤ v → v ≤ 16383 → varint2_encode_len v = 2) ∧
    (∀ v : Nat, 16384 ≤ v → v ≤ 4194303 → varint2_encode_len v = 3) ∧
    (∀ v : Nat, 4194304 ≤ v → v ≤ 1073741823 → varint2_encode_len v = 4) ∧
    (∀ v : Nat, 0 ≤ v → v ≤ 127 → varint1_encode_len v = 1) ∧
    (∀ v : Nat, 128 ≤ v → v ≤ 32767 → varint1_encode_len v = 2) ∧
    (∀ (v : Nat) (buf : Buf) (offset : Nat), v ≤ 1073741823 →
      offset + varint2_encode_len v ≤ buf.length →
      ∃ buf1, varint2_encode v buf offset = some (buf1, varint2_encode_len v)) ∧
    (∀ (v : Nat) (buf : Buf) (offset : Nat), v ≤ 32767 →
      offset + varint1_encode_len v ≤ buf.length →
      ∃ buf1, varint1_encode v buf offset = some (buf1, varint1_encode_len v)) := by
  refine ⟨?_, ?_, ?_, ?_, ?_, ?_, ?_, ?_⟩
  · intro v _ h
    rw [varint2_encode_len_eq v (by omega)]
    split_ifs <;> omega
  · intro v h1 h
    rw [varint2_encode_len_eq v (by omega)]
    split_ifs <;> omega
  · intro v h1 h
    rw [varint2_encode_len_eq v (by omega)]
    split_ifs <;> omega
  · intro v h1 h
    rw [varint2_encode_len_eq v (by omega)]
    split_ifs <;> omega
  · intro v _ h
    rw [varint1_encode_len_eq v (by omega)]
    split_ifs <;> omega
  · intro v h1 h
    rw [varint1_encode_len_eq v (by omega)]
    split_ifs <;> omega
  · intro v buf offset hv hroom
    obtain ⟨buf1, h1, _, _⟩ := varint2_encode_ok v buf offset hv hroom
    exact ⟨buf1, h1⟩
  · intro v buf offset hv hroom
    obtain ⟨buf1, h1, _, _⟩ := varint1_encode_ok v buf offset hv hroom
    exact ⟨buf1, h1⟩

/-- Witness of C10 at the boundary values of `test_varint2_encode_len` and
`test_varint1_boundaries`. -/
theorem C10_length_thresholds_witness :
    (varint2_encode_len 63 = 1 ∧ varint2_encode_len 64 = 2 ∧ varint2_encode_len 16383 = 2 ∧
      varint2_encode_len 16384 = 3 ∧ varint2_encode_len 4194303 = 3 ∧
      varint2_encode_len 4194304 = 4 ∧ varint2_encode_len 1073741823 = 4) ∧
    (varint1_encode_len 127 = 1 ∧ varint1_encode_len 128 = 2 ∧
      varint1_encode_len 32767 = 2) ∧
    (∃ buf1, varint2_encode 4194304 [0, 0, 0, 0] 0 = some (buf1, varint2_encode_len 4194304)) ∧
    (∃ buf1, varint1_encode 128 [0, 0] 0 = some (buf1, varint1_encode_len 128)) :=
  ⟨⟨C10_length_thresholds.1 63 (by decide) (by decide),
      C10_length_thresholds.2.1 64 (by decide) (by decide),
      C10_length_thresholds.2.1 16383 (by decide) (by decide),
      C10_length_thresholds.2.2.1 16384 (by decide) (by decide),
      C10_length_thresholds.2.2.1 4194303 (by decide) (by decide),
      C10_length_thresholds.2.2.2.1 4194304 (by decide) (by decide),
      C10_length_thresholds.2.2.2.1 1073741823 (by decide) (by decide)⟩,
    ⟨C10_length_thresholds.2.2.2.2.1 127 (by decide) (by decide),
      C10_length_thresholds.2.2.2.2.2.1 128 (by decide) (by decide),
      C10_length_thresholds.2.2.2.2.2.1 32767 (by decide) (by decide)⟩,
    C10_length_thresholds.2.2.2.2.2.2.1 4194304 [0, 0, 0, 0] 0 (by decide) (by decide),
    C10_length_thresholds.2.2.2.2.2.2.2 128 [0, 0] 0 (by decide) (by decide)⟩

/-! ## C11 — decoding has no error path -/

/-- C11 (decoding has no error path).  For `varint2` and `varint1` and every
byte value `b` at `buf[offset]`, `decode_len` returns a length `L` in
`1..maxBytes` (`1..4`, resp. `1..2`), never 0; and when `L` bytes are readable
from `offset` on, `decode` returns a result, with `bytes_read = L` in
`1..maxBytes`, whatever the bytes hold. -/
theorem C11_decode_total :
    (∀ (buf : Buf) (offset : Nat) (b : Byte), buf[offset]? = some b →
      ∃ L, varint2_decode_len buf offset = some L ∧ 1 ≤ L ∧ L ≤ 4 ∧ L ≠ 0 ∧
        (offset + L ≤ buf.length →
          ∃ r, varint2_decode buf offset = some r ∧ r.bytes_read = L ∧
            1 ≤ r.bytes_read ∧ r.bytes_read ≤ 4)) ∧
    (∀ (buf : Buf) (offset : Nat) (b : Byte), buf[offset]? = some b →
      ∃ L, varint1_decode_len buf offset = some L ∧ 1 ≤ L ∧ L ≤ 2 ∧ L ≠ 0 ∧
        (offset + L ≤ buf.length →
          ∃ r, varint1_decode buf offset = some r ∧ r.bytes_read = L ∧
            1 ≤ r.bytes_read ∧ r.bytes_read ≤ 2)) := by
  constructor
  · intro buf offset b h0
    have hb := b.isLt
    have hL : 1 ≤ (b.val / 2 ^ (8 - 2)) % 2 ^ 2 + 1 ∧
        (b.val / 2 ^ (8 - 2)) % 2 ^ 2 + 1 ≤ 2 ^ 2 := by
      norm_num
      omega
    refine ⟨_, name_decode_len_of_load 2 buf offset b h0, hL.1, hL.2, by omega,
      fun hroom => ?_⟩
    obtain ⟨value, hd⟩ := name_decode_total 2 (by decide) buf offset b h0 hroom
    exact ⟨_, hd, rfl, hL.1, hL.2⟩
  · intro buf offset b h0
    have hb := b.isLt
    have hL : 1 ≤ (b.val / 2 ^ (8 - 1)) % 2 ^ 1 + 1 ∧
        (b.val / 2 ^ (8 - 1)) % 2 ^ 1 + 1 ≤ 2 ^ 1 := by
      norm_num
      omega
    refine ⟨_, name_decode_len_of_load 1 buf offset b h0, hL.1, hL.2, by omega,
      fun hroom => ?_⟩
    obtain ⟨value, hd⟩ := name_decode_total 1 (by decide) buf offset b h0 hroom
    exact ⟨_, hd, rfl, hL.1, hL.2⟩

/-- Witness of C11 on the all-ones bytes `0xFF 0xFF 0xFF 0xFF` (`varint2`) and
`0xFF 0xFF` (`varint1`), which no `encode` of a small value produces. -/
theorem C11_decode_total_witness :
    (([0xFF, 0xFF, 0xFF, 0xFF] : Buf)[0]? = some 0xFF ∧
      ∃ L, varint2_decode_len [0xFF, 0xFF, 0xFF, 0xFF] 0 = some L ∧ 1 ≤ L ∧ L ≤ 4 ∧ L ≠ 0 ∧
        (0 + L ≤ ([0xFF, 0xFF, 0xFF, 0xFF] : Buf).length →
          ∃ r, varint2_decode [0xFF, 0xFF, 0xFF, 0xFF] 0 = some r ∧ r.bytes_read = L ∧
            1 ≤ r.bytes_read ∧ r.bytes_read ≤ 4)) ∧
    (([0xFF, 0xFF] : Buf)[0]? = some 0xFF ∧
      ∃ L, varint1_decode_len [0xFF, 0xFF] 0 = some L ∧ 1 ≤ L ∧ L ≤ 2 ∧ L ≠ 0 ∧
        (0 + L ≤ ([0xFF, 0xFF] : Buf).length →
          ∃ r, varint1_decode [0xFF, 0xFF] 0 = some r ∧ r.bytes_read = L ∧
            1 ≤ r.bytes_read ∧ r.bytes_read ≤ 2)) :=
  ⟨⟨by decide, C11_decode_total.1 [0xFF, 0xFF, 0xFF, 0xFF] 0 0xFF (by decide)⟩,
    ⟨by decide, C11_decode_total.2 [0xFF, 0xFF] 0 0xFF (by decide)⟩⟩

/-! ## Shape of a decode, length by length -/

/-- The shape of `varint2_decode` on any buffer, by the top 2 bit(s) of the
byte `b0` at `offset`, when the implied bytes are available. -/
theorem varint2_decode_shape (buf : Buf) (offset : Nat) (b0 : Byte)
    (h0 : buf[offset]? = some b0) (hroom : offset + (b0.val / 64 + 1) ≤ buf.length) :
    (b0.val / 64 = 0 ∧ varint2_decode buf offset = some ⟨b0.val % 64, 1⟩) ∨
    (b0.val / 64 = 1 ∧ ∃ c1 : Byte, buf[offset + 1]? = some c1 ∧
      varint2_decode buf offset = some ⟨(b0.val % 64) * 256 + c1.val, 2⟩) ∨
    (b0.val / 64 = 2 ∧ ∃ c1 c2 : Byte, buf[offset + 1]? = some c1 ∧ buf[offset + 2]? = some c2 ∧
      varint2_decode buf offset = some ⟨((b0.val % 64) * 256 + c1.val) * 256 + c2.val, 3⟩) ∨
    (b0.val / 64 = 3 ∧ ∃ c1 c2 c3 : Byte, buf[offset + 1]? = some c1 ∧ buf[offset + 2]? = some c2 ∧ buf[offset + 3]? = some c3 ∧
      varint2_decode buf offset = some ⟨(((b0.val % 64) * 256 + c1.val) * 256 + c2.val) * 256 + c3.val, 4⟩) := by
  have hb := b0.isLt
  have hcases : b0.val / 64 = 0 ∨ b0.val / 64 = 1 ∨ b0.val / 64 = 2 ∨ b0.val / 64 = 3 := by omega
  rcases hcases with hd | hd | hd | hd
  · have hh : b0.val / 2 ^ (8 - 2) % 2 ^ 2 = 0 := by
      norm_num
      omega
    refine Or.inl ⟨hd, ?_⟩
    rw [varint2_decode, name_decode_of_load 2 buf offset _ (by decide) h0, hh]
    simp only [name_decode_loop, load, Option.some_bind, Option.bind_eq_bind,
      shl8_or_eq_add _ _ (Fin.isLt _)]
    norm_num
  · have hh : b0.val / 2 ^ (8 - 2) % 2 ^ 2 = 1 := by
      norm_num
      omega
    have l1 : offset + 1 < buf.length := by omega
    have h1 := List.getElem?_eq_getElem l1
    have i1 := (buf[offset + 1]).isLt
    refine Or.inr (Or.inl ⟨hd, _, h1, ?_⟩)
    rw [varint2_decode, name_decode_of_load 2 buf offset _ (by decide) h0, hh]
    simp only [name_decode_loop, load, h1, Option.some_bind, Option.bind_eq_bind,
      shl8_or_eq_add _ _ (Fin.isLt _)]
    norm_num
    omega
  · have hh : b0.val / 2 ^ (8 - 2) % 2 ^ 2 = 2 := by
      norm_num
      omega
    have l1 : offset + 1 < buf.length := by omega
    have h1 := List.getElem?_eq_getElem l1
    have i1 := (buf[offset + 1]).isLt
    have l2 : offset + 2 < buf.length := by omega
    have h2 := List.getElem?_eq_getElem l2
    have i2 := (buf[offset + 2]).isLt
    refine Or.inr (Or.inr (Or.inl ⟨hd, _, _, h1, h2, ?_⟩))
    rw [varint2_decode, name_decode_of_load 2 buf offset _ (by decide) h0, hh]
    simp only [name_decode_loop, load, h1, h2, Option.some_bind, Option.bind_eq_bind,
      shl8_or_eq_add _ _ (Fin.isLt _)]
    norm_num
    omega
  · have hh : b0.val / 2 ^ (8 - 2) % 2 ^ 2 = 3 := by
      norm_num
      omega
    have l1 : offset + 1 < buf.length := by omega
    have h1 := List.getElem?_eq_getElem l1
    have i1 := (buf[offset + 1]).isLt
    have l2 : offset + 2 < buf.length := by omega
    have h2 := List.getElem?_eq_getElem l2
    have i2 := (buf[offset + 2]).isLt
    have l3 : offset + 3 < buf.length := by omega
    have h3 := List.getElem?_eq_getElem l3
    have i3 := (buf[offset + 3]).isLt
    refine Or.inr (Or.inr (Or.inr (⟨hd, _, _, _, h1, h2, h3, ?_⟩)))
    rw [varint2_decode, name_decode_of_load 2 buf offset _ (by decide) h0, hh]
    simp only [name_decode_loop, load, h1, h2, h3, Option.some_bind, Option.bind_eq_bind,
      shl8_or_eq_add _ _ (Fin.isLt _)]
    norm_num
    omega

/-- The shape of `varint1_decode` on any buffer, by the top 1 bit(s) of the
byte `b0` at `offset`, when the implied bytes are available. -/
theorem varint1_decode_shape (buf : Buf) (offset : Nat) (b0 : Byte)
    (h0 : buf[offset]? = some b0) (hroom : offset + (b0.val / 128 + 1) ≤ buf.length) :
    (b0.val / 128 = 0 ∧ varint1_decode buf offset = some ⟨b0.val % 128, 1⟩) ∨
    (b0.val / 128 = 1 ∧ ∃ c1 : Byte, buf[offset + 1]? = some c1 ∧
      varint1_decode buf offset = some ⟨(b0.val % 128) * 256 + c1.val, 2⟩) := by
  have hb := b0.isLt
  have hcases : b0.val / 128 = 0 ∨ b0.val / 128 = 1 := by omega
  rcases hcases with hd | hd
  · have hh : b0.val / 2 ^ (8 - 1) % 2 ^ 1 = 0 := by
      norm_num
      omega
    refine Or.inl ⟨hd, ?_⟩
    rw [varint1_decode, name_decode_of_load 1 buf offset _ (by decide) h0, hh]
    simp only [name_decode_loop, load, Option.some_bind, Option.bind_eq_bind,
      shl8_or_eq_add _ _ (Fin.isLt _)]
    norm_num
  · have hh : b0.val / 2 ^ (8 - 1) % 2 ^ 1 = 1 := by
      norm_num
      omega
    have l1 : offset + 1 < buf.length := by omega
    have h1 := List.getElem?_eq_getElem l1
    have i1 := (buf[offset + 1]).isLt
    refine Or.inr (⟨hd, _, h1, ?_⟩)
    rw [varint1_decode, name_decode_of_load 1 buf offset _ (by decide) h0, hh]
    simp only [name_decode_loop, load, h1, Option.some_bind, Option.bind_eq_bind,
      shl8_or_eq_add _ _ (Fin.isLt _)]
    norm_num
    omega

/-! ## C13 — decode on an arbitrary buffer -/

theorem window_eq_list (buf : Buf) (offset : Nat) (bs : List Byte)
    (h : ∀ k, k < bs.length → buf[offset + k]? = bs[k]?) :
    (buf.drop offset).take bs.length = bs := by
  apply List.ext_getElem?
  intro k
  by_cases hk : k < bs.length
  · simp [List.getElem?_take, List.getElem?_drop, hk, h k hk]
  · have hnone : bs[k]? = none := List.getElem?_eq_none (by omega)
    simp [List.getElem?_take, hk, hnone]

theorem name_decode_len_some (header_bits : Nat) (buf : Buf) (offset L : Nat)
    (h : name_decode_len header_bits buf offset = some L) :
    ∃ b0, buf[offset]? = some b0 ∧
      L = (b0.val / 2 ^ (8 - header_bits)) % 2 ^ header_bits + 1 := by
  cases h0 : buf[offset]? with
  | none => simp [name_decode_len, load, h0] at h
  | some b0 =>
    have h2 := name_decode_len_of_load header_bits buf offset b0 h0
    rw [h, Option.some.injEq] at h2
    exact ⟨b0, rfl, h2⟩

/-- C13 (decode on an arbitrary buffer).  For `varint2` (`H = 2`) and `varint1`
(`H = 1`), every buffer and offset with `L = decode_len buf offset` bytes
available: `decode` returns `bytes_read = L` and `value = N mod 2 ^ (8 * L - H)`,
`N` being the big-endian unsigned integer formed by the `L` bytes from `offset`
on; and that value is `buf[offset] & (2 ^ (8 - H) - 1)` with each following
byte `b` folded in as `value * 256 + b`. -/
theorem C13_decode_value :
    (∀ (buf : Buf) (offset L : Nat), varint2_decode_len buf offset = some L →
      offset + L ≤ buf.length →
      ∃ b0, buf[offset]? = some b0 ∧
        varint2_decode buf offset =
          some ⟨be_value ((buf.drop offset).take L) % 2 ^ (8 * L - 2), L⟩ ∧
        be_value ((buf.drop offset).take L) % 2 ^ (8 * L - 2) =
          ((buf.drop (offset + 1)).take (L - 1)).foldl (fun acc b => acc * 256 + b.val)
            (b0.val &&& (2 ^ (8 - 2) - 1))) ∧
    (∀ (buf : Buf) (offset L : Nat), varint1_decode_len buf offset = some L →
      offset + L ≤ buf.length →
      ∃ b0, buf[offset]? = some b0 ∧
        varint1_decode buf offset =
          some ⟨be_value ((buf.drop offset).take L) % 2 ^ (8 * L - 1), L⟩ ∧
        be_value ((buf.drop offset).take L) % 2 ^ (8 * L - 1) =
          ((buf.drop (offset + 1)).take (L - 1)).foldl (fun acc b => acc * 256 + b.val)
            (b0.val &&& (2 ^ (8 - 1) - 1))) := by
  constructor
  · intro buf offset L hlen hroom
    obtain ⟨b0, h0, hlen2⟩ := name_decode_len_some 2 buf offset L hlen
    have hb := b0.isLt
    norm_num at hlen2
    have hroom2 : offset + (b0.val / 64 + 1) ≤ buf.length := by omega
    rcases varint2_decode_shape buf offset b0 h0 hroom2 with
      ⟨hq, hd⟩ | ⟨hq, c1, h1, hd⟩ | ⟨hq, c1, c2, h1, h2, hd⟩ | ⟨hq, c1, c2, c3, h1, h2, h3, hd⟩
    · have hL : L = 1 := by omega
      subst hL
      have hw : (buf.drop offset).take 1 = [b0] :=
        window_eq_list buf offset [b0] (by
          intro k hk
          have hk2 : k < 1 := hk
          interval_cases k
          simp [h0])
      have hw1 : (buf.drop (offset + 1)).take (1 - 1) = [] :=
        window_eq_list buf (offset + 1) [] (by
          intro k hk
          simp at hk)
      refine ⟨b0, h0, ?_, ?_⟩
      · rw [hd, hw]
        simp only [be_value, List.foldl]
        norm_num
      · rw [hw, hw1, Nat.and_pow_two_sub_one_eq_mod]
        simp only [be_value, List.foldl]
        norm_num
    · have hL : L = 2 := by omega
      subst hL
      have ic1 := c1.isLt
      have hw : (buf.drop offset).take 2 = [b0, c1] :=
        window_eq_list buf offset [b0, c1] (by
          intro k hk
          have hk2 : k < 2 := hk
          interval_cases k <;> simp [h0, h1])
      have hw1 : (buf.drop (offset + 1)).take (2 - 1) = [c1] :=
        window_eq_list buf (offset + 1) [c1] (by
          intro k hk
          have hk2 : k < 1 := hk
          interval_cases k
          simp [Nat.add_assoc, h1])
      refine ⟨b0, h0, ?_, ?_⟩
      · rw [hd, hw]
        simp only [be_value, List.foldl]
        norm_num
        omega
      · rw [hw, hw1, Nat.and_pow_two_sub_one_eq_mod]
        simp only [be_value, List.foldl]
        norm_num
        omega
    · have hL : L = 3 := by omega
      subst hL
      have ic1 := c1.isLt
      have ic2 := c2.isLt
      have hw : (buf.drop offset).take 3 = [b0, c1, c2] :=
        window_eq_list buf offset [b0, c1, c2] (by
          intro k hk
          have hk2 : k < 3 := hk
          interval_cases k <;> simp [h0, h1, h2])
      have hw1 : (buf.drop (offset + 1)).take (3 - 1) = [c1, c2] :=
        window_eq_list buf (offset + 1) [c1, c2] (by
          intro k hk
          have hk2 : k < 2 := hk
          interval_cases k <;> simp [Nat.add_assoc, h1, h2])
      refine ⟨b0, h0, ?_, ?_⟩
      · rw [hd, hw]
        simp only [be_value, List.foldl]
        norm_num
        omega
      · rw [hw, hw1, Nat.and_pow_two_sub_one_eq_mod]
        simp only [be_value, List.foldl]
        norm_num
        omega
    · have hL : L = 4 := by omega
      subst hL
      have ic1 := c1.isLt
      have ic2 := c2.isLt
      have ic3 := c3.isLt
      have hw : (buf.drop offset).take 4 = [b0, c1, c2, c3] :=
        window_eq_list buf offset [b0, c1, c2, c3] (by
          intro k hk
          have hk2 : k < 4 := hk
          interval_cases k <;> simp [h0, h1, h2, h3])
      have hw1 : (buf.drop (offset + 1)).take (4 - 1) = [c1, c2, c3] :=
        window_eq_list buf (offset + 1) [c1, c2, c3] (by
          intro k hk
          have hk2 : k < 3 := hk
          interval_cases k <;> simp [Nat.add_assoc, h1, h2, h3])
      refine ⟨b0, h0, ?_, ?_⟩
      · rw [hd, hw]
        simp only [be_value, List.foldl]
        norm_num
        omega
      · rw [hw, hw1, Nat.and_pow_two_sub_one_eq_mod]
        simp only [be_value, List.foldl]
        norm_num
        omega
  · intro buf offset L hlen hroom
    obtain ⟨b0, h0, hlen2⟩ := name_decode_len_some 1 buf offset L hlen
    have hb := b0.isLt
    norm_num at hlen2
    have hroom2 : offset + (b0.val / 128 + 1) ≤ buf.length := by omega
    rcases varint1_decode_shape buf offset b0 h0 hroom2 with
      ⟨hq, hd⟩ | ⟨hq, c1, h1, hd⟩
    · have hL : L = 1 := by omega
      subst hL
      have hw : (buf.drop offset).take 1 = [b0] :=
        window_eq_list buf offset [b0] (by
          intro k hk
          have hk2 : k < 1 := hk
          interval_cases k
          simp [h0])
      have hw1 : (buf.drop (offset + 1)).take (1 - 1) = [] :=
        window_eq_list buf (offset + 1) [] (by
          intro k hk
          simp at hk)
      refine ⟨b0, h0, ?_, ?_⟩
      · rw [hd, hw]
        simp only [be_value, List.foldl]
        norm_num
      · rw [hw, hw1, Nat.and_pow_two_sub_one_eq_mod]
        simp only [be_value, List.foldl]
        norm_num
    · have hL : L = 2 := by omega
      subst hL
      have ic1 := c1.isLt
      have hw : (buf.drop offset).take 2 = [b0, c1] :=
        window_eq_list buf offset [b0, c1] (by
          intro k hk
          have hk2 : k < 2 := hk
          interval_cases k <;> simp [h0, h1])
      have hw1 : (buf.drop (offset + 1)).take (2 - 1) = [c1] :=
        window_eq_list buf (offset + 1) [c1] (by
          intro k hk
          have hk2 : k < 1 := hk
          interval_cases k
          simp [Nat.add_assoc, h1])
      refine ⟨b0, h0, ?_, ?_⟩
      · rw [hd, hw]
        simp only [be_value, List.foldl]
        norm_num
        omega
      · rw [hw, hw1, Nat.and_pow_two_sub_one_eq_mod]
        simp only [be_value, List.foldl]
        norm_num
        omega

/-- Witness of C13 on bytes that are not a minimal encoding: `0xFF 0xFF 0xFF 0xFF`
at offset 1 (`varint2`, `N = 0xFFFFFFFF`, value `0x3FFFFFFF`) and `0x80 0x05` at
offset 0 (`varint1`, `N = 0x8005`, value 5). -/
theorem C13_decode_value_witness :
    (varint2_decode_len [0xAA, 0xFF, 0xFF, 0xFF, 0xFF] 1 = some 4 ∧
      1 + 4 ≤ ([0xAA, 0xFF, 0xFF, 0xFF, 0xFF] : Buf).length ∧
      ∃ b0, ([0xAA, 0xFF, 0xFF, 0xFF, 0xFF] : Buf)[1]? = some b0 ∧
        varint2_decode [0xAA, 0xFF, 0xFF, 0xFF, 0xFF] 1 =
          some ⟨be_value ((([0xAA, 0xFF, 0xFF, 0xFF, 0xFF] : Buf).drop 1).take 4) %
            2 ^ (8 * 4 - 2), 4⟩ ∧
        be_value ((([0xAA, 0xFF, 0xFF, 0xFF, 0xFF] : Buf).drop 1).take 4) % 2 ^ (8 * 4 - 2) =
          ((([0xAA, 0xFF, 0xFF, 0xFF, 0xFF] : Buf).drop (1 + 1)).take (4 - 1)).foldl
            (fun acc b => acc * 256 + b.val) (b0.val &&& (2 ^ (8 - 2) - 1))) ∧
    (varint1_decode_len [0x80, 0x05] 0 = some 2 ∧ 0 + 2 ≤ ([0x80, 0x05] : Buf).length ∧
      ∃ b0, ([0x80, 0x05] : Buf)[0]? = some b0 ∧
        varint1_decode [0x80, 0x05] 0 =
          some ⟨be_value ((([0x80, 0x05] : Buf).drop 0).take 2) % 2 ^ (8 * 2 - 1), 2⟩ ∧
        be_value ((([0x80, 0x05] : Buf).drop 0).take 2) % 2 ^ (8 * 2 - 1) =
          ((([0x80, 0x05] : Buf).drop (0 + 1)).take (2 - 1)).foldl
            (fun acc b => acc * 256 + b.val) (b0.val &&& (2 ^ (8 - 1) - 1))) :=
  ⟨⟨by decide, by decide,
      C13_decode_value.1 [0xAA, 0xFF, 0xFF, 0xFF, 0xFF] 1 4 (by decide) (by decide)⟩,
    ⟨by decide, by decide, C13_decode_value.2 [0x80, 0x05] 0 2 (by decide) (by decide)⟩⟩

/-! ## C14 — decode does not re-validate minimality -/

/-- C14 (decode does not re-validate minimality).  The `varint2` bytes
`0x40 0x00` at offset 0 decode to value 0 with `bytes_read = 2` although
`varint2_encode_len 0 = 1`, and the `varint1` bytes `0x80 0x00` decode to value
0 with `bytes_read = 2` although `varint1_encode_len 0 = 1`; encoding the
decoded value back over the buffer gives `0x00 0x00`, not the buffer decoded
from.  So for each format some buffer decodes with `bytes_read` strictly above
`encode_len` of the decoded value, and re-encoding does not reproduce it. -/
theorem C14_decode_not_minimal :
    (varint2_decode [0x40, 0x00] 0 = some ⟨0, 2⟩ ∧ varint2_encode_len 0 = 1 ∧
      varint2_encode 0 [0x40, 0x00] 0 = some ([0x00, 0x00], 1)) ∧
    (varint1_decode [0x80, 0x00] 0 = some ⟨0, 2⟩ ∧ varint1_encode_len 0 = 1 ∧
      varint1_encode 0 [0x80, 0x00] 0 = some ([0x00, 0x00], 1)) ∧
    (∃ (buf : Buf) (r : varint_decode_result_t), varint2_decode buf 0 = some r ∧
      varint2_encode_len r.value < r.bytes_read ∧
      ∃ buf1 n, varint2_encode r.value buf 0 = some (buf1, n) ∧ buf1 ≠ buf) ∧
    (∃ (buf : Buf) (r : varint_decode_result_t), varint1_decode buf 0 = some r ∧
      varint1_encode_len r.value < r.bytes_read ∧
      ∃ buf1 n, varint1_encode r.value buf 0 = some (buf1, n) ∧ buf1 ≠ buf) :=
  ⟨by decide, by decide,
    ⟨[0x40, 0x00], ⟨0, 2⟩, by decide, by decide, [0x00, 0x00], 1, by decide, by decide⟩,
    ⟨[0x80, 0x00], ⟨0, 2⟩, by decide, by decide, [0x00, 0x00], 1, by decide, by decide⟩⟩

/-! ## The access logs -/

theorem name__encode_loop_log_erase (value len offset : Nat) :
    ∀ (n i : Nat) (buf : Buf) (log : List Nat),
      (name__encode_loop_log value len offset n i buf log).map Prod.fst =
        name__encode_loop value len offset n i buf := by
  intro n
  induction n with
  | zero => exact fun _ _ _ => rfl
  | succ n ih =>
    intro i buf log
    simp only [name__encode_loop_log, name__encode_loop, store_log]
    cases store buf (offset + i) (to_uint8 ((value >>> ((len - 1 - i) * 8)) &&& 0xFF)) with
    | none => rfl
    | some buf1 => exact ih (i + 1) buf1 _

theorem name__encode_loop_log_log (value len offset : Nat) :
    ∀ (n i : Nat) (buf : Buf) (log : List Nat) (r : Buf × List Nat),
      name__encode_loop_log value len offset n i buf log = some r →
      r.2 = log ++ List.range' (offset + i) n := by
  intro n
  induction n with
  | zero =>
    intro i buf log r h
    simp only [name__encode_loop_log, Option.some.injEq] at h
    subst h
    simp
  | succ n ih =>
    intro i buf log r h
    simp only [name__encode_loop_log, store_log] at h
    cases hs : store buf (offset + i)
        (to_uint8 ((value >>> ((len - 1 - i) * 8)) &&& 0xFF)) with
    | none => simp [hs] at h
    | some buf1 =>
      simp only [hs, Option.some_bind, Option.bind_eq_bind] at h
      rw [ih (i + 1) buf1 _ r h]
      simp [List.range'_succ, Nat.add_assoc]

theorem name_decode_loop_log_erase (buf : Buf) (offset : Nat) :
    ∀ (n i value : Nat) (log : List Nat),
      (name_decode_loop_log buf offset n i value log).map Prod.fst =
        name_decode_loop buf offset n i value := by
  intro n
  induction n with
  | zero => exact fun _ _ _ => rfl
  | succ n ih =>
    intro i value log
    simp only [name_decode_loop_log, name_decode_loop, load_log]
    cases load buf (offset + i) with
    | none => rfl
    | some b => exact ih (i + 1) _ _

theorem name_decode_loop_log_log (buf : Buf) (offset : Nat) :
    ∀ (n i value : Nat) (log : List Nat) (r : Nat × List Nat),
      name_decode_loop_log buf offset n i value log = some r →
      r.2 = log ++ List.range' (offset + i) n := by
  intro n
  induction n with
  | zero =>
    intro i value log r h
    simp only [name_decode_loop_log, Option.some.injEq] at h
    subst h
    simp
  | succ n ih =>
    intro i value log r h
    simp only [name_decode_loop_log, load_log] at h
    cases hs : load buf (offset + i) with
    | none => simp [hs] at h
    | some b =>
      simp only [hs, Option.some_bind, Option.bind_eq_bind] at h
      rw [ih (i + 1) _ _ r h]
      simp [List.range'_succ, Nat.add_assoc]

theorem name__encode_log_core (value len offset : Nat) (buf : Buf) (b0 : Byte) :
    (((store_log buf [] offset b0).bind fun s1 =>
        (name__encode_loop_log value len offset (len - 1) 1 s1.1 s1.2).bind fun s2 =>
          some (s2.1, len, s2.2)).map fun r => (r.1, r.2.1)) =
      (store buf offset b0).bind fun buf1 =>
        (name__encode_loop value len offset (len - 1) 1 buf1).bind fun buf2 =>
          some (buf2, len) := by
  cases hs : store buf offset b0 with
  | none => simp [store_log, hs]
  | some buf1 =>
    have e := name__encode_loop_log_erase value len offset (len - 1) 1 buf1 ([] ++ [offset])
    simp only [store_log, hs, Option.some_bind, Option.bind_eq_bind, ← e]
    cases name__encode_loop_log value len offset (len - 1) 1 buf1 ([] ++ [offset]) <;> rfl

theorem name__encode_log_core_log (value len offset : Nat) (buf : Buf) (b0 : Byte)
    (r : Buf × Nat × List Nat) (hlen : 1 ≤ len)
    (h : ((store_log buf [] offset b0).bind fun s1 =>
        (name__encode_loop_log value len offset (len - 1) 1 s1.1 s1.2).bind fun s2 =>
          some (s2.1, len, s2.2)) = some r) :
    r.2.2 = List.range' offset len := by
  cases hs : store buf offset b0 with
  | none => simp [store_log, hs] at h
  | some buf1 =>
    simp only [store_log, hs, Option.some_bind, Option.bind_eq_bind] at h
    obtain ⟨s2, hl, hr⟩ := Option.bind_eq_some.mp h
    have hlog := name__encode_loop_log_log value len offset (len - 1) 1 buf1 _ s2 hl
    simp only [Option.some.injEq] at hr
    subst hr
    obtain ⟨m, rfl⟩ : ∃ m, len = m + 1 := ⟨len - 1, by omega⟩
    simp only [hlog, Nat.add_sub_cancel, List.nil_append, List.singleton_append,
      List.range'_succ]

/-- Erasing the log of `name_encode_log` gives `name_encode`. -/
theorem name_encode_log_erase (header_bits value : Nat) (buf : Buf) (offset : Nat) :
    (name_encode_log header_bits value buf offset).map (fun r => (r.1, r.2.1)) =
      name_encode header_bits value buf offset := by
  unfold name_encode_log name_encode
  split
  · rfl
  · exact name__encode_log_core value _ offset buf _

/-- On success with a length of at least 1, `name_encode_log` has written the
indices `offset, offset + 1, ..., offset + len - 1`, in this order. -/
theorem name_encode_log_log (header_bits value : Nat) (buf : Buf) (offset : Nat)
    (r : Buf × Nat × List Nat)
    (hmax : ¬ value % 2 ^ 32 > VARINT_MAX header_bits)
    (hlen : 1 ≤ name__encode_len header_bits value)
    (h : name_encode_log header_bits value buf offset = some r) :
    r.2.2 = List.range' offset (name__encode_len header_bits value) := by
  unfold name_encode_log at h
  rw [if_neg hmax] at h
  exact name__encode_log_core_log value _ offset buf _ r hlen h

/-- Erasing the log of `name_decode_len_log` gives `name_decode_len`. -/
theorem name_decode_len_log_erase (header_bits : Nat) (buf : Buf) (log : List Nat)
    (offset : Nat) :
    (name_decode_len_log header_bits buf log offset).map Prod.fst =
      name_decode_len header_bits buf offset := by
  unfold name_decode_len_log name_decode_len load_log
  cases load buf offset <;> rfl

/-- On success `name_decode_len_log` has read the index `offset` and no other. -/
theorem name_decode_len_log_log (header_bits : Nat) (buf : Buf) (log : List Nat)
    (offset : Nat) (r : Nat × List Nat)
    (h : name_decode_len_log header_bits buf log offset = some r) :
    r.2 = log ++ [offset] := by
  unfold name_decode_len_log load_log at h
  cases hl : load buf offset with
  | none => simp [hl] at h
  | some b =>
    simp only [hl, Option.some_bind, Option.bind_eq_bind, Option.some.injEq] at h
    subst h
    rfl

/-- Erasing the log of `name_decode_log` gives `name_decode`. -/
theorem name_decode_log_erase (header_bits : Nat) (buf : Buf) (offset : Nat) :
    (name_decode_log header_bits buf offset).map Prod.fst =
      name_decode header_bits buf offset := by
  unfold name_decode_log name_decode name_decode_len_log name_decode_len load_log
  cases load buf offset with
  | none => rfl
  | some b =>
    simp only [Option.some_bind, Option.bind_eq_bind]
    rw [← name_decode_loop_log_erase buf offset _ 1 _ ([] ++ [offset] ++ [offset])]
    cases name_decode_loop_log buf offset _ 1 _ ([] ++ [offset] ++ [offset]) <;> rfl

/-- On success `name_decode_log` has read `offset` (in `name##_decode_len`),
`offset` again, and then `offset + 1, ..., offset + len - 1`, where `len` is
the length `name##_decode_len` returns. -/
theorem name_decode_log_log (header_bits : Nat) (buf : Buf) (offset L : Nat)
    (r : varint_decode_result_t × List Nat)
    (hL : name_decode_len header_bits buf offset = some L)
    (h : name_decode_log header_bits buf offset = some r) :
    r.2 = offset :: offset :: List.range' (offset + 1) (L - 1) := by
  unfold name_decode_log name_decode_len_log load_log at h
  unfold name_decode_len at hL
  cases hl : load buf offset with
  | none => simp [hl] at h
  | some b =>
    simp only [hl, Option.some_bind, Option.bind_eq_bind, Option.some.injEq] at h hL
    subst hL
    obtain ⟨s, hloop, hr⟩ := Option.bind_eq_some.mp h
    have hlog := name_decode_loop_log_log buf offset _ 1 _ _ s hloop
    simp only [Option.some.injEq] at hr
    subst hr
    simp only [hlog, List.nil_append, List.singleton_append, List.cons_append,
      Nat.add_sub_cancel]

/-- A successful `name_encode` on a value in range is a successful
`name_encode_log` whose log lies in `[offset, offset + len)`, in bounds. -/
theorem name_encode_log_ok (header_bits v : Nat) (buf : Buf) (offset L : Nat)
    (hok : ∃ buf1, name_encode header_bits v buf offset = some (buf1, L) ∧
      buf1.length = buf.length ∧
      ∀ j, buf1[j]? =
        if offset ≤ j ∧ j < offset + L then some (enc_byte header_bits v L (j - offset))
        else buf[j]?)
    (hmax : v % 2 ^ 32 ≤ VARINT_MAX header_bits)
    (hpos : 1 ≤ name__encode_len header_bits v)
    (hL : L = name__encode_len header_bits v) (hroom : offset + L ≤ buf.length) :
    ∃ buf1 log, name_encode_log header_bits v buf offset = some (buf1, L, log) ∧
      name_encode header_bits v buf offset = some (buf1, L) ∧
      ∀ j, j ∈ log → (offset ≤ j ∧ j < offset + L) ∧ j < buf.length := by
  obtain ⟨buf1, h1, _, _⟩ := hok
  have he := name_encode_log_erase header_bits v buf offset
  rw [h1] at he
  obtain ⟨r, hr, hf⟩ := Option.map_eq_some'.mp he
  have hlog := name_encode_log_log header_bits v buf offset r (by omega) hpos hr
  obtain ⟨b, n, log⟩ := r
  simp only [Prod.mk.injEq] at hf
  obtain ⟨rfl, rfl⟩ := hf
  refine ⟨b, log, hr, h1, fun j hj => ?_⟩
  simp only at hlog
  rw [hlog, List.mem_range'_1, ← hL] at hj
  omega

/-- With the header byte in bounds `name_decode_len` returns a length, and with
that many bytes available `name_decode_log` succeeds with a log inside
`[offset, offset + L)`, in bounds. -/
theorem name_decode_log_ok (header_bits : Nat) (hH : header_bits ≤ 7) (buf : Buf)
    (offset : Nat) (hlt : offset < buf.length) :
    ∃ L, name_decode_len header_bits buf offset = some L ∧
      (offset + L ≤ buf.length →
        ∃ r log, name_decode_log header_bits buf offset = some (r, log) ∧
          name_decode header_bits buf offset = some r ∧
          ∀ j, j ∈ log → (offset ≤ j ∧ j < offset + L) ∧ j < buf.length) := by
  have h0 := List.getElem?_eq_getElem hlt
  have hL := name_decode_len_of_load header_bits buf offset _ h0
  refine ⟨_, hL, fun hroom => ?_⟩
  obtain ⟨value, hd⟩ := name_decode_total header_bits hH buf offset _ h0 hroom
  have he := name_decode_log_erase header_bits buf offset
  rw [hd] at he
  obtain ⟨r, hr, hf⟩ := Option.map_eq_some'.mp he
  have hlog := name_decode_log_log header_bits buf offset _ r hL hr
  obtain ⟨res, log⟩ := r
  simp only at hf hlog
  subst hf
  refine ⟨_, log, hr, hd, fun j hj => ?_⟩
  rw [hlog] at hj
  simp only [List.mem_cons, List.mem_range'_1, Nat.add_sub_cancel] at hj
  omega

/-- With the header byte in bounds `name_decode_len_log` reads `offset` only. -/
theorem name_decode_len_log_ok (header_bits : Nat) (buf : Buf) (offset : Nat)
    (hlt : offset < buf.length) :
    ∃ L, name_decode_len_log header_bits buf [] offset = some (L, [offset]) ∧
      name_decode_len header_bits buf offset = some L := by
  have h0 := List.getElem?_eq_getElem hlt
  refine ⟨_, ?_, name_decode_len_of_load header_bits buf offset _ h0⟩
  simp only [name_decode_len_log, load_log, load, h0, Option.some_bind, Option.bind_eq_bind,
    List.nil_append, and_mask_eq_mod, Nat.shiftRight_eq_div_pow]

/-! ## C12 — bounds safety under the caller's precondition -/

/-- C12 (bounds safety).  With buffer accesses returning `none` out of bounds
and the versions of the functions that log the indices they access (erasing the
log gives back the functions themselves), for `varint2` and `varint1`:
(1) if `v` is in range and `offset + encode_len v ≤ length buf`, `encode`
succeeds and every index it writes lies in `[offset, offset + encode_len v)`
and is in bounds;
(2) if `offset < length buf` and `offset + decode_len buf offset ≤ length buf`,
`decode` succeeds and every index it reads lies in
`[offset, offset + decode_len buf offset)` and is in bounds;
(3) if `offset < length buf`, `decode_len` succeeds and reads index `offset`
only. -/
theorem C12_bounds_safety :
    ((∀ (header_bits v : Nat) (buf : Buf) (offset : Nat),
        (name_encode_log header_bits v buf offset).map (fun r => (r.1, r.2.1)) =
          name_encode header_bits v buf offset) ∧
      (∀ (header_bits : Nat) (buf : Buf) (offset : Nat),
        (name_decode_log header_bits buf offset).map Prod.fst =
          name_decode header_bits buf offset) ∧
      (∀ (header_bits : Nat) (buf : Buf) (offset : Nat),
        (name_decode_len_log header_bits buf [] offset).map Prod.fst =
          name_decode_len header_bits buf offset)) ∧
    (∀ (v : Nat) (buf : Buf) (offset : Nat), v ≤ 1073741823 →
      offset + varint2_encode_len v ≤ buf.length →
      ∃ buf1 log, name_encode_log 2 v buf offset = some (buf1, varint2_encode_len v, log) ∧
        varint2_encode v buf offset = some (buf1, varint2_encode_len v) ∧
        ∀ j, j ∈ log → (offset ≤ j ∧ j < offset + varint2_encode_len v) ∧ j < buf.length) ∧
    (∀ (v : Nat) (buf : Buf) (offset : Nat), v ≤ 32767 →
      offset + varint1_encode_len v ≤ buf.length →
      ∃ buf1 log, name_encode_log 1 v buf offset = some (buf1, varint1_encode_len v, log) ∧
        varint1_encode v buf offset = some (buf1, varint1_encode_len v) ∧
        ∀ j, j ∈ log → (offset ≤ j ∧ j < offset + varint1_encode_len v) ∧ j < buf.length) ∧
    (∀ (buf : Buf) (offset : Nat), offset < buf.length →
      ∃ L, varint2_decode_len buf offset = some L ∧
        (offset + L ≤ buf.length →
          ∃ r log, name_decode_log 2 buf offset = some (r, log) ∧
            varint2_decode buf offset = some r ∧
            ∀ j, j ∈ log → (offset ≤ j ∧ j < offset + L) ∧ j < buf.length)) ∧
    (∀ (buf : Buf) (offset : Nat), offset < buf.length →
      ∃ L, varint1_decode_len buf offset = some L ∧
        (offset + L ≤ buf.length →
          ∃ r log, name_decode_log 1 buf offset = some (r, log) ∧
            varint1_decode buf offset = some r ∧
            ∀ j, j ∈ log → (offset ≤ j ∧ j < offset + L) ∧ j < buf.length)) ∧
    (∀ (buf : Buf) (offset : Nat), offset < buf.length →
      ∃ L, name_decode_len_log 2 buf [] offset = some (L, [offset]) ∧
        varint2_decode_len buf offset = some L) ∧
    (∀ (buf : Buf) (offset : Nat), offset < buf.length →
      ∃ L, name_decode_len_log 1 buf [] offset = some (L, [offset]) ∧
        varint1_decode_len buf offset = some L) := by
  refine ⟨⟨name_encode_log_erase, name_decode_log_erase,
    fun h b o => name_decode_len_log_erase h b [] o⟩, ?_, ?_, ?_, ?_, ?_, ?_⟩
  · intro v buf offset hv hroom
    exact name_encode_log_ok 2 v buf offset _ (varint2_encode_ok v buf offset hv hroom)
      (by rw [VARINT_MAX_two]; omega)
      (by
        have hp := (varint2_encode_len_pos v hv).1
        rw [varint2_encode_len_of_le v hv] at hp
        exact hp)
      (by rw [varint2_encode_len_of_le v hv]; rfl) hroom
  · intro v buf offset hv hroom
    exact name_encode_log_ok 1 v buf offset _ (varint1_encode_ok v buf offset hv hroom)
      (by rw [VARINT_MAX_one]; omega)
      (by
        have hp := (varint1_encode_len_pos v hv).1
        rw [varint1_encode_len_of_le v hv] at hp
        exact hp)
      (by rw [varint1_encode_len_of_le v hv]; rfl) hroom
  · intro buf offset hlt
    exact name_decode_log_ok 2 (by decide) buf offset hlt
  · intro buf offset hlt
    exact name_decode_log_ok 1 (by decide) buf offset hlt
  · intro buf offset hlt
    exact name_decode_len_log_ok 2 buf offset hlt
  · intro buf offset hlt
    exact name_decode_len_log_ok 1 buf offset hlt

/-- Witness of C12: `100000` written at offset 2 of a six-byte buffer (`varint2`,
indices 2, 3, 4), `1000` written at offset 1 of a three-byte buffer (`varint1`,
indices 1, 2), and the reads of a three-byte and a two-byte encoding that end
exactly at the end of their buffers. -/
theorem C12_bounds_safety_witness :
    (100000 ≤ 1073741823 ∧
      2 + varint2_encode_len 100000 ≤ ([0xAA, 0xBB, 0, 0, 0, 0x11] : Buf).length ∧
      name_encode_log 2 100000 [0xAA, 0xBB, 0, 0, 0, 0x11] 2 =
        some ([0xAA, 0xBB, 0x81, 0x86, 0xA0, 0x11], 3, [2, 3, 4]) ∧
      ∃ buf1 log, name_encode_log 2 100000 [0xAA, 0xBB, 0, 0, 0, 0x11] 2 =
          some (buf1, varint2_encode_len 100000, log) ∧
        varint2_encode 100000 [0xAA, 0xBB, 0, 0, 0, 0x11] 2 =
          some (buf1, varint2_encode_len 100000) ∧
        ∀ j, j ∈ log → (2 ≤ j ∧ j < 2 + varint2_encode_len 100000) ∧
          j < ([0xAA, 0xBB, 0, 0, 0, 0x11] : Buf).length) ∧
    (1000 ≤ 32767 ∧ 1 + varint1_encode_len 1000 ≤ ([0xAA, 0, 0] : Buf).length ∧
      name_encode_log 1 1000 [0xAA, 0, 0] 1 = some ([0xAA, 0x83, 0xE8], 2, [1, 2]) ∧
      ∃ buf1 log, name_encode_log 1 1000 [0xAA, 0, 0] 1 =
          some (buf1, varint1_encode_len 1000, log) ∧
        varint1_encode 1000 [0xAA, 0, 0] 1 = some (buf1, varint1_encode_len 1000) ∧
        ∀ j, j ∈ log → (1 ≤ j ∧ j < 1 + varint1_encode_len 1000) ∧
          j < ([0xAA, 0, 0] : Buf).length) ∧
    (1 < ([0xAA, 0x81, 0x86, 0xA0] : Buf).length ∧
      name_decode_log 2 [0xAA, 0x81, 0x86, 0xA0] 1 = some (⟨100000, 3⟩, [1, 1, 2, 3]) ∧
      ∃ L, varint2_decode_len [0xAA, 0x81, 0x86, 0xA0] 1 = some L ∧
        (1 + L ≤ ([0xAA, 0x81, 0x86, 0xA0] : Buf).length →
          ∃ r log, name_decode_log 2 [0xAA, 0x81, 0x86, 0xA0] 1 = some (r, log) ∧
            varint2_decode [0xAA, 0x81, 0x86, 0xA0] 1 = some r ∧
            ∀ j, j ∈ log → (1 ≤ j ∧ j < 1 + L) ∧
              j < ([0xAA, 0x81, 0x86, 0xA0] : Buf).length)) ∧
    (1 < ([0xAA, 0x83, 0xE8] : Buf).length ∧
      name_decode_log 1 [0xAA, 0x83, 0xE8] 1 = some (⟨1000, 2⟩, [1, 1, 2]) ∧
      ∃ L, varint1_decode_len [0xAA, 0x83, 0xE8] 1 = some L ∧
        (1 + L ≤ ([0xAA, 0x83, 0xE8] : Buf).length →
          ∃ r log, name_decode_log 1 [0xAA, 0x83, 0xE8] 1 = some (r, log) ∧
            varint1_decode [0xAA, 0x83, 0xE8] 1 = some r ∧
            ∀ j, j ∈ log → (1 ≤ j ∧ j < 1 + L) ∧ j < ([0xAA, 0x83, 0xE8] : Buf).length)) ∧
    (1 < ([0xAA, 0x81] : Buf).length ∧
      ∃ L, name_decode_len_log 2 [0xAA, 0x81] [] 1 = some (L, [1]) ∧
        varint2_decode_len [0xAA, 0x81] 1 = some L) ∧
    (1 < ([0xAA, 0x83] : Buf).length ∧
      ∃ L, name_decode_len_log 1 [0xAA, 0x83] [] 1 = some (L, [1]) ∧
        varint1_decode_len [0xAA, 0x83] 1 = some L) :=
  ⟨⟨by decide, by decide, by decide,
      C12_bounds_safety.2.1 100000 [0xAA, 0xBB, 0, 0, 0, 0x11] 2 (by decide) (by decide)⟩,
    ⟨by decide, by decide, by decide,
      C12_bounds_safety.2.2.1 1000 [0xAA, 0, 0] 1 (by decide) (by decide)⟩,
    ⟨by decide, by decide, C12_bounds_safety.2.2.2.1 [0xAA, 0x81, 0x86, 0xA0] 1 (by decide)⟩,
    ⟨by decide, by decide, C12_bounds_safety.2.2.2.2.1 [0xAA, 0x83, 0xE8] 1 (by decide)⟩,
    ⟨by decide, C12_bounds_safety.2.2.2.2.2.1 [0xAA, 0x81] 1 (by decide)⟩,
    ⟨by decide, C12_bounds_safety.2.2.2.2.2.2 [0xAA, 0x83] 1 (by decide)⟩⟩

/-! ## C15 — the encoding preserves order -/

theorem varint2_len_cases (v : Nat) (hv : v ≤ 1073741823) :
    (varint2_encode_len v = 1 ∧ 0 ≤ v ∧ v ≤ 63) ∨
    (varint2_encode_len v = 2 ∧ 64 ≤ v ∧ v ≤ 16383) ∨
    (varint2_encode_len v = 3 ∧ 16384 ≤ v ∧ v ≤ 4194303) ∨
    (varint2_encode_len v = 4 ∧ 4194304 ≤ v ∧ v ≤ 1073741823) := by
  rw [varint2_encode_len_eq v (by omega), if_neg (by omega)]
  split_ifs <;> simp <;> omega

theorem varint1_len_cases (v : Nat) (hv : v ≤ 32767) :
    (varint1_encode_len v = 1 ∧ 0 ≤ v ∧ v ≤ 127) ∨
    (varint1_encode_len v = 2 ∧ 128 ≤ v ∧ v ≤ 32767) := by
  rw [varint1_encode_len_eq v (by omega), if_neg (by omega)]
  split_ifs <;> simp <;> omega

/-- The encodings of `v1 < v2` first differ at an index below the length of the
encoding of `v1`, and there the byte of `v1` is the smaller (`varint2`). -/
theorem varint2_enc_lt (v1 v2 : Nat) (hlt : v1 < v2) (hv : v2 ≤ 1073741823) :
    varint2_encode_len v1 ≤ varint2_encode_len v2 ∧
    ∃ k, k < varint2_encode_len v1 ∧
      (∀ j, j < k → enc_byte 2 v1 (varint2_encode_len v1) j =
        enc_byte 2 v2 (varint2_encode_len v2) j) ∧
      enc_byte 2 v1 (varint2_encode_len v1) k <
        enc_byte 2 v2 (varint2_encode_len v2) k := by
  rcases varint2_len_cases v1 (by omega) with
    ⟨l1, a1, a2⟩ | ⟨l1, a1, a2⟩ | ⟨l1, a1, a2⟩ | ⟨l1, a1, a2⟩
  · rcases varint2_len_cases v2 hv with
      ⟨l2, c1, c2⟩ | ⟨l2, c1, c2⟩ | ⟨l2, c1, c2⟩ | ⟨l2, c1, c2⟩
    · rw [l1, l2]
      refine ⟨by omega, ?_⟩
      have ea0 := enc_byte_zero_val 2 v1 1 (by decide)
      norm_num at ea0
      have eb0 := enc_byte_zero_val 2 v2 1 (by decide)
      norm_num at eb0
      refine ⟨0, by omega, fun j hj => absurd hj (by omega), ?_⟩
      rw [Fin.lt_def, ea0, eb0]
      omega
    · rw [l1, l2]
      refine ⟨by omega, ?_⟩
      have ea0 := enc_byte_zero_val 2 v1 1 (by decide)
      have eb0 := enc_byte_zero_val 2 v2 2 (by decide)
      norm_num at ea0 eb0
      refine ⟨0, by omega, fun j hj => absurd hj (by omega), ?_⟩
      rw [Fin.lt_def, ea0, eb0]
      omega
    · rw [l1, l2]
      refine ⟨by omega, ?_⟩
      have ea0 := enc_byte_zero_val 2 v1 1 (by decide)
      have eb0 := enc_byte_zero_val 2 v2 3 (by decide)
      norm_num at ea0 eb0
      refine ⟨0, by omega, fun j hj => absurd hj (by omega), ?_⟩
      rw [Fin.lt_def, ea0, eb0]
      omega
    · rw [l1, l2]
      refine ⟨by omega, ?_⟩
      have ea0 := enc_byte_zero_val 2 v1 1 (by decide)
      have eb0 := enc_byte_zero_val 2 v2 4 (by decide)
      norm_num at ea0 eb0
      refine ⟨0, by omega, fun j hj => absurd hj (by omega), ?_⟩
      rw [Fin.lt_def, ea0, eb0]
      omega
  · rcases varint2_len_cases v2 hv with
      ⟨l2, c1, c2⟩ | ⟨l2, c1, c2⟩ | ⟨l2, c1, c2⟩ | ⟨l2, c1, c2⟩
    · omega
    · rw [l1, l2]
      refine ⟨by omega, ?_⟩
      have ea0 := enc_byte_zero_val 2 v1 2 (by decide)
      have ea1 := enc_byte_succ_val 2 v1 2 1 (by decide)
      norm_num at ea0 ea1
      have eb0 := enc_byte_zero_val 2 v2 2 (by decide)
      have eb1 := enc_byte_succ_val 2 v2 2 1 (by decide)
      norm_num at eb0 eb1
      by_cases h0 : (enc_byte 2 v1 2 0).val = (enc_byte 2 v2 2 0).val
      · refine ⟨1, by omega, fun j hj => ?_, ?_⟩
        · interval_cases j
          exact Fin.ext h0
        · rw [Fin.lt_def, ea1, eb1]
          rw [ea0, eb0] at h0
          omega
      · refine ⟨0, by omega, fun j hj => absurd hj (by omega), ?_⟩
        rw [Fin.lt_def, ea0, eb0]
        rw [ea0, eb0] at h0
        omega
    · rw [l1, l2]
      refine ⟨by omega, ?_⟩
      have ea0 := enc_byte_zero_val 2 v1 2 (by decide)
      have eb0 := enc_byte_zero_val 2 v2 3 (by decide)
      norm_num at ea0 eb0
      refine ⟨0, by omega, fun j hj => absurd hj (by omega), ?_⟩
      rw [Fin.lt_def, ea0, eb0]
      omega
    · rw [l1, l2]
      refine ⟨by omega, ?_⟩
      have ea0 := enc_byte_zero_val 2 v1 2 (by decide)
      have eb0 := enc_byte_zero_val 2 v2 4 (by decide)
      norm_num at ea0 eb0
      refine ⟨0, by omega, fun j hj => absurd hj (by omega), ?_⟩
      rw [Fin.lt_def, ea0, eb0]
      omega
  · rcases varint2_len_cases v2 hv with
      ⟨l2, c1, c2⟩ | ⟨l2, c1, c2⟩ | ⟨l2, c1, c2⟩ | ⟨l2, c1, c2⟩
    · omega
    · omega
    · rw [l1, l2]
      refine ⟨by omega, ?_⟩
      have ea0 := enc_byte_zero_val 2 v1 3 (by decide)
      have ea1 := enc_byte_succ_val 2 v1 3 1 (by decide)
      have ea2 := enc_byte_succ_val 2 v1 3 2 (by decide)
      norm_num at ea0 ea1 ea2
      have eb0 := enc_byte_zero_val 2 v2 3 (by decide)
      have eb1 := enc_byte_succ_val 2 v2 3 1 (by decide)
      have eb2 := enc_byte_succ_val 2 v2 3 2 (by decide)
      norm_num at eb0 eb1 eb2
      by_cases h0 : (enc_byte 2 v1 3 0).val = (enc_byte 2 v2 3 0).val
      · by_cases h1 : (enc_byte 2 v1 3 1).val = (enc_byte 2 v2 3 1).val
        · refine ⟨2, by omega, fun j hj => ?_, ?_⟩
          · interval_cases j <;> first | exact Fin.ext h0 | exact Fin.ext h1
          · rw [Fin.lt_def, ea2, eb2]
            rw [ea0, eb0] at h0
            rw [ea1, eb1] at h1
            omega
        · refine ⟨1, by omega, fun j hj => ?_, ?_⟩
          · interval_cases j
            exact Fin.ext h0
          · rw [Fin.lt_def, ea1, eb1]
            rw [ea0, eb0] at h0
            rw [ea1, eb1] at h1
            omega
      · refine ⟨0, by omega, fun j hj => absurd hj (by omega), ?_⟩
        rw [Fin.lt_def, ea0, eb0]
        rw [ea0, eb0] at h0
        omega
    · rw [l1, l2]
      refine ⟨by omega, ?_⟩
      have ea0 := enc_byte_zero_val 2 v1 3 (by decide)
      have eb0 := enc_byte_zero_val 2 v2 4 (by decide)
      norm_num at ea0 eb0
      refine ⟨0, by omega, fun j hj => absurd hj (by omega), ?_⟩
      rw [Fin.lt_def, ea0, eb0]
      omega
  · rcases varint2_len_cases v2 hv with
      ⟨l2, c1, c2⟩ | ⟨l2, c1, c2⟩ | ⟨l2, c1, c2⟩ | ⟨l2, c1, c2⟩
    · omega
    · omega
    · omega
    · rw [l1, l2]
      refine ⟨by omega, ?_⟩
      have ea0 := enc_byte_zero_val 2 v1 4 (by decide)
      have ea1 := enc_byte_succ_val 2 v1 4 1 (by decide)
      have ea2 := enc_byte_succ_val 2 v1 4 2 (by decide)
      have ea3 := enc_byte_succ_val 2 v1 4 3 (by decide)
      norm_num at ea0 ea1 ea2 ea3
      have eb0 := enc_byte_zero_val 2 v2 4 (by decide)
      have eb1 := enc_byte_succ_val 2 v2 4 1 (by decide)
      have eb2 := enc_byte_succ_val 2 v2 4 2 (by decide)
      have eb3 := enc_byte_succ_val 2 v2 4 3 (by decide)
      norm_num at eb0 eb1 eb2 eb3
      by_cases h0 : (enc_byte 2 v1 4 0).val = (enc_byte 2 v2 4 0).val
      · by_cases h1 : (enc_byte 2 v1 4 1).val = (enc_byte 2 v2 4 1).val
        · by_cases h2 : (enc_byte 2 v1 4 2).val = (enc_byte 2 v2 4 2).val
          · refine ⟨3, by omega, fun j hj => ?_, ?_⟩
            · interval_cases j <;> first | exact Fin.ext h0 | exact Fin.ext h1 | exact Fin.ext h2
            · rw [Fin.lt_def, ea3, eb3]
              rw [ea0, eb0] at h0
              rw [ea1, eb1] at h1
              rw [ea2, eb2] at h2
              omega
          · refine ⟨2, by omega, fun j hj => ?_, ?_⟩
            · interval_cases j <;> first | exact Fin.ext h0 | exact Fin.ext h1
            · rw [Fin.lt_def, ea2, eb2]
              rw [ea0, eb0] at h0
              rw [ea1, eb1] at h1
              rw [ea2, eb2] at h2
              omega
        · refine ⟨1, by omega, fun j hj => ?_, ?_⟩
          · interval_cases j
            exact Fin.ext h0
          · rw [Fin.lt_def, ea1, eb1]
            rw [ea0, eb0] at h0
            rw [ea1, eb1] at h1
            omega
      · refine ⟨0, by omega, fun j hj => absurd hj (by omega), ?_⟩
        rw [Fin.lt_def, ea0, eb0]
        rw [ea0, eb0] at h0
        omega

/-- The encodings of `v1 < v2` first differ at an index below the length of the
encoding of `v1`, and there the byte of `v1` is the smaller (`varint1`). -/
theorem varint1_enc_lt (v1 v2 : Nat) (hlt : v1 < v2) (hv : v2 ≤ 32767) :
    varint1_encode_len v1 ≤ varint1_encode_len v2 ∧
    ∃ k, k < varint1_encode_len v1 ∧
      (∀ j, j < k → enc_byte 1 v1 (varint1_encode_len v1) j =
        enc_byte 1 v2 (varint1_encode_len v2) j) ∧
      enc_byte 1 v1 (varint1_encode_len v1) k <
        enc_byte 1 v2 (varint1_encode_len v2) k := by
  rcases varint1_len_cases v1 (by omega) with
    ⟨l1, a1, a2⟩ | ⟨l1, a1, a2⟩
  · rcases varint1_len_cases v2 hv with
      ⟨l2, c1, c2⟩ | ⟨l2, c1, c2⟩
    · rw [l1, l2]
      refine ⟨by omega, ?_⟩
      have ea0 := enc_byte_zero_val 1 v1 1 (by decide)
      norm_num at ea0
      have eb0 := enc_byte_zero_val 1 v2 1 (by decide)
      norm_num at eb0
      refine ⟨0, by omega, fun j hj => absurd hj (by omega), ?_⟩
      rw [Fin.lt_def, ea0, eb0]
      omega
    · rw [l1, l2]
      refine ⟨by omega, ?_⟩
      have ea0 := enc_byte_zero_val 1 v1 1 (by decide)
      have eb0 := enc_byte_zero_val 1 v2 2 (by decide)
      norm_num at ea0 eb0
      refine ⟨0, by omega, fun j hj => absurd hj (by omega), ?_⟩
      rw [Fin.lt_def, ea0, eb0]
      omega
  · rcases varint1_len_cases v2 hv with
      ⟨l2, c1, c2⟩ | ⟨l2, c1, c2⟩
    · omega
    · rw [l1, l2]
      refine ⟨by omega, ?_⟩
      have ea0 := enc_byte_zero_val 1 v1 2 (by decide)
      have ea1 := enc_byte_succ_val 1 v1 2 1 (by decide)
      norm_num at ea0 ea1
      have eb0 := enc_byte_zero_val 1 v2 2 (by decide)
      have eb1 := enc_byte_succ_val 1 v2 2 1 (by decide)
      norm_num at eb0 eb1
      by_cases h0 : (enc_byte 1 v1 2 0).val = (enc_byte 1 v2 2 0).val
      · refine ⟨1, by omega, fun j hj => ?_, ?_⟩
        · interval_cases j
          exact Fin.ext h0
        · rw [Fin.lt_def, ea1, eb1]
          rw [ea0, eb0] at h0
          omega
      · refine ⟨0, by omega, fun j hj => absurd hj (by omega), ?_⟩
        rw [Fin.lt_def, ea0, eb0]
        rw [ea0, eb0] at h0
        omega

theorem prefix_getElem? {W1 W2 : List Byte} (h : List.IsPrefix W1 W2) (k : Nat)
    (hk : k < W1.length) : W2[k]? = W1[k]? := by
  obtain ⟨t, rfl⟩ := h
  exact List.getElem?_append_left hk

/-- The encoding of `v1` is a prefix of the encoding of `v2` only when
`v1 = v2` (`varint2`). -/
theorem varint2_prefix_eq (v1 v2 : Nat) (hv1 : v1 ≤ 1073741823) (hv2 : v2 ≤ 1073741823)
    (hpre : List.IsPrefix ((List.range (varint2_encode_len v1)).map (enc_byte 2 v1 (varint2_encode_len v1)))
      ((List.range (varint2_encode_len v2)).map (enc_byte 2 v2 (varint2_encode_len v2)))) :
    v1 = v2 := by
  have hle := hpre.length_le
  simp only [List.length_map, List.length_range] at hle
  have hget : ∀ k, k < varint2_encode_len v1 →
      enc_byte 2 v2 (varint2_encode_len v2) k = enc_byte 2 v1 (varint2_encode_len v1) k := by
    intro k hk
    have h := prefix_getElem? hpre k (by simpa using hk)
    have hk2 : k < varint2_encode_len v2 := by omega
    simpa [List.getElem?_map, List.getElem?_range, hk, hk2] using h
  rcases Nat.lt_trichotomy v1 v2 with hlt | heq | hgt
  · obtain ⟨_, k, hk, _, hk3⟩ := varint2_enc_lt v1 v2 hlt hv2
    rw [hget k hk] at hk3
    exact absurd hk3 (lt_irrefl _)
  · exact heq
  · obtain ⟨hle2, k, hk, _, hk3⟩ := varint2_enc_lt v2 v1 hgt hv1
    rw [hget k (by omega)] at hk3
    exact absurd hk3 (lt_irrefl _)

/-- The encoding of `v1` is a prefix of the encoding of `v2` only when
`v1 = v2` (`varint1`). -/
theorem varint1_prefix_eq (v1 v2 : Nat) (hv1 : v1 ≤ 32767) (hv2 : v2 ≤ 32767)
    (hpre : List.IsPrefix ((List.range (varint1_encode_len v1)).map (enc_byte 1 v1 (varint1_encode_len v1)))
      ((List.range (varint1_encode_len v2)).map (enc_byte 1 v2 (varint1_encode_len v2)))) :
    v1 = v2 := by
  have hle := hpre.length_le
  simp only [List.length_map, List.length_range] at hle
  have hget : ∀ k, k < varint1_encode_len v1 →
      enc_byte 1 v2 (varint1_encode_len v2) k = enc_byte 1 v1 (varint1_encode_len v1) k := by
    intro k hk
    have h := prefix_getElem? hpre k (by simpa using hk)
    have hk2 : k < varint1_encode_len v2 := by omega
    simpa [List.getElem?_map, List.getElem?_range, hk, hk2] using h
  rcases Nat.lt_trichotomy v1 v2 with hlt | heq | hgt
  · obtain ⟨_, k, hk, _, hk3⟩ := varint1_enc_lt v1 v2 hlt hv2
    rw [hget k hk] at hk3
    exact absurd hk3 (lt_irrefl _)
  · exact heq
  · obtain ⟨hle2, k, hk, _, hk3⟩ := varint1_enc_lt v2 v1 hgt hv1
    rw [hget k (by omega)] at hk3
    exact absurd hk3 (lt_irrefl _)

/-- C15 (the encoding preserves order).  For `varint2` and `varint1` and all
`v1 < v2` in range: `encode_len v1 ≤ encode_len v2`, and the bytes `encode`
writes for `v1` are strictly below those it writes for `v2` in lexicographic
(`memcmp`) order: they agree up to some index `k < encode_len v1`, where the
byte of `v1` is smaller.  Consequently equal encodings come from equal values,
and the encoding of one value is never a prefix of the encoding of another. -/
theorem C15_order_preserving :
    (∀ (v1 v2 : Nat) (buf buf2 : Buf) (offset offset2 : Nat), v1 < v2 → v2 ≤ 1073741823 →
      offset + varint2_encode_len v1 ≤ buf.length → offset2 + varint2_encode_len v2 ≤ buf2.length →
      varint2_encode_len v1 ≤ varint2_encode_len v2 ∧
      ∃ w1 w2, varint2_encode v1 buf offset = some (w1, varint2_encode_len v1) ∧
        varint2_encode v2 buf2 offset2 = some (w2, varint2_encode_len v2) ∧
        ∃ k, k < varint2_encode_len v1 ∧
          (∀ j, j < k → w1[offset + j]? = w2[offset2 + j]?) ∧
          ∃ x y, w1[offset + k]? = some x ∧ w2[offset2 + k]? = some y ∧ x < y) ∧
    (∀ (v1 v2 : Nat) (buf buf2 : Buf) (offset offset2 : Nat), v1 < v2 → v2 ≤ 32767 →
      offset + varint1_encode_len v1 ≤ buf.length → offset2 + varint1_encode_len v2 ≤ buf2.length →
      varint1_encode_len v1 ≤ varint1_encode_len v2 ∧
      ∃ w1 w2, varint1_encode v1 buf offset = some (w1, varint1_encode_len v1) ∧
        varint1_encode v2 buf2 offset2 = some (w2, varint1_encode_len v2) ∧
        ∃ k, k < varint1_encode_len v1 ∧
          (∀ j, j < k → w1[offset + j]? = w2[offset2 + j]?) ∧
          ∃ x y, w1[offset + k]? = some x ∧ w2[offset2 + k]? = some y ∧ x < y) ∧
    (∀ (v1 v2 : Nat) (buf buf2 : Buf) (offset offset2 : Nat), v1 ≤ 1073741823 → v2 ≤ 1073741823 →
      offset + varint2_encode_len v1 ≤ buf.length → offset2 + varint2_encode_len v2 ≤ buf2.length →
      ∃ w1 w2, varint2_encode v1 buf offset = some (w1, varint2_encode_len v1) ∧
        varint2_encode v2 buf2 offset2 = some (w2, varint2_encode_len v2) ∧
        ((w1.drop offset).take (varint2_encode_len v1) = (w2.drop offset2).take (varint2_encode_len v2) → v1 = v2) ∧
        (v1 ≠ v2 → ¬ List.IsPrefix ((w1.drop offset).take (varint2_encode_len v1))
          ((w2.drop offset2).take (varint2_encode_len v2)))) ∧
    (∀ (v1 v2 : Nat) (buf buf2 : Buf) (offset offset2 : Nat), v1 ≤ 32767 → v2 ≤ 32767 →
      offset + varint1_encode_len v1 ≤ buf.length → offset2 + varint1_encode_len v2 ≤ buf2.length →
      ∃ w1 w2, varint1_encode v1 buf offset = some (w1, varint1_encode_len v1) ∧
        varint1_encode v2 buf2 offset2 = some (w2, varint1_encode_len v2) ∧
        ((w1.drop offset).take (varint1_encode_len v1) = (w2.drop offset2).take (varint1_encode_len v2) → v1 = v2) ∧
        (v1 ≠ v2 → ¬ List.IsPrefix ((w1.drop offset).take (varint1_encode_len v1))
          ((w2.drop offset2).take (varint1_encode_len v2)))) := by
  refine ⟨?_, ?_, ?_, ?_⟩
  · intro v1 v2 buf buf2 offset offset2 hlt hv2 hroom hroom2
    obtain ⟨w1, h1, _, h3⟩ := varint2_encode_ok v1 buf offset (by omega) hroom
    obtain ⟨w2, g1, _, g3⟩ := varint2_encode_ok v2 buf2 offset2 hv2 hroom2
    obtain ⟨hle, k, hk, hk2, hk3⟩ := varint2_enc_lt v1 v2 hlt hv2
    refine ⟨hle, w1, w2, h1, g1, k, hk, fun j hj => ?_, _, _, ?_, ?_, hk3⟩
    · rw [h3 (offset + j), if_pos (by omega), g3 (offset2 + j), if_pos (by omega),
        Nat.add_sub_cancel_left, Nat.add_sub_cancel_left, hk2 j hj]
    · rw [h3 (offset + k), if_pos (by omega), Nat.add_sub_cancel_left]
    · rw [g3 (offset2 + k), if_pos (by omega), Nat.add_sub_cancel_left]
  · intro v1 v2 buf buf2 offset offset2 hlt hv2 hroom hroom2
    obtain ⟨w1, h1, _, h3⟩ := varint1_encode_ok v1 buf offset (by omega) hroom
    obtain ⟨w2, g1, _, g3⟩ := varint1_encode_ok v2 buf2 offset2 hv2 hroom2
    obtain ⟨hle, k, hk, hk2, hk3⟩ := varint1_enc_lt v1 v2 hlt hv2
    refine ⟨hle, w1, w2, h1, g1, k, hk, fun j hj => ?_, _, _, ?_, ?_, hk3⟩
    · rw [h3 (offset + j), if_pos (by omega), g3 (offset2 + j), if_pos (by omega),
        Nat.add_sub_cancel_left, Nat.add_sub_cancel_left, hk2 j hj]
    · rw [h3 (offset + k), if_pos (by omega), Nat.add_sub_cancel_left]
    · rw [g3 (offset2 + k), if_pos (by omega), Nat.add_sub_cancel_left]
  · intro v1 v2 buf buf2 offset offset2 hv1 hv2 hroom hroom2
    obtain ⟨w1, h1, _, h3⟩ := varint2_encode_ok v1 buf offset hv1 hroom
    obtain ⟨w2, g1, _, g3⟩ := varint2_encode_ok v2 buf2 offset2 hv2 hroom2
    have e1 := window_eq w1 offset (varint2_encode_len v1)
      (enc_byte 2 v1 (varint2_encode_len v1)) (fun k hk => by
      rw [h3 (offset + k), if_pos (by omega), Nat.add_sub_cancel_left])
    have e2 := window_eq w2 offset2 (varint2_encode_len v2)
      (enc_byte 2 v2 (varint2_encode_len v2)) (fun k hk => by
      rw [g3 (offset2 + k), if_pos (by omega), Nat.add_sub_cancel_left])
    refine ⟨w1, w2, h1, g1, fun heq => ?_, fun hne hpre => ?_⟩
    · rw [e1, e2] at heq
      exact varint2_prefix_eq v1 v2 hv1 hv2 (heq ▸ List.prefix_refl _)
    · rw [e1, e2] at hpre
      exact hne (varint2_prefix_eq v1 v2 hv1 hv2 hpre)
  · intro v1 v2 buf buf2 offset offset2 hv1 hv2 hroom hroom2
    obtain ⟨w1, h1, _, h3⟩ := varint1_encode_ok v1 buf offset hv1 hroom
    obtain ⟨w2, g1, _, g3⟩ := varint1_encode_ok v2 buf2 offset2 hv2 hroom2
    have e1 := window_eq w1 offset (varint1_encode_len v1)
      (enc_byte 1 v1 (varint1_encode_len v1)) (fun k hk => by
      rw [h3 (offset + k), if_pos (by omega), Nat.add_sub_cancel_left])
    have e2 := window_eq w2 offset2 (varint1_encode_len v2)
      (enc_byte 1 v2 (varint1_encode_len v2)) (fun k hk => by
      rw [g3 (offset2 + k), if_pos (by omega), Nat.add_sub_cancel_left])
    refine ⟨w1, w2, h1, g1, fun heq => ?_, fun hne hpre => ?_⟩
    · rw [e1, e2] at heq
      exact varint1_prefix_eq v1 v2 hv1 hv2 (heq ▸ List.prefix_refl _)
    · rw [e1, e2] at hpre
      exact hne (varint1_prefix_eq v1 v2 hv1 hv2 hpre)

/-- Witness of C15: `63 < 64` across the one-byte/two-byte threshold and
`0x1FF < 0x200` inside the two-byte range, written at different offsets of
different buffers. -/
theorem C15_order_preserving_witness :
    (63 < 64 ∧ 64 ≤ 1073741823 ∧ 1 + varint2_encode_len 63 ≤ ([0, 0, 0] : Buf).length ∧
      0 + varint2_encode_len 64 ≤ ([9, 9] : Buf).length ∧
      varint2_encode_len 63 ≤ varint2_encode_len 64 ∧
      ∃ w1 w2, varint2_encode 63 [0, 0, 0] 1 = some (w1, varint2_encode_len 63) ∧
        varint2_encode 64 [9, 9] 0 = some (w2, varint2_encode_len 64) ∧
        ∃ k, k < varint2_encode_len 63 ∧
          (∀ j, j < k → w1[1 + j]? = w2[0 + j]?) ∧
          ∃ x y, w1[1 + k]? = some x ∧ w2[0 + k]? = some y ∧ x < y) ∧
    (511 < 512 ∧ 512 ≤ 32767 ∧ 1 + varint1_encode_len 511 ≤ ([0, 0, 0] : Buf).length ∧
      0 + varint1_encode_len 512 ≤ ([9, 9] : Buf).length ∧
      varint1_encode_len 511 ≤ varint1_encode_len 512 ∧
      ∃ w1 w2, varint1_encode 511 [0, 0, 0] 1 = some (w1, varint1_encode_len 511) ∧
        varint1_encode 512 [9, 9] 0 = some (w2, varint1_encode_len 512) ∧
        ∃ k, k < varint1_encode_len 511 ∧
          (∀ j, j < k → w1[1 + j]? = w2[0 + j]?) ∧
          ∃ x y, w1[1 + k]? = some x ∧ w2[0 + k]? = some y ∧ x < y) ∧
    (63 ≤ 1073741823 ∧ 64 ≤ 1073741823 ∧ 1 + varint2_encode_len 63 ≤ ([0, 0, 0] : Buf).length ∧
      0 + varint2_encode_len 64 ≤ ([9, 9] : Buf).length ∧
      ∃ w1 w2, varint2_encode 63 [0, 0, 0] 1 = some (w1, varint2_encode_len 63) ∧
        varint2_encode 64 [9, 9] 0 = some (w2, varint2_encode_len 64) ∧
        ((w1.drop 1).take (varint2_encode_len 63) = (w2.drop 0).take (varint2_encode_len 64) → 63 = 64) ∧
        (63 ≠ 64 → ¬ List.IsPrefix ((w1.drop 1).take (varint2_encode_len 63))
          ((w2.drop 0).take (varint2_encode_len 64)))) ∧
    (511 ≤ 32767 ∧ 512 ≤ 32767 ∧ 1 + varint1_encode_len 511 ≤ ([0, 0, 0] : Buf).length ∧
      0 + varint1_encode_len 512 ≤ ([9, 9] : Buf).length ∧
      ∃ w1 w2, varint1_encode 511 [0, 0, 0] 1 = some (w1, varint1_encode_len 511) ∧
        varint1_encode 512 [9, 9] 0 = some (w2, varint1_encode_len 512) ∧
        ((w1.drop 1).take (varint1_encode_len 511) = (w2.drop 0).take (varint1_encode_len 512) → 511 = 512) ∧
        (511 ≠ 512 → ¬ List.IsPrefix ((w1.drop 1).take (varint1_encode_len 511))
          ((w2.drop 0).take (varint1_encode_len 512)))) :=
  ⟨⟨by decide, by decide, by decide, by decide,
      C15_order_preserving.1 63 64 [0, 0, 0] [9, 9] 1 0
        (by decide) (by decide) (by decide) (by decide)⟩,
    ⟨by decide, by decide, by decide, by decide,
      C15_order_preserving.2.1 511 512 [0, 0, 0] [9, 9] 1 0
        (by decide) (by decide) (by decide) (by decide)⟩,
    ⟨by decide, by decide, by decide, by decide,
      C15_order_preserving.2.2.1 63 64 [0, 0, 0] [9, 9] 1 0
        (by decide) (by decide) (by decide) (by decide)⟩,
    ⟨by decide, by decide, by decide, by decide,
      C15_order_preserving.2.2.2 511 512 [0, 0, 0] [9, 9] 1 0
        (by decide) (by decide) (by decide) (by decide)⟩⟩

/-! ## C16 — canonical encodings re-encode to themselves -/

theorem name_decode_loop_room (buf : Buf) (offset : Nat) :
    ∀ (n i value r : Nat), name_decode_loop buf offset n i value = some r →
      n = 0 ∨ offset + i + n ≤ buf.length := by
  intro n
  induction n with
  | zero => exact fun _ _ _ _ => Or.inl rfl
  | succ n ih =>
    intro i value r h
    simp only [name_decode_loop, load] at h
    obtain ⟨b, hb, hrest⟩ := Option.bind_eq_some.mp h
    have hlt : offset + i < buf.length := by
      by_contra hc
      rw [List.getElem?_eq_none (by omega)] at hb
      exact absurd hb (by simp)
    rcases ih (i + 1) _ r hrest with h0 | h1
    · right
      omega
    · right
      omega

/-- A successful decode had its header byte and the implied bytes in bounds. -/
theorem name_decode_room (header_bits : Nat) (hH : header_bits ≤ 7) (buf : Buf)
    (offset : Nat) (r : varint_decode_result_t)
    (hd : name_decode header_bits buf offset = some r) :
    ∃ b0, buf[offset]? = some b0 ∧
      offset + ((b0.val / 2 ^ (8 - header_bits)) % 2 ^ header_bits + 1) ≤ buf.length := by
  cases h0 : buf[offset]? with
  | none => simp [name_decode, name_decode_len, load, h0] at hd
  | some b0 =>
    refine ⟨b0, rfl, ?_⟩
    have hlt : offset < buf.length := by
      by_contra hc
      rw [List.getElem?_eq_none (by omega)] at h0
      exact absurd h0 (by simp)
    rw [name_decode_of_load header_bits buf offset b0 (by omega) h0] at hd
    obtain ⟨value, hloop, _⟩ := Option.bind_eq_some.mp hd
    rcases name_decode_loop_room buf offset _ 1 _ value hloop with hz | hr
    · rw [hz]
      omega
    · omega

/-- C16 (canonical encodings re-encode to themselves).  For `varint2` and
`varint1`, every buffer and offset: if `decode buf offset` returns `(v, L)` and
`encode_len v = L`, then `encode v buf offset` returns `L` and the buffer
afterwards is `buf` itself. -/
theorem C16_canonical_reencode :
    (∀ (buf : Buf) (offset v L : Nat), varint2_decode buf offset = some ⟨v, L⟩ →
      varint2_encode_len v = L → varint2_encode v buf offset = some (buf, L)) ∧
    (∀ (buf : Buf) (offset v L : Nat), varint1_decode buf offset = some ⟨v, L⟩ →
      varint1_encode_len v = L → varint1_encode v buf offset = some (buf, L)) := by
  constructor
  · intro buf offset v L hd hcanon
    obtain ⟨b0, h0, hroom⟩ := name_decode_room 2 (by decide) buf offset _ hd
    have hb := b0.isLt
    norm_num at hroom
    have hroom2 : offset + (b0.val / 64 + 1) ≤ buf.length := by omega
    rcases varint2_decode_shape buf offset b0 h0 hroom2 with
      ⟨hq, hd2⟩ | ⟨hq, c1, h1, hd2⟩ | ⟨hq, c1, c2, h1, h2, hd2⟩ | ⟨hq, c1, c2, c3, h1, h2, h3, hd2⟩
    · rw [hd2, Option.some.injEq, varint_decode_result_t.mk.injEq] at hd
      obtain ⟨hv, hL⟩ := hd
      subst hL
      have hmax : v ≤ 1073741823 := by omega
      obtain ⟨buf1, g1, _, g3⟩ := varint2_encode_ok v buf offset hmax (by
        rw [hcanon]
        omega)
      rw [hcanon] at g1 g3
      have e0 := enc_byte_zero_val 2 v 1 (by decide)
      norm_num at e0
      have hsame : buf1 = buf := by
        apply List.ext_getElem?
        intro j
        rw [g3 j]
        split_ifs with hj
        · obtain ⟨k, rfl⟩ : ∃ k, j = offset + k := ⟨j - offset, by omega⟩
          rw [Nat.add_sub_cancel_left]
          have hk : k < 1 := by omega
          interval_cases k
          · rw [Nat.add_zero, h0]
            congr 1
            apply Fin.ext
            rw [e0]
            omega
        · rfl
      rw [hsame] at g1
      exact g1
    · rw [hd2, Option.some.injEq, varint_decode_result_t.mk.injEq] at hd
      obtain ⟨hv, hL⟩ := hd
      subst hL
      have ic1 := c1.isLt
      have hmax : v ≤ 1073741823 := by omega
      obtain ⟨buf1, g1, _, g3⟩ := varint2_encode_ok v buf offset hmax (by
        rw [hcanon]
        omega)
      rw [hcanon] at g1 g3
      have e0 := enc_byte_zero_val 2 v 2 (by decide)
      have e1 := enc_byte_succ_val 2 v 2 1 (by decide)
      norm_num at e0 e1
      have hsame : buf1 = buf := by
        apply List.ext_getElem?
        intro j
        rw [g3 j]
        split_ifs with hj
        · obtain ⟨k, rfl⟩ : ∃ k, j = offset + k := ⟨j - offset, by omega⟩
          rw [Nat.add_sub_cancel_left]
          have hk : k < 2 := by omega
          interval_cases k
          · rw [Nat.add_zero, h0]
            congr 1
            apply Fin.ext
            rw [e0]
            omega
          · rw [h1]
            congr 1
            apply Fin.ext
            rw [e1]
            omega
        · rfl
      rw [hsame] at g1
      exact g1
    · rw [hd2, Option.some.injEq, varint_decode_result_t.mk.injEq] at hd
      obtain ⟨hv, hL⟩ := hd
      subst hL
      have ic1 := c1.isLt
      have ic2 := c2.isLt
      have hmax : v ≤ 1073741823 := by omega
      obtain ⟨buf1, g1, _, g3⟩ := varint2_encode_ok v buf offset hmax (by
        rw [hcanon]
        omega)
      rw [hcanon] at g1 g3
      have e0 := enc_byte_zero_val 2 v 3 (by decide)
      have e1 := enc_byte_succ_val 2 v 3 1 (by decide)
      have e2 := enc_byte_succ_val 2 v 3 2 (by decide)
      norm_num at e0 e1 e2
      have hsame : buf1 = buf := by
        apply List.ext_getElem?
        intro j
        rw [g3 j]
        split_ifs with hj
        · obtain ⟨k, rfl⟩ : ∃ k, j = offset + k := ⟨j - offset, by omega⟩
          rw [Nat.add_sub_cancel_left]
          have hk : k < 3 := by omega
          interval_cases k
          · rw [Nat.add_zero, h0]
            congr 1
            apply Fin.ext
            rw [e0]
            omega
          · rw [h1]
            congr 1
            apply Fin.ext
            rw [e1]
            omega
          · rw [h2]
            congr 1
            apply Fin.ext
            rw [e2]
            omega
        · rfl
      rw [hsame] at g1
      exact g1
    · rw [hd2, Option.some.injEq, varint_decode_result_t.mk.injEq] at hd
      obtain ⟨hv, hL⟩ := hd
      subst hL
      have ic1 := c1.isLt
      have ic2 := c2.isLt
      have ic3 := c3.isLt
      have hmax : v ≤ 1073741823 := by omega
      obtain ⟨buf1, g1, _, g3⟩ := varint2_encode_ok v buf offset hmax (by
        rw [hcanon]
        omega)
      rw [hcanon] at g1 g3
      have e0 := enc_byte_zero_val 2 v 4 (by decide)
      have e1 := enc_byte_succ_val 2 v 4 1 (by decide)
      have e2 := enc_byte_succ_val 2 v 4 2 (by decide)
      have e3 := enc_byte_succ_val 2 v 4 3 (by decide)
      norm_num at e0 e1 e2 e3
      have hsame : buf1 = buf := by
        apply List.ext_getElem?
        intro j
        rw [g3 j]
        split_ifs with hj
        · obtain ⟨k, rfl⟩ : ∃ k, j = offset + k := ⟨j - offset, by omega⟩
          rw [Nat.add_sub_cancel_left]
          have hk : k < 4 := by omega
          interval_cases k
          · rw [Nat.add_zero, h0]
            congr 1
            apply Fin.ext
            rw [e0]
            omega
          · rw [h1]
            congr 1
            apply Fin.ext
            rw [e1]
            omega
          · rw [h2]
            congr 1
            apply Fin.ext
            rw [e2]
            omega
          · rw [h3]
            congr 1
            apply Fin.ext
            rw [e3]
            omega
        · rfl
      rw [hsame] at g1
      exact g1
  · intro buf offset v L hd hcanon
    obtain ⟨b0, h0, hroom⟩ := name_decode_room 1 (by decide) buf offset _ hd
    have hb := b0.isLt
    norm_num at hroom
    have hroom2 : offset + (b0.val / 128 + 1) ≤ buf.length := by omega
    rcases varint1_decode_shape buf offset b0 h0 hroom2 with
      ⟨hq, hd2⟩ | ⟨hq, c1, h1, hd2⟩
    · rw [hd2, Option.some.injEq, varint_decode_result_t.mk.injEq] at hd
      obtain ⟨hv, hL⟩ := hd
      subst hL
      have hmax : v ≤ 32767 := by omega
      obtain ⟨buf1, g1, _, g3⟩ := varint1_encode_ok v buf offset hmax (by
        rw [hcanon]
        omega)
      rw [hcanon] at g1 g3
      have e0 := enc_byte_zero_val 1 v 1 (by decide)
      norm_num at e0
      have hsame : buf1 = buf := by
        apply List.ext_getElem?
        intro j
        rw [g3 j]
        split_ifs with hj
        · obtain ⟨k, rfl⟩ : ∃ k, j = offset + k := ⟨j - offset, by omega⟩
          rw [Nat.add_sub_cancel_left]
          have hk : k < 1 := by omega
          interval_cases k
          · rw [Nat.add_zero, h0]
            congr 1
            apply Fin.ext
            rw [e0]
            omega
        · rfl
      rw [hsame] at g1
      exact g1
    · rw [hd2, Option.some.injEq, varint_decode_result_t.mk.injEq] at hd
      obtain ⟨hv, hL⟩ := hd
      subst hL
      have ic1 := c1.isLt
      have hmax : v ≤ 32767 := by omega
      obtain ⟨buf1, g1, _, g3⟩ := varint1_encode_ok v buf offset hmax (by
        rw [hcanon]
        omega)
      rw [hcanon] at g1 g3
      have e0 := enc_byte_zero_val 1 v 2 (by decide)
      have e1 := enc_byte_succ_val 1 v 2 1 (by decide)
      norm_num at e0 e1
      have hsame : buf1 = buf := by
        apply List.ext_getElem?
        intro j
        rw [g3 j]
        split_ifs with hj
        · obtain ⟨k, rfl⟩ : ∃ k, j = offset + k := ⟨j - offset, by omega⟩
          rw [Nat.add_sub_cancel_left]
          have hk : k < 2 := by omega
          interval_cases k
          · rw [Nat.add_zero, h0]
            congr 1
            apply Fin.ext
            rw [e0]
            omega
          · rw [h1]
            congr 1
            apply Fin.ext
            rw [e1]
            omega
        · rfl
      rw [hsame] at g1
      exact g1

/-- Witness of C16: the canonical encodings of `1000`, `0x43 0xE8` at offset 1
between other bytes (`varint2`) and `0x83 0xE8` at offset 0 (`varint1`). -/
theorem C16_canonical_reencode_witness :
    (varint2_decode [0xAA, 0x43, 0xE8, 0x55] 1 = some ⟨1000, 2⟩ ∧
      varint2_encode_len 1000 = 2 ∧
      varint2_encode 1000 [0xAA, 0x43, 0xE8, 0x55] 1 = some ([0xAA, 0x43, 0xE8, 0x55], 2)) ∧
    (varint1_decode [0x83, 0xE8] 0 = some ⟨1000, 2⟩ ∧ varint1_encode_len 1000 = 2 ∧
      varint1_encode 1000 [0x83, 0xE8] 0 = some ([0x83, 0xE8], 2)) :=
  ⟨⟨by decide, by decide,
      C16_canonical_reencode.1 [0xAA, 0x43, 0xE8, 0x55] 1 1000 2 (by decide) (by decide)⟩,
    ⟨by decide, by decide,
      C16_canonical_reencode.2 [0x83, 0xE8] 0 1000 2 (by decide) (by decide)⟩⟩

/-! ## C17 — decoded values stay in range -/

theorem shl8_or (a : Nat) (b : Byte) : (a <<< 8) ||| b.val = a * 256 + b.val := by
  have h := shiftLeft_or_eq_add a b.val 8 (by simp)
  simpa using h

/-- C17 (decoded values stay in range, the accumulator never overflows).  For
`varint2` (`H = 2`) and `varint1` (`H = 1`), every buffer and offset with the
header byte `b0` readable and the implied `(b0 >> (8 - H)) + 1` bytes
available: `decode` returns a result with
`value ≤ 2 ^ (8 * bytes_read - H) - 1`, which is at most the format maximum;
`bytes_read` is the length `decode_len` returns, at most `maxBytes` and below
`2 ^ 8`, so the `uint8_t` field holds it untruncated; every intermediate
`(value << 8) | byte`, computed without reduction, is below `2 ^ 32`; and the
returned 32-bit value equals the unbounded fold. -/
theorem C17_decode_range :
    (∀ (buf : Buf) (offset : Nat) (b0 : Byte), buf[offset]? = some b0 →
      offset + ((b0.val >>> (8 - 2)) + 1) ≤ buf.length →
      ∃ r L, varint2_decode buf offset = some r ∧
        varint2_decode_len buf offset = some L ∧
        r.value ≤ 2 ^ (8 * r.bytes_read - 2) - 1 ∧
        2 ^ (8 * r.bytes_read - 2) - 1 ≤ 1073741823 ∧
        L ≤ 4 ∧ L < 2 ^ 8 ∧ r.bytes_read = L ∧
        (∀ m, m ≤ L - 1 →
          ((buf.drop (offset + 1)).take m).foldl (fun acc b => (acc <<< 8) ||| b.val)
            (b0.val &&& (2 ^ (8 - 2) - 1)) < 2 ^ 32) ∧
        r.value =
          ((buf.drop (offset + 1)).take (L - 1)).foldl (fun acc b => (acc <<< 8) ||| b.val)
            (b0.val &&& (2 ^ (8 - 2) - 1))) ∧
    (∀ (buf : Buf) (offset : Nat) (b0 : Byte), buf[offset]? = some b0 →
      offset + ((b0.val >>> (8 - 1)) + 1) ≤ buf.length →
      ∃ r L, varint1_decode buf offset = some r ∧
        varint1_decode_len buf offset = some L ∧
        r.value ≤ 2 ^ (8 * r.bytes_read - 1) - 1 ∧
        2 ^ (8 * r.bytes_read - 1) - 1 ≤ 32767 ∧
        L ≤ 2 ∧ L < 2 ^ 8 ∧ r.bytes_read = L ∧
        (∀ m, m ≤ L - 1 →
          ((buf.drop (offset + 1)).take m).foldl (fun acc b => (acc <<< 8) ||| b.val)
            (b0.val &&& (2 ^ (8 - 1) - 1)) < 2 ^ 32) ∧
        r.value =
          ((buf.drop (offset + 1)).take (L - 1)).foldl (fun acc b => (acc <<< 8) ||| b.val)
            (b0.val &&& (2 ^ (8 - 1) - 1))) := by
  constructor
  · intro buf offset b0 h0 hroom
    have hb := b0.isLt
    rw [Nat.shiftRight_eq_div_pow] at hroom
    norm_num at hroom
    have hroom2 : offset + (b0.val / 64 + 1) ≤ buf.length := by omega
    rcases varint2_decode_shape buf offset b0 h0 hroom2 with
      ⟨hq, hd2⟩ | ⟨hq, c1, h1, hd2⟩ | ⟨hq, c1, c2, h1, h2, hd2⟩ | ⟨hq, c1, c2, c3, h1, h2, h3, hd2⟩
    · have hlen : varint2_decode_len buf offset = some 1 := by
        rw [varint2_decode_len, name_decode_len_of_load 2 buf offset b0 h0]
        norm_num
        omega
      have hw1 : (buf.drop (offset + 1)).take (1 - 1) = [] :=
        window_eq_list buf (offset + 1) [] (by
          intro k hk
          simp at hk)
      refine ⟨_, 1, hd2, hlen, ?_, by norm_num, by omega, by norm_num, rfl,
        fun m hm => ?_, ?_⟩
      · norm_num
        omega
      · have hm2 : (buf.drop (offset + 1)).take m = ([] : List Byte).take m := by
          rw [← hw1, List.take_take, min_eq_left hm]
        rw [hm2, Nat.and_pow_two_sub_one_eq_mod]
        have hm3 : m ≤ 0 := hm
        interval_cases m
        simp only [List.take, List.foldl, shl8_or]
        omega
      · rw [hw1, Nat.and_pow_two_sub_one_eq_mod]
        simp only [List.foldl, shl8_or]
    · have ic1 := c1.isLt
      have hlen : varint2_decode_len buf offset = some 2 := by
        rw [varint2_decode_len, name_decode_len_of_load 2 buf offset b0 h0]
        norm_num
        omega
      have hw1 : (buf.drop (offset + 1)).take (2 - 1) = [c1] :=
        window_eq_list buf (offset + 1) [c1] (by
          intro k hk
          have hk2 : k < 1 := hk
          interval_cases k
          simp [Nat.add_assoc, h1])
      refine ⟨_, 2, hd2, hlen, ?_, by norm_num, by omega, by norm_num, rfl,
        fun m hm => ?_, ?_⟩
      · norm_num
        omega
      · have hm2 : (buf.drop (offset + 1)).take m = ([c1] : List Byte).take m := by
          rw [← hw1, List.take_take, min_eq_left hm]
        rw [hm2, Nat.and_pow_two_sub_one_eq_mod]
        have hm3 : m ≤ 1 := hm
        interval_cases m <;> simp only [List.take, List.foldl, shl8_or] <;> omega
      · rw [hw1, Nat.and_pow_two_sub_one_eq_mod]
        simp only [List.foldl, shl8_or]
    · have ic1 := c1.isLt
      have ic2 := c2.isLt
      have hlen : varint2_decode_len buf offset = some 3 := by
        rw [varint2_decode_len, name_decode_len_of_load 2 buf offset b0 h0]
        norm_num
        omega
      have hw1 : (buf.drop (offset + 1)).take (3 - 1) = [c1, c2] :=
        window_eq_list buf (offset + 1) [c1, c2] (by
          intro k hk
          have hk2 : k < 2 := hk
          interval_cases k <;> simp [Nat.add_assoc, h1, h2])
      refine ⟨_, 3, hd2, hlen, ?_, by norm_num, by omega, by norm_num, rfl,
        fun m hm => ?_, ?_⟩
      · norm_num
        omega
      · have hm2 : (buf.drop (offset + 1)).take m = ([c1, c2] : List Byte).take m := by
          rw [← hw1, List.take_take, min_eq_left hm]
        rw [hm2, Nat.and_pow_two_sub_one_eq_mod]
        have hm3 : m ≤ 2 := hm
        interval_cases m <;> simp only [List.take, List.foldl, shl8_or] <;> omega
      · rw [hw1, Nat.and_pow_two_sub_one_eq_mod]
        simp only [List.foldl, shl8_or]
    · have ic1 := c1.isLt
      have ic2 := c2.isLt
      have ic3 := c3.isLt
      have hlen : varint2_decode_len buf offset = some 4 := by
        rw [varint2_decode_len, name_decode_len_of_load 2 buf offset b0 h0]
        norm_num
        omega
      have hw1 : (buf.drop (offset + 1)).take (4 - 1) = [c1, c2, c3] :=
        window_eq_list buf (offset + 1) [c1, c2, c3] (by
          intro k hk
          have hk2 : k < 3 := hk
          interval_cases k <;> simp [Nat.add_assoc, h1, h2, h3])
      refine ⟨_, 4, hd2, hlen, ?_, by norm_num, by omega, by norm_num, rfl,
        fun m hm => ?_, ?_⟩
      · norm_num
        omega
      · have hm2 : (buf.drop (offset + 1)).take m = ([c1, c2, c3] : List Byte).take m := by
          rw [← hw1, List.take_take, min_eq_left hm]
        rw [hm2, Nat.and_pow_two_sub_one_eq_mod]
        have hm3 : m ≤ 3 := hm
        interval_cases m <;> simp only [List.take, List.foldl, shl8_or] <;> omega
      · rw [hw1, Nat.and_pow_two_sub_one_eq_mod]
        simp only [List.foldl, shl8_or]
  · intro buf offset b0 h0 hroom
    have hb := b0.isLt
    rw [Nat.shiftRight_eq_div_pow] at hroom
    norm_num at hroom
    have hroom2 : offset + (b0.val / 128 + 1) ≤ buf.length := by omega
    rcases varint1_decode_shape buf offset b0 h0 hroom2 with
      ⟨hq, hd2⟩ | ⟨hq, c1, h1, hd2⟩
    · have hlen : varint1_decode_len buf offset = some 1 := by
        rw [varint1_decode_len, name_decode_len_of_load 1 buf offset b0 h0]
        norm_num
        omega
      have hw1 : (buf.drop (offset + 1)).take (1 - 1) = [] :=
        window_eq_list buf (offset + 1) [] (by
          intro k hk
          simp at hk)
      refine ⟨_, 1, hd2, hlen, ?_, by norm_num, by omega, by norm_num, rfl,
        fun m hm => ?_, ?_⟩
      · norm_num
        omega
      · have hm2 : (buf.drop (offset + 1)).take m = ([] : List Byte).take m := by
          rw [← hw1, List.take_take, min_eq_left hm]
        rw [hm2, Nat.and_pow_two_sub_one_eq_mod]
        have hm3 : m ≤ 0 := hm
        interval_cases m
        simp only [List.take, List.foldl, shl8_or]
        omega
      · rw [hw1, Nat.and_pow_two_sub_one_eq_mod]
        simp only [List.foldl, shl8_or]
    · have ic1 := c1.isLt
      have hlen : varint1_decode_len buf offset = some 2 := by
        rw [varint1_decode_len, name_decode_len_of_load 1 buf offset b0 h0]
        norm_num
        omega
      have hw1 : (buf.drop (offset + 1)).take (2 - 1) = [c1] :=
        window_eq_list buf (offset + 1) [c1] (by
          intro k hk
          have hk2 : k < 1 := hk
          interval_cases k
          simp [Nat.add_assoc, h1])
      refine ⟨_, 2, hd2, hlen, ?_, by norm_num, by omega, by norm_num, rfl,
        fun m hm => ?_, ?_⟩
      · norm_num
        omega
      · have hm2 : (buf.drop (offset + 1)).take m = ([c1] : List Byte).take m := by
          rw [← hw1, List.take_take, min_eq_left hm]
        rw [hm2, Nat.and_pow_two_sub_one_eq_mod]
        have hm3 : m ≤ 1 := hm
        interval_cases m <;> simp only [List.take, List.foldl, shl8_or] <;> omega
      · rw [hw1, Nat.and_pow_two_sub_one_eq_mod]
        simp only [List.foldl, shl8_or]

/-- Witness of C17: the all-ones bytes `0xFF 0xFF 0xFF 0xFF` decode to the
`varint2` maximum `0x3FFFFFFF`, and `0xFF 0xFF` to the `varint1` maximum
`0x7FFF`. -/
theorem C17_decode_range_witness :
    (([0xFF, 0xFF, 0xFF, 0xFF] : Buf)[0]? = some 0xFF ∧
      0 + (((0xFF : Byte).val >>> (8 - 2)) + 1) ≤ ([0xFF, 0xFF, 0xFF, 0xFF] : Buf).length ∧
      varint2_decode [0xFF, 0xFF, 0xFF, 0xFF] 0 = some ⟨0x3FFFFFFF, 4⟩ ∧
      ∃ r L, varint2_decode [0xFF, 0xFF, 0xFF, 0xFF] 0 = some r ∧
        varint2_decode_len [0xFF, 0xFF, 0xFF, 0xFF] 0 = some L ∧
        r.value ≤ 2 ^ (8 * r.bytes_read - 2) - 1 ∧
        2 ^ (8 * r.bytes_read - 2) - 1 ≤ 1073741823 ∧ L ≤ 4 ∧ L < 2 ^ 8 ∧
        r.bytes_read = L) ∧
    (([0xFF, 0xFF] : Buf)[0]? = some 0xFF ∧
      0 + (((0xFF : Byte).val >>> (8 - 1)) + 1) ≤ ([0xFF, 0xFF] : Buf).length ∧
      varint1_decode [0xFF, 0xFF] 0 = some ⟨0x7FFF, 2⟩ ∧
      ∃ r L, varint1_decode [0xFF, 0xFF] 0 = some r ∧
        varint1_decode_len [0xFF, 0xFF] 0 = some L ∧
        r.value ≤ 2 ^ (8 * r.bytes_read - 1) - 1 ∧
        2 ^ (8 * r.bytes_read - 1) - 1 ≤ 32767 ∧ L ≤ 2 ∧ L < 2 ^ 8 ∧
        r.bytes_read = L) :=
  ⟨⟨by decide, by decide, by decide,
      (C17_decode_range.1 [0xFF, 0xFF, 0xFF, 0xFF] 0 0xFF (by decide) (by decide)).imp
        fun _ h => h.imp fun _ g =>
          ⟨g.1, g.2.1, g.2.2.1, g.2.2.2.1, g.2.2.2.2.1, g.2.2.2.2.2.1, g.2.2.2.2.2.2.1⟩⟩,
    ⟨by decide, by decide, by decide,
      (C17_decode_range.2 [0xFF, 0xFF] 0 0xFF (by decide) (by decide)).imp
        fun _ h => h.imp fun _ g =>
          ⟨g.1, g.2.1, g.2.2.1, g.2.2.2.1, g.2.2.2.2.1, g.2.2.2.2.2.1, g.2.2.2.2.2.2.1⟩⟩⟩

/-! ## C18 — the unchecked helpers truncate -/

/-- C18 (the unchecked helpers truncate instead of failing).  For every
`uint32_t` value `v > 1073741823` (`varint2`) and every `uint16_t` value
`v > 32767` (`varint1`): `__encode_len v = maxBytes`, never 0; on a buffer with
`maxBytes` bytes of room `__encode v buf offset` returns `maxBytes`, writes only
those `maxBytes` bytes, with header selector `maxBytes - 1`; and decoding the
written bytes gives `bytes_read = maxBytes` and
`value = v mod 2 ^ (8 * maxBytes - H)`, which differs from `v`.  For every `v`
in range `__encode_len` and `__encode` agree with `encode_len` and `encode`. -/
theorem C18_unchecked_truncate :
    (∀ v : Nat, v < 2 ^ 32 → v > 1073741823 →
      varint2__encode_len v = 4 ∧ 1 ≤ varint2__encode_len v ∧ varint2__encode_len v ≠ 0) ∧
    (∀ v : Nat, v < 2 ^ 16 → v > 32767 →
      varint1__encode_len v = 2 ∧ 1 ≤ varint1__encode_len v ∧ varint1__encode_len v ≠ 0) ∧
    (∀ (v : Nat) (buf : Buf) (offset : Nat), v < 2 ^ 32 → v > 1073741823 →
      offset + 4 ≤ buf.length →
      ∃ buf1, varint2__encode v buf offset = some (buf1, 4) ∧
        buf1.length = buf.length ∧
        (∀ j, (j < offset ∨ offset + 4 ≤ j) → buf1[j]? = buf[j]?) ∧
        (∃ b0, buf1[offset]? = some b0 ∧ b0.val >>> (8 - 2) = 4 - 1) ∧
        varint2_decode buf1 offset = some ⟨v % 2 ^ (8 * 4 - 2), 4⟩ ∧
        v % 2 ^ (8 * 4 - 2) ≠ v) ∧
    (∀ (v : Nat) (buf : Buf) (offset : Nat), v < 2 ^ 16 → v > 32767 →
      offset + 2 ≤ buf.length →
      ∃ buf1, varint1__encode v buf offset = some (buf1, 2) ∧
        buf1.length = buf.length ∧
        (∀ j, (j < offset ∨ offset + 2 ≤ j) → buf1[j]? = buf[j]?) ∧
        (∃ b0, buf1[offset]? = some b0 ∧ b0.val >>> (8 - 1) = 2 - 1) ∧
        varint1_decode buf1 offset = some ⟨v % 2 ^ (8 * 2 - 1), 2⟩ ∧
        v % 2 ^ (8 * 2 - 1) ≠ v) ∧
    (∀ (v : Nat) (buf : Buf) (offset : Nat), v ≤ 1073741823 →
      varint2__encode_len v = varint2_encode_len v ∧
      varint2__encode v buf offset = varint2_encode v buf offset) ∧
    (∀ (v : Nat) (buf : Buf) (offset : Nat), v ≤ 32767 →
      varint1__encode_len v = varint1_encode_len v ∧
      varint1__encode v buf offset = varint1_encode v buf offset) := by
  refine ⟨?_, ?_, ?_, ?_, ?_, ?_⟩
  · intro v hv hgt
    rw [varint2__encode_len_eq v (by omega), if_pos (by omega)]
    omega
  · intro v hv hgt
    rw [varint1__encode_len_eq v (by omega), if_pos (by omega)]
    omega
  · intro v buf offset hv hgt hroom
    have hL : name__encode_len 2 v = 4 := by
      have h := varint2__encode_len_eq v (by omega)
      rw [if_pos (by omega)] at h
      exact h
    obtain ⟨buf1, g1, g2, g3⟩ := name__encode_spec 2 v buf offset (by omega) (by omega)
    rw [hL] at g1 g3
    have hb : ∀ k, k < 4 → buf1[offset + k]? = some (enc_byte 2 v 4 k) := by
      intro k hk
      rw [g3 (offset + k), if_pos (by omega), Nat.add_sub_cancel_left]
    have b0 := hb 0 (by omega)
    have b1 := hb 1 (by omega)
    have b2 := hb 2 (by omega)
    have b3 := hb 3 (by omega)
    simp only [Nat.add_zero] at b0
    have e0 := enc_byte_zero_val 2 v 4 (by decide)
    have e1 := enc_byte_succ_val 2 v 4 1 (by decide)
    have e2 := enc_byte_succ_val 2 v 4 2 (by decide)
    have e3 := enc_byte_succ_val 2 v 4 3 (by decide)
    norm_num at e0 e1 e2 e3
    have hh : (enc_byte 2 v 4 0).val / 2 ^ (8 - 2) % 2 ^ 2 = 3 := by
      norm_num
      omega
    refine ⟨buf1, g1, g2, fun j hj => ?_, ⟨_, b0, ?_⟩, ?_, ?_⟩
    · rw [g3 j, if_neg (by omega)]
    · rw [Nat.shiftRight_eq_div_pow, e0]
      norm_num
      omega
    · rw [varint2_decode, name_decode_of_load 2 buf1 offset _ (by decide) b0, hh]
      simp only [name_decode_loop, load, b1, b2, b3, Option.some_bind, Option.bind_eq_bind,
        shl8_or_eq_add _ _ (Fin.isLt _)]
      norm_num
      omega
    · norm_num
      omega
  · intro v buf offset hv hgt hroom
    have hL : name__encode_len 1 v = 2 := by
      have h := varint1__encode_len_eq v (by omega)
      rw [if_pos (by omega)] at h
      exact h
    obtain ⟨buf1, g1, g2, g3⟩ := name__encode_spec 1 v buf offset (by omega) (by omega)
    rw [hL] at g1 g3
    have hb : ∀ k, k < 2 → buf1[offset + k]? = some (enc_byte 1 v 2 k) := by
      intro k hk
      rw [g3 (offset + k), if_pos (by omega), Nat.add_sub_cancel_left]
    have b0 := hb 0 (by omega)
    have b1 := hb 1 (by omega)
    simp only [Nat.add_zero] at b0
    have e0 := enc_byte_zero_val 1 v 2 (by decide)
    have e1 := enc_byte_succ_val 1 v 2 1 (by decide)
    norm_num at e0 e1
    have hh : (enc_byte 1 v 2 0).val / 2 ^ (8 - 1) % 2 ^ 1 = 1 := by
      norm_num
      omega
    refine ⟨buf1, g1, g2, fun j hj => ?_, ⟨_, b0, ?_⟩, ?_, ?_⟩
    · rw [g3 j, if_neg (by omega)]
    · rw [Nat.shiftRight_eq_div_pow, e0]
      norm_num
      omega
    · rw [varint1_decode, name_decode_of_load 1 buf1 offset _ (by decide) b0, hh]
      simp only [name_decode_loop, load, b1, Option.some_bind, Option.bind_eq_bind,
        shl8_or_eq_add _ _ (Fin.isLt _)]
      norm_num
      omega
    · norm_num
      omega
  · intro v buf offset hv
    exact ⟨(varint2_encode_len_of_le v hv).symm, (varint2_encode_of_le v buf offset hv).symm⟩
  · intro v buf offset hv
    exact ⟨(varint1_encode_len_of_le v hv).symm, (varint1_encode_of_le v buf offset hv).symm⟩

/-- Witness of C18: `0xFFFFFFFF` through `varint2__encode` (bytes
`0xFF 0xFF 0xFF 0xFF`, decoded as `0x3FFFFFFF`), `0xFFFF` through
`varint1__encode` (bytes `0xFF 0xFF`, decoded as `0x7FFF`), and the in-range
value `1000` on which checked and unchecked functions agree. -/
theorem C18_unchecked_truncate_witness :
    (0xFFFFFFFF < 2 ^ 32 ∧ 0xFFFFFFFF > 1073741823 ∧ varint2__encode_len 0xFFFFFFFF = 4) ∧
    (0xFFFF < 2 ^ 16 ∧ 0xFFFF > 32767 ∧ varint1__encode_len 0xFFFF = 2) ∧
    (0 + 4 ≤ ([0, 0, 0, 0] : Buf).length ∧
      varint2__encode 0xFFFFFFFF [0, 0, 0, 0] 0 = some ([0xFF, 0xFF, 0xFF, 0xFF], 4) ∧
      ∃ buf1, varint2__encode 0xFFFFFFFF [0, 0, 0, 0] 0 = some (buf1, 4) ∧
        varint2_decode buf1 0 = some ⟨0xFFFFFFFF % 2 ^ (8 * 4 - 2), 4⟩ ∧
        0xFFFFFFFF % 2 ^ (8 * 4 - 2) ≠ 0xFFFFFFFF) ∧
    (0 + 2 ≤ ([0, 0] : Buf).length ∧
      varint1__encode 0xFFFF [0, 0] 0 = some ([0xFF, 0xFF], 2) ∧
      ∃ buf1, varint1__encode 0xFFFF [0, 0] 0 = some (buf1, 2) ∧
        varint1_decode buf1 0 = some ⟨0xFFFF % 2 ^ (8 * 2 - 1), 2⟩ ∧
        0xFFFF % 2 ^ (8 * 2 - 1) ≠ 0xFFFF) ∧
    (1000 ≤ 1073741823 ∧ varint2__encode_len 1000 = varint2_encode_len 1000 ∧
      varint2__encode 1000 [0, 0] 0 = varint2_encode 1000 [0, 0] 0) ∧
    (1000 ≤ 32767 ∧ varint1__encode_len 1000 = varint1_encode_len 1000 ∧
      varint1__encode 1000 [0, 0] 0 = varint1_encode 1000 [0, 0] 0) :=
  ⟨⟨by decide, by decide, (C18_unchecked_truncate.1 0xFFFFFFFF (by decide) (by decide)).1⟩,
    ⟨by decide, by decide, (C18_unchecked_truncate.2.1 0xFFFF (by decide) (by decide)).1⟩,
    ⟨by decide, by decide,
      (C18_unchecked_truncate.2.2.1 0xFFFFFFFF [0, 0, 0, 0] 0 (by decide) (by decide)
        (by decide)).imp fun _ h => ⟨h.1, h.2.2.2.2.1, h.2.2.2.2.2⟩⟩,
    ⟨by decide, by decide,
      (C18_unchecked_truncate.2.2.2.1 0xFFFF [0, 0] 0 (by decide) (by decide)
        (by decide)).imp fun _ h => ⟨h.1, h.2.2.2.2.1, h.2.2.2.2.2⟩⟩,
    ⟨by decide, C18_unchecked_truncate.2.2.2.2.1 1000 [0, 0] 0 (by decide)⟩,
    ⟨by decide, C18_unchecked_truncate.2.2.2.2.2 1000 [0, 0] 0 (by decide)⟩⟩

end Varint
